import Mathlib

/-!
# Agora BigStation: stage workers and their work partition

A shallow embedding of `src/agora/bigstation.cpp` (the FFT, ZF, Demul and Decode
worker threads of `BigStation`, its destructor and its lifecycle controller) together
with theorems about the work partition, the order in which each worker visits its
coordinates, the backoff, the start and teardown sequences, the stores of the channel
estimation `runCsi`, and the row index of `MACSender::tag_to_tx_buffers_index`
(`src/client/mac_sender.cpp`).

Modelling conventions.

* `size_t` values (antenna, subcarrier, symbol, frame and worker counts) are natural
  numbers.  The dimension sizes and worker ids of a configuration are far below the
  64-bit range, so the products `tid * D` are not reduced modulo `2^64`.
* The `int` variables of `zfWorker` (`first_possible_sc`, `last_possible_sc`, `sc_id`)
  are integers reduced to the 32-bit two's complement range at every assignment
  (`toInt32`), and converted back to `size_t` with `toSizeT`.
* The frame state tracker (`bigstation_state_`), the exit signal and the flag
  `config_->running` as written by other threads are the environment of a worker: what
  they answer in one loop iteration is an observation record (`FFTObs`, `ZFObs`,
  `DemulObs`, `DecodeObs`) and a run of a worker consumes one observation per iteration
  of its `while` loop.
* Calls to compute kernels and to the tracker's writers are recorded as events, in
  program order.
* The backoff test compares a difference of two 64-bit timestamps, reduced modulo
  `2^64`, with `freq_ghz_ / 1000`, the calibrated frequency being an exact rational.
* The destructor and `Start()` are sequences of actions of the master thread; `Start()`
  consumes one observation per test of each of its two loops.
* `runCsi` is the list of complex floats it stores into `csi_buffer`, in program order;
  each pair of 256-bit stores writes 8 consecutive complex floats.  The constants
  `kFrameWnd`, `kTransposeBlockSize`, `kSCsPerCacheline`, `SOCKET_BUFFER_FRAME_NUM` and
  the field `UE_ANT_NUM` are declared outside the embedded files and are parameters.
-/

namespace Agora

/-! ## Configuration -/

/-- The fields of `Config` read by `bigstation.cpp`.  The per-server worker counts are
vectors indexed by a server index; `num_ues_to_process` is the value returned by
`get_num_ues_to_process()` and `simple_hash` is the hash function called by the ZF
worker (both are declared outside `bigstation.cpp`). -/
structure Config where
  BS_ANT_NUM : Nat := 0
  UE_NUM : Nat := 0
  OFDM_DATA_NUM : Nat := 0
  symbol_num_perframe : Nat := 0
  pilot_symbol_num_perframe : Nat := 0
  ul_data_symbol_num_perframe : Nat := 0
  frames_to_test : Nat := 0
  demul_block_size : Nat := 0
  total_fft_workers : Nat := 0
  total_zf_workers : Nat := 0
  total_demul_workers : Nat := 0
  num_fft_workers : Nat → Nat := fun _ => 0
  num_zf_workers : Nat → Nat := fun _ => 0
  num_demul_workers : Nat → Nat := fun _ => 0
  num_decode_workers : Nat → Nat := fun _ => 0
  bs_server_addr_idx : Nat := 0
  bs_rru_addr_idx : Nat := 0
  fft_thread_offset : Nat := 0
  zf_thread_offset : Nat := 0
  demul_thread_offset : Nat := 0
  decode_thread_offset : Nat := 0
  core_offset : Nat := 0
  rx_thread_num : Nat := 0
  tx_thread_num : Nat := 0
  num_ues_to_process : Nat := 0
  simple_hash : Nat → Nat := fun x => x

/-! ## Work partition (`bigstation.cpp` lines 137-138, 331-332, 443-444) -/

namespace fftWorker

/-- Source: `size_t ant_start = tid * config_->BS_ANT_NUM / config_->total_fft_workers;` -/
def ant_start (cfg : Config) (tid : Nat) : Nat :=
  tid * cfg.BS_ANT_NUM / cfg.total_fft_workers

/-- Source: `size_t ant_end = (tid + 1) * config_->BS_ANT_NUM / config_->total_fft_workers;` -/
def ant_end (cfg : Config) (tid : Nat) : Nat :=
  (tid + 1) * cfg.BS_ANT_NUM / cfg.total_fft_workers

end fftWorker

namespace zfWorker

/-- Source: `size_t sc_start = tid * config_->OFDM_DATA_NUM / config_->total_zf_workers;` -/
def sc_start (cfg : Config) (tid : Nat) : Nat :=
  tid * cfg.OFDM_DATA_NUM / cfg.total_zf_workers

/-- Source: `size_t sc_end = (tid + 1) * config_->OFDM_DATA_NUM / config_->total_zf_workers;` -/
def sc_end (cfg : Config) (tid : Nat) : Nat :=
  (tid + 1) * cfg.OFDM_DATA_NUM / cfg.total_zf_workers

end zfWorker

namespace demulWorker

/-- Source: `size_t sc_start = tid * config_->OFDM_DATA_NUM / config_->total_demul_workers;` -/
def sc_start (cfg : Config) (tid : Nat) : Nat :=
  tid * cfg.OFDM_DATA_NUM / cfg.total_demul_workers

/-- Source: `size_t sc_end = (tid + 1) * config_->OFDM_DATA_NUM / config_->total_demul_workers;` -/
def sc_end (cfg : Config) (tid : Nat) : Nat :=
  (tid + 1) * cfg.OFDM_DATA_NUM / cfg.total_demul_workers

end demulWorker

/-- The tiling property of a family of half-open shards `[lo t, hi t)`, `t < T`, over
`[0, D)`: the first starts at `0`, each ends where the next starts, the last ends at `D`,
every index below `D` is in exactly one shard, and the sizes add up to `D`. -/
def Tiles (lo hi : Nat → Nat) (T D : Nat) : Prop :=
  lo 0 = 0 ∧
  (∀ t, t + 1 < T → hi t = lo (t + 1)) ∧
  hi (T - 1) = D ∧
  (∀ i, i < D → ∃! t, t < T ∧ lo t ≤ i ∧ i < hi t) ∧
  ((List.range T).map (fun t => hi t - lo t)).sum = D

/-! ## Machine integers -/

/-- Conversion to `int`: reduction to the 32-bit two's complement range. -/
def toInt32 (x : Int) : Int := (x + 2147483648) % 4294967296 - 2147483648

/-- Conversion of an `int` to `size_t`: reduction modulo `2^64`. -/
def toSizeT (x : Int) : Nat := (x % 18446744073709551616).toNat

/-! ## Events -/

/-- The calls a worker makes to its compute kernel and to the writers of the frame
state tracker, with their arguments. -/
inductive Event where
  | fft_Launch (frame symbol ant : Nat)
  | prepare_freq_iq_pkt (frame symbol ant : Nat)
  | runCsi (frame base_sc_id sc_block_size : Nat)
  | ZFFreqOrthogonalStatic (frame symbol sc : Nat)
  | prepare_zf_pkt (frame : Nat)
  | demul_LaunchStatic (frame symbol_ul start len : Nat)
  | prepare_demod_pkt (frame symbol_ul count : Nat)
  | decode_LaunchStatic (frame symbol_ul ue : Nat)
  | decode_done (frame : Nat)
  deriving DecidableEq

/-! ## FFT worker (`bigstation.cpp` lines 131-223) -/

/-- What the environment answers in one iteration of the FFT worker's loop: the value of
`config_->running`, of `SignalHandler::gotExitSignal()` and of
`received_all_time_iq_pkts(cur_frame, cur_symbol)`. -/
structure FFTObs where
  running : Bool := true
  gotExitSignal : Bool := false
  received_all_time_iq_pkts : Bool := true
  deriving DecidableEq

/-- The local variables of `fftWorker`; `in_loop` is false once the `while` loop has
been left (by its test or by `break`). -/
structure FFTState where
  cur_frame : Nat
  cur_symbol : Nat
  cur_ant : Nat
  in_loop : Bool
  deriving DecidableEq

namespace fftWorker

/-- Source: `cur_frame = 0; cur_symbol = 0; cur_ant = ant_start;` -/
def init (cfg : Config) (tid : Nat) : FFTState :=
  { cur_frame := 0, cur_symbol := 0, cur_ant := ant_start cfg tid, in_loop := true }

/-- The body of the `while` loop (lines 160-199). -/
def body (cfg : Config) (tid : Nat) (o : FFTObs) (st : FFTState) : FFTState × List Event :=
  if o.received_all_time_iq_pkts then
    let evs := [Event.fft_Launch st.cur_frame st.cur_symbol st.cur_ant,
                Event.prepare_freq_iq_pkt st.cur_frame st.cur_symbol st.cur_ant]
    let cur_ant := st.cur_ant + 1
    if cur_ant = ant_end cfg tid then
      let cur_symbol := st.cur_symbol + 1
      if cur_symbol = cfg.symbol_num_perframe then
        let cur_frame := st.cur_frame + 1
        if cur_frame = cfg.frames_to_test then
          ({ cur_frame := cur_frame, cur_symbol := 0, cur_ant := ant_start cfg tid,
             in_loop := false }, evs)
        else
          ({ cur_frame := cur_frame, cur_symbol := 0, cur_ant := ant_start cfg tid,
             in_loop := true }, evs)
      else
        ({ st with cur_symbol := cur_symbol, cur_ant := ant_start cfg tid }, evs)
    else
      ({ st with cur_ant := cur_ant }, evs)
  else (st, [])

/-- The `while (config_->running && !SignalHandler::gotExitSignal())` loop, one
observation per iteration. -/
def run (cfg : Config) (tid : Nat) : List FFTObs → FFTState → FFTState × List Event
  | [], st => (st, [])
  | o :: os, st =>
    if st.in_loop then
      if o.running && !o.gotExitSignal then
        let r := body cfg tid o st
        let r' := run cfg tid os r.1
        (r'.1, r.2 ++ r'.2)
      else ({ st with in_loop := false }, [])
    else (st, [])

end fftWorker

/-- The thread function `BigStation::fftWorker(tid)` run against the observations `obs`. -/
def fftWorker (cfg : Config) (tid : Nat) (obs : List FFTObs) : FFTState × List Event :=
  fftWorker.run cfg tid obs (fftWorker.init cfg tid)

/-! ## ZF worker (`bigstation.cpp` lines 324-433) -/

/-- One iteration's observations of the ZF worker: `running` is false when another
thread has cleared `config_->running`; `prepare_zf_pkt` is the value returned by the
tracker call of that name. -/
structure ZFObs where
  running : Bool := true
  gotExitSignal : Bool := false
  received_all_pilot_pkts : Bool := true
  prepare_zf_pkt : Bool := true
  deriving DecidableEq

/-- The local variable of `zfWorker` and the flags `config_->running` and
`config_->error` as this worker has written them. -/
structure ZFState where
  cur_zf_frame : Nat
  running : Bool
  error : Bool
  in_loop : Bool
  deriving DecidableEq

namespace zfWorker

def init : ZFState :=
  { cur_zf_frame := 0, running := true, error := false, in_loop := true }

/-- The loop `for (int sc_id = first_possible_sc; sc_id <= last_possible_sc; sc_id += UE_NUM)`:
the values `sc_id` takes in the loop body, `none` when the loop does not end within
the given number of tests. -/
def sc_loop (UE_NUM : Nat) (last_possible_sc : Int) : Nat → Int → Option (List Int)
  | 0, _ => none
  | fuel + 1, sc_id =>
    if sc_id ≤ last_possible_sc then
      (sc_loop UE_NUM last_possible_sc fuel (toInt32 (sc_id + UE_NUM))).map
        (fun rest => sc_id :: rest)
    else some []

/-- Lines 367, 368 and 370-372: the first subcarrier of the shard in the residue class
`simple_hash(cur_zf_frame) % UE_NUM`. -/
def first_possible_sc (cfg : Config) (tid : Nat) (cur_zf_frame : Nat) : Int :=
  let sc_start := sc_start cfg tid
  let sc_offset := cfg.simple_hash cur_zf_frame % cfg.UE_NUM
  let first_possible_sc := toInt32 ((sc_start - sc_start % cfg.UE_NUM + sc_offset : Nat) : Int)
  if first_possible_sc < toInt32 sc_start then toInt32 (first_possible_sc + cfg.UE_NUM)
  else first_possible_sc

/-- Lines 367, 369 and 373-375: the last subcarrier of the shard in the residue class
`simple_hash(cur_zf_frame) % UE_NUM`. -/
def last_possible_sc (cfg : Config) (tid : Nat) (cur_zf_frame : Nat) : Int :=
  let sc_end := sc_end cfg tid
  let sc_offset := cfg.simple_hash cur_zf_frame % cfg.UE_NUM
  let last_possible_sc := toInt32 ((sc_end - sc_end % cfg.UE_NUM + sc_offset : Nat) : Int)
  if last_possible_sc ≥ toInt32 sc_end then toInt32 (last_possible_sc - cfg.UE_NUM)
  else last_possible_sc

/-- Lines 367-378: the subcarriers `sc_id` visited for frame `cur_zf_frame`.  With
`UE_NUM = 0` the source divides by zero; the loop variable is a 32-bit `int`, so a loop
that has not ended after `2^32` tests never ends. -/
def visited (cfg : Config) (tid : Nat) (cur_zf_frame : Nat) : Option (List Int) :=
  if cfg.UE_NUM = 0 then none
  else if last_possible_sc cfg tid cur_zf_frame ≥ first_possible_sc cfg tid cur_zf_frame then
    sc_loop cfg.UE_NUM (last_possible_sc cfg tid cur_zf_frame) 4294967296
      (first_possible_sc cfg tid cur_zf_frame)
  else some []

/-- Lines 380 and 386: the two kernel calls made in the loop body for `sc_id`. -/
def kernel_calls (cfg : Config) (cur_zf_frame : Nat) (sc_id : Int) : List Event :=
  [Event.runCsi cur_zf_frame (toSizeT sc_id - toSizeT sc_id % cfg.UE_NUM) cfg.UE_NUM,
   Event.ZFFreqOrthogonalStatic cur_zf_frame 0 (toSizeT sc_id - toSizeT sc_id % cfg.UE_NUM)]

/-- The body of the `while` loop (lines 356-408). -/
def body (cfg : Config) (tid : Nat) (o : ZFObs) (st : ZFState) :
    Option (ZFState × List Event) :=
  if o.received_all_pilot_pkts then
    (visited cfg tid st.cur_zf_frame).map fun scs =>
      let evs := scs.flatMap (kernel_calls cfg st.cur_zf_frame) ++
        [Event.prepare_zf_pkt st.cur_zf_frame]
      if o.prepare_zf_pkt then
        ({ st with cur_zf_frame := st.cur_zf_frame + 1 }, evs)
      else
        ({ st with cur_zf_frame := st.cur_zf_frame + 1, error := true, running := false }, evs)
  else some (st, [])

def run (cfg : Config) (tid : Nat) : List ZFObs → ZFState → Option (ZFState × List Event)
  | [], st => some (st, [])
  | o :: os, st =>
    if st.in_loop then
      if st.running && o.running && !o.gotExitSignal then
        match body cfg tid o st with
        | none => none
        | some r =>
          match run cfg tid os r.1 with
          | none => none
          | some r' => some (r'.1, r.2 ++ r'.2)
      else some ({ st with in_loop := false }, [])
    else some (st, [])

end zfWorker

/-- The thread function `BigStation::zfWorker(tid)` run against the observations `obs`. -/
def zfWorker (cfg : Config) (tid : Nat) (obs : List ZFObs) : Option (ZFState × List Event) :=
  zfWorker.run cfg tid obs zfWorker.init

/-! ## Demul worker (`bigstation.cpp` lines 435-537) -/

/-- One iteration's observations of the Demul worker. -/
structure DemulObs where
  running : Bool := true
  gotExitSignal : Bool := false
  received_all_zf_pkts : Bool := true
  received_all_ul_data_pkts : Bool := true
  prepare_demod_pkt : Bool := true
  deriving DecidableEq

/-- The local variables of `demulWorker` and the flags `config_->running` and
`config_->error` as this worker has written them. -/
structure DemulState where
  cur_demul_frame : Nat
  cur_demul_symbol_ul : Nat
  running : Bool
  error : Bool
  in_loop : Bool
  deriving DecidableEq

namespace demulWorker

def init : DemulState :=
  { cur_demul_frame := 0, cur_demul_symbol_ul := 0, running := true, error := false,
    in_loop := true }

/-- The loop `for (size_t sc_id = ...; sc_id < sc_end; sc_id += demul_block_size)` (lines
484-489): the pairs `(cur_start, cur_end - cur_start)` passed to `LaunchStatic`,
`none` when the loop does not end within the given number of tests. -/
def block_loop (demul_block_size sc_start sc_end : Nat) : Nat → Nat → Option (List (Nat × Nat))
  | 0, _ => none
  | fuel + 1, sc_id =>
    if sc_id < sc_end then
      let cur_start := max sc_start sc_id
      let cur_end := min sc_end (sc_id + demul_block_size)
      (block_loop demul_block_size sc_start sc_end fuel (sc_id + demul_block_size)).map
        (fun rest => (cur_start, cur_end - cur_start) :: rest)
    else some []

/-- The blocks of one (frame, symbol) for the shard `[sc_start, sc_end)`.  With
`demul_block_size = 0` the source divides by zero; otherwise `sc_id` grows at each
turn, so the loop has ended after `sc_end + 1` tests. -/
def blocks_of (demul_block_size sc_start sc_end : Nat) : Option (List (Nat × Nat)) :=
  if demul_block_size = 0 then none
  else
    block_loop demul_block_size sc_start sc_end (sc_end + 1)
      (sc_start - sc_start % demul_block_size)

/-- The blocks of worker `tid`. -/
def blocks (cfg : Config) (tid : Nat) : Option (List (Nat × Nat)) :=
  blocks_of cfg.demul_block_size (sc_start cfg tid) (sc_end cfg tid)

/-- Lines 502-506: the cursor after a processed (frame, symbol). -/
def advance (cfg : Config) (st : DemulState) : DemulState :=
  let cur_demul_symbol_ul := st.cur_demul_symbol_ul + 1
  if cur_demul_symbol_ul ≥ cfg.ul_data_symbol_num_perframe then
    { st with cur_demul_symbol_ul := 0, cur_demul_frame := st.cur_demul_frame + 1 }
  else
    { st with cur_demul_symbol_ul := cur_demul_symbol_ul }

/-- The body of the `while` loop (lines 472-512). -/
def body (cfg : Config) (tid : Nat) (o : DemulObs) (st : DemulState) :
    Option (DemulState × List Event) :=
  if o.received_all_zf_pkts && o.received_all_ul_data_pkts then
    (blocks cfg tid).map fun bs =>
      let evs :=
        bs.map (fun b =>
          Event.demul_LaunchStatic st.cur_demul_frame st.cur_demul_symbol_ul b.1 b.2) ++
        [Event.prepare_demod_pkt st.cur_demul_frame st.cur_demul_symbol_ul
          (sc_end cfg tid - sc_start cfg tid)]
      if o.prepare_demod_pkt then (advance cfg st, evs)
      else (advance cfg { st with error := true, running := false }, evs)
  else some (st, [])

def run (cfg : Config) (tid : Nat) :
    List DemulObs → DemulState → Option (DemulState × List Event)
  | [], st => some (st, [])
  | o :: os, st =>
    if st.in_loop then
      if st.running && o.running && !o.gotExitSignal then
        match body cfg tid o st with
        | none => none
        | some r =>
          match run cfg tid os r.1 with
          | none => none
          | some r' => some (r'.1, r.2 ++ r'.2)
      else some ({ st with in_loop := false }, [])
    else some (st, [])

end demulWorker

/-- The thread function `BigStation::demulWorker(tid)` run against the observations `obs`. -/
def demulWorker (cfg : Config) (tid : Nat) (obs : List DemulObs) :
    Option (DemulState × List Event) :=
  demulWorker.run cfg tid obs demulWorker.init

/-! ## Decode worker (`bigstation.cpp` lines 539-631) -/

/-- One iteration's observations of the Decode worker; `decode_done` is the value
returned by the tracker call of that name. -/
structure DecodeObs where
  running : Bool := true
  gotExitSignal : Bool := false
  received_all_demod_pkts : Bool := true
  decode_done : Bool := true
  deriving DecidableEq

/-- The local variables of `decodeWorker` and the flags `config_->running` and
`config_->error` as this worker has written them. -/
structure DecodeState where
  cur_decode_frame : Nat
  cur_decode_idx : Nat
  running : Bool
  error : Bool
  in_loop : Bool
  deriving DecidableEq

namespace decodeWorker

/-- Source: `size_t tid_offset = tid - config_->decode_thread_offset;` (the constructor starts
the worker with `tid = i + decode_thread_offset`). -/
def tid_offset (cfg : Config) (tid : Nat) : Nat := tid - cfg.decode_thread_offset

/-- Source: `cur_decode_frame = 0; cur_decode_idx = tid_offset;` -/
def init (cfg : Config) (tid : Nat) : DecodeState :=
  { cur_decode_frame := 0, cur_decode_idx := tid_offset cfg tid, running := true,
    error := false, in_loop := true }

/-- The body of the `while` loop (lines 571-607); with `get_num_ues_to_process() = 0`
the source divides by zero. -/
def body (cfg : Config) (o : DecodeObs) (st : DecodeState) :
    Option (DecodeState × List Event) :=
  if cfg.num_ues_to_process = 0 then none
  else
    let cur_symbol_ul := st.cur_decode_idx / cfg.num_ues_to_process
    let cur_ue := st.cur_decode_idx % cfg.num_ues_to_process
    if o.received_all_demod_pkts then
      let launch := Event.decode_LaunchStatic st.cur_decode_frame cur_symbol_ul cur_ue
      let cur_decode_idx := st.cur_decode_idx + cfg.num_demul_workers cfg.bs_server_addr_idx
      if cur_decode_idx ≥ cfg.num_ues_to_process * cfg.ul_data_symbol_num_perframe then
        if o.decode_done then
          some ({ st with cur_decode_idx := 0, cur_decode_frame := st.cur_decode_frame + 1 },
            [launch, Event.decode_done st.cur_decode_frame])
        else
          some ({ st with cur_decode_idx := 0, cur_decode_frame := st.cur_decode_frame + 1,
                          error := true, running := false },
            [launch, Event.decode_done st.cur_decode_frame])
      else some ({ st with cur_decode_idx := cur_decode_idx }, [launch])
    else some (st, [])

def run (cfg : Config) : List DecodeObs → DecodeState → Option (DecodeState × List Event)
  | [], st => some (st, [])
  | o :: os, st =>
    if st.in_loop then
      if st.running && o.running && !o.gotExitSignal then
        match body cfg o st with
        | none => none
        | some r =>
          match run cfg os r.1 with
          | none => none
          | some r' => some (r'.1, r.2 ++ r'.2)
      else some ({ st with in_loop := false }, [])
    else some (st, [])

end decodeWorker

/-- The thread function `BigStation::decodeWorker(tid)` run against the observations `obs`. -/
def decodeWorker (cfg : Config) (tid : Nat) (obs : List DecodeObs) :
    Option (DecodeState × List Event) :=
  decodeWorker.run cfg obs (decodeWorker.init cfg tid)

/-! ## Example configurations -/

/-- The partition edge scenario: 64 antennas, 16 users and 1201 subcarriers, with four
workers in each of the FFT, ZF and Demul stages. -/
def partitionEdge : Config :=
  { BS_ANT_NUM := 64, UE_NUM := 16, OFDM_DATA_NUM := 1201,
    symbol_num_perframe := 10, pilot_symbol_num_perframe := 2,
    ul_data_symbol_num_perframe := 8, frames_to_test := 1000, demul_block_size := 48,
    total_fft_workers := 4, total_zf_workers := 4, total_demul_workers := 4,
    num_fft_workers := fun _ => 2, num_zf_workers := fun _ => 2,
    num_demul_workers := fun _ => 2, num_decode_workers := fun _ => 2,
    num_ues_to_process := 16 }

/-- A small decode configuration: 2 users and 2 uplink symbols per frame (4 pairs per
frame), 2 demul workers and 2 decode workers on the server, decode thread ids 0 and 1. -/
def twoDecoders : Config :=
  { UE_NUM := 2, ul_data_symbol_num_perframe := 2, num_ues_to_process := 2,
    num_demul_workers := fun _ => 2, num_decode_workers := fun _ => 2,
    decode_thread_offset := 0 }

/-- More FFT workers than antennas: one antenna, two workers, so that worker 0 has the
empty shard `[0, 0)` and worker 1 the shard `[0, 1)`. -/
def oneAntenna : Config :=
  { BS_ANT_NUM := 1, total_fft_workers := 2, symbol_num_perframe := 1, frames_to_test := 1 }

/-- The events of a run, when it returns. -/
def trace {σ : Type} (r : Option (σ × List Event)) : Option (List Event) :=
  r.map (fun x => x.2)

/-- The `(symbol, UE)` pairs passed to the decode kernel for frame `f` in a list of
events, in order. -/
def decodedPairs (f : Nat) : List Event → List (Nat × Nat)
  | [] => []
  | Event.decode_LaunchStatic frame symbol_ul ue :: rest =>
    if frame = f then (symbol_ul, ue) :: decodedPairs f rest else decodedPairs f rest
  | _ :: rest => decodedPairs f rest

/-- Five subcarriers over three demul workers. -/
def fiveOverThree : Config :=
  { OFDM_DATA_NUM := 5, total_demul_workers := 3, demul_block_size := 4 }

/-- The sizes of the shards `[lo t, hi t)`, `t < T`, of a dimension `D` that `T` does
not divide: every shard has `D / T` or `D / T + 1` elements, the last one has
`D / T + 1` (so no shard is larger than the last), and when the remainder `D % T` is 1
all shards before the last have `D / T`. -/
def NearEqualShards (lo hi : Nat → Nat) (T D : Nat) : Prop :=
  (∀ t, t < T → hi t - lo t = D / T ∨ hi t - lo t = D / T + 1) ∧
  hi (T - 1) - lo (T - 1) = D / T + 1 ∧
  (∀ t, t < T → hi t - lo t ≤ hi (T - 1) - lo (T - 1)) ∧
  (D % T = 1 → ∀ t, t + 1 < T → hi t - lo t = D / T)

/-- The blocks `(start, length)` of `bs` are consecutive from `a` to `b`: the first starts
at `a`, each one starts where the previous one ended, and the last ends at `b`. -/
def ConsecutiveFromTo : List (Nat × Nat) → Nat → Nat → Prop
  | [], a, b => a = b
  | blk :: rest, a, b => blk.1 = a ∧ ConsecutiveFromTo rest (blk.1 + blk.2) b

/-! ## Lexicographic enumeration of the FFT coordinates -/

/-- The coordinates of one (frame, symbol): the antennas of the shard in increasing
order. -/
def lexRow (a0 a1 f s : Nat) : List (Nat × Nat × Nat) :=
  (List.range' a0 (a1 - a0)).map (fun a => (f, s, a))

/-- The coordinates of one frame: its symbols in increasing order, antennas innermost. -/
def lexFrame (S a0 a1 f : Nat) : List (Nat × Nat × Nat) :=
  (List.range' 0 S).flatMap (lexRow a0 a1 f)

/-- The lexicographic enumeration of `(frame, symbol, ant)` over
`[0, F) × [0, S) × [a0, a1)`, `ant` innermost. -/
def lexCoords (F S a0 a1 : Nat) : List (Nat × Nat × Nat) :=
  (List.range' 0 F).flatMap (lexFrame S a0 a1)

/-- The part of the enumeration from the coordinate `(f, s, a)` on. -/
def lexFrom (F S a0 a1 f s a : Nat) : List (Nat × Nat × Nat) :=
  (List.range' a (a1 - a)).map (fun x => (f, s, x)) ++
  (List.range' (s + 1) (S - (s + 1))).flatMap (lexRow a0 a1 f) ++
  (List.range' (f + 1) (F - (f + 1))).flatMap (lexFrame S a0 a1)

/-- The two calls made for one coordinate: the FFT kernel, then the publication. -/
def fftCalls (c : Nat × Nat × Nat) : List Event :=
  [Event.fft_Launch c.1 c.2.1 c.2.2, Event.prepare_freq_iq_pkt c.1 c.2.1 c.2.2]

/-- The number of observations that report the time-IQ packets received, among those
that come before the first observation at which the loop test fails. -/
def fftWorker.readyIterations : List FFTObs → Nat
  | [] => 0
  | o :: os =>
    if o.running && !o.gotExitSignal then
      (if o.received_all_time_iq_pkts then 1 else 0) + readyIterations os
    else 0

/-- Four antennas over two FFT workers, two symbols per frame, two frames. -/
def smallFFT : Config :=
  { BS_ANT_NUM := 4, total_fft_workers := 2, symbol_num_perframe := 2, frames_to_test := 2 }

/-! ## Shard sizes -/

/-- The shards `[lo t, hi t)`, `t < T`, of a dimension `D` are balanced: each has
`floor(D/T)` or `ceil(D/T)` elements, any two sizes differ by at most one, and the
boundaries are non-decreasing in `t`. -/
def BalancedShards (lo hi : Nat → Nat) (T D : Nat) : Prop :=
  (∀ t, t < T → hi t - lo t = D / T ∨ hi t - lo t = (D + T - 1) / T) ∧
  (∀ s t, s < T → t < T → hi s - lo s ≤ hi t - lo t + 1) ∧
  (∀ t, lo t ≤ hi t) ∧
  (∀ s t, s ≤ t → lo s ≤ lo t ∧ hi s ≤ hi t)

/-! ## Teardown (`bigstation.cpp` lines 57-73 and 656-666) -/

/-- The shared artifact buffers of `BigStation`. -/
inductive Buffer where
  | time_iq_buffer_
  | freq_iq_buffer_to_send_
  | freq_iq_buffer_
  | post_zf_buffer_to_send_
  | post_zf_buffer_
  | post_demul_buffer_to_send_
  | post_demul_buffer_
  | post_decode_buffer_
  deriving DecidableEq

/-- The four pools of worker threads. -/
inductive Pool where
  | do_fft_threads_
  | do_zf_threads_
  | do_demul_threads_
  | do_decode_threads_
  deriving DecidableEq

/-- The actions of the teardown: freeing a buffer, joining thread `i` of a pool. -/
inductive TeardownAction where
  | free (b : Buffer)
  | join (p : Pool) (i : Nat)
  deriving DecidableEq

namespace BigStation

/-- The function `BigStation::freeBigStationBuffers()`: the three `free()` calls that are
not commented out, in order. -/
def freeBigStationBuffers : List TeardownAction :=
  [TeardownAction.free Buffer.time_iq_buffer_,
   TeardownAction.free Buffer.freq_iq_buffer_to_send_,
   TeardownAction.free Buffer.freq_iq_buffer_]

/-- The joins `for (auto& t : pool) t.join();` of a pool of `n` threads. -/
def joinAll (p : Pool) (n : Nat) : List TeardownAction :=
  (List.range n).map (TeardownAction.join p)

/-- The destructor `BigStation::~BigStation()`; the pools have the sizes given to them
by the constructor (lines 31-43). -/
def destructor (cfg : Config) : List TeardownAction :=
  freeBigStationBuffers ++
  joinAll Pool.do_fft_threads_ (cfg.num_fft_workers cfg.bs_server_addr_idx) ++
  joinAll Pool.do_zf_threads_ (cfg.num_zf_workers cfg.bs_server_addr_idx) ++
  joinAll Pool.do_demul_threads_ (cfg.num_demul_workers cfg.bs_server_addr_idx) ++
  joinAll Pool.do_decode_threads_ (cfg.num_decode_workers cfg.bs_server_addr_idx)

end BigStation

/-- Whether an action is a join. -/
def TeardownAction.isJoin : TeardownAction → Bool
  | TeardownAction.join _ _ => true
  | TeardownAction.free _ => false

/-- No `free` precedes a `join` in a sequence of teardown actions. -/
def joinsBeforeFrees : List TeardownAction → Bool
  | [] => true
  | TeardownAction.free _ :: rest => rest.all (fun a => !a.isJoin)
  | TeardownAction.join _ _ :: rest => joinsBeforeFrees rest

/-! ## Core assignment (`bigstation.cpp` lines 31-46, 133-135, 326-329, 437-441, 541-546) -/

/-- The third argument of `pin_to_core_with_offset` in `fftWorker`. -/
def fftWorker.core_id (cfg : Config) (tid : Nat) : Nat :=
  tid - cfg.fft_thread_offset

/-- The third argument of `pin_to_core_with_offset` in `zfWorker`. -/
def zfWorker.core_id (cfg : Config) (tid : Nat) : Nat :=
  tid - cfg.zf_thread_offset + cfg.num_fft_workers cfg.bs_rru_addr_idx

/-- The third argument of `pin_to_core_with_offset` in `demulWorker`. -/
def demulWorker.core_id (cfg : Config) (tid : Nat) : Nat :=
  tid - cfg.demul_thread_offset + cfg.num_fft_workers cfg.bs_rru_addr_idx
    + cfg.num_zf_workers cfg.bs_rru_addr_idx

/-- The third argument of `pin_to_core_with_offset` in `decodeWorker`. -/
def decodeWorker.core_id (cfg : Config) (tid : Nat) : Nat :=
  tid - cfg.decode_thread_offset + cfg.num_fft_workers cfg.bs_rru_addr_idx
    + cfg.num_zf_workers cfg.bs_rru_addr_idx + cfg.num_demul_workers cfg.bs_rru_addr_idx

/-- The core indices of the worker threads the constructor spawns (lines 31-46): thread
`i` of a pool is started with `tid = i + ` the pool's thread offset. -/
def BigStation.worker_core_ids (cfg : Config) : List Nat :=
  (List.range (cfg.num_fft_workers cfg.bs_server_addr_idx)).map
    (fun i => fftWorker.core_id cfg (i + cfg.fft_thread_offset)) ++
  (List.range (cfg.num_zf_workers cfg.bs_server_addr_idx)).map
    (fun i => zfWorker.core_id cfg (i + cfg.zf_thread_offset)) ++
  (List.range (cfg.num_demul_workers cfg.bs_server_addr_idx)).map
    (fun i => demulWorker.core_id cfg (i + cfg.demul_thread_offset)) ++
  (List.range (cfg.num_decode_workers cfg.bs_server_addr_idx)).map
    (fun i => decodeWorker.core_id cfg (i + cfg.decode_thread_offset))

/-- A server (index 0) with two FFT workers and one worker in each other stage, while
the entry at the RRU index (1) of `num_fft_workers` is 1. -/
def unevenServers : Config :=
  { bs_server_addr_idx := 0, bs_rru_addr_idx := 1,
    num_fft_workers := fun i => if i = 0 then 2 else 1,
    num_zf_workers := fun _ => 1, num_demul_workers := fun _ => 1,
    num_decode_workers := fun _ => 1,
    fft_thread_offset := 0, zf_thread_offset := 2, demul_thread_offset := 3,
    decode_thread_offset := 4 }

/-! ## Cooperative backoff (`bigstation.cpp` lines 201-205, 410-414, 514-518, 609-613) -/

/-- The difference `cur_sleep_tsc - last_sleep_tsc` of two `size_t` timestamps. -/
def elapsed_tsc (cur_sleep_tsc last_sleep_tsc : Nat) : Nat :=
  (cur_sleep_tsc + 18446744073709551616 - last_sleep_tsc) % 18446744073709551616

/-- The test `cur_sleep_tsc - last_sleep_tsc > freq_ghz_ / 1000` and its effect: the new
value of `last_sleep_tsc` and whether `sleep_for(microseconds(1))` is called.  The
calibrated frequency `freq_ghz_` is taken as an exact rational. -/
def backoff (freq_ghz : ℚ) (cur_sleep_tsc last_sleep_tsc : Nat) : Nat × Bool :=
  if ((elapsed_tsc cur_sleep_tsc last_sleep_tsc : Nat) : ℚ) > freq_ghz / 1000 then
    (cur_sleep_tsc, true)
  else (last_sleep_tsc, false)

/-- What one iteration of a worker's `while` loop leaves behind: the worker's variables,
the calls made, `last_sleep_tsc`, and whether the iteration slept. -/
structure Iteration (σ : Type) where
  st : σ
  events : List Event
  last_sleep_tsc : Nat
  slept : Bool

/-- One iteration of the FFT worker's loop: the body, then the backoff test of lines
201-205 with `cur_sleep_tsc` the value `rdtsc()` returns there; the `break` of line 190
skips the test. -/
def fftWorker.iteration (cfg : Config) (tid : Nat) (freq_ghz : ℚ) (o : FFTObs)
    (cur_sleep_tsc : Nat) (st : FFTState) (last_sleep_tsc : Nat) : Iteration FFTState :=
  let r := fftWorker.body cfg tid o st
  if r.1.in_loop then
    let b := backoff freq_ghz cur_sleep_tsc last_sleep_tsc
    { st := r.1, events := r.2, last_sleep_tsc := b.1, slept := b.2 }
  else
    { st := r.1, events := r.2, last_sleep_tsc := last_sleep_tsc, slept := false }

/-- One iteration of the ZF worker's loop: the body, then the backoff test of lines
410-414. -/
def zfWorker.iteration (cfg : Config) (tid : Nat) (freq_ghz : ℚ) (o : ZFObs)
    (cur_sleep_tsc : Nat) (st : ZFState) (last_sleep_tsc : Nat) :
    Option (Iteration ZFState) :=
  (zfWorker.body cfg tid o st).map fun r =>
    let b := backoff freq_ghz cur_sleep_tsc last_sleep_tsc
    { st := r.1, events := r.2, last_sleep_tsc := b.1, slept := b.2 }

/-- One iteration of the Demul worker's loop: the body, then the backoff test of lines
514-518. -/
def demulWorker.iteration (cfg : Config) (tid : Nat) (freq_ghz : ℚ) (o : DemulObs)
    (cur_sleep_tsc : Nat) (st : DemulState) (last_sleep_tsc : Nat) :
    Option (Iteration DemulState) :=
  (demulWorker.body cfg tid o st).map fun r =>
    let b := backoff freq_ghz cur_sleep_tsc last_sleep_tsc
    { st := r.1, events := r.2, last_sleep_tsc := b.1, slept := b.2 }

/-- One iteration of the Decode worker's loop: the body, then the backoff test of lines
609-613. -/
def decodeWorker.iteration (cfg : Config) (freq_ghz : ℚ) (o : DecodeObs)
    (cur_sleep_tsc : Nat) (st : DecodeState) (last_sleep_tsc : Nat) :
    Option (Iteration DecodeState) :=
  (decodeWorker.body cfg o st).map fun r =>
    let b := backoff freq_ghz cur_sleep_tsc last_sleep_tsc
    { st := r.1, events := r.2, last_sleep_tsc := b.1, slept := b.2 }

/-- Eight subcarriers over two ZF workers with 16 users: the shards `[0, 4)` and `[4, 8)`
are shorter than the step of the ZF loop. -/
def narrowZF : Config :=
  { UE_NUM := 16, OFDM_DATA_NUM := 8, total_zf_workers := 2 }

/-! ## Order of the Decode worker's calls -/

/-- The calls of a decode worker from frame `f` on are in frame order: every call is a
launch of the current frame, or a launch of the current frame followed at once by
`decode_done` of that frame, after which the current frame is the next one. -/
inductive DecodeOrdered : Nat → List Event → Prop where
  | done (f : Nat) : DecodeOrdered f []
  | launch (f symbol_ul ue : Nat) (rest : List Event) :
      DecodeOrdered f rest →
      DecodeOrdered f (Event.decode_LaunchStatic f symbol_ul ue :: rest)
  | last (f symbol_ul ue : Nat) (rest : List Event) :
      DecodeOrdered (f + 1) rest →
      DecodeOrdered f
        (Event.decode_LaunchStatic f symbol_ul ue :: Event.decode_done f :: rest)

/-- The calls a Demul worker makes for one processed (frame, uplink symbol): a
`LaunchStatic` for each block `(start, length)` of `bs`, then `prepare_demod_pkt`. -/
def demulWorker.pair_calls (cfg : Config) (tid : Nat) (bs : List (Nat × Nat))
    (frame symbol_ul : Nat) : List Event :=
  bs.map (fun b => Event.demul_LaunchStatic frame symbol_ul b.1 b.2) ++
    [Event.prepare_demod_pkt frame symbol_ul
      (demulWorker.sc_end cfg tid - demulWorker.sc_start cfg tid)]

/-- Two uplink symbols per frame, four subcarriers for one demul worker, blocks of 4. -/
def smallDemul : Config :=
  { OFDM_DATA_NUM := 4, total_demul_workers := 1, demul_block_size := 4,
    ul_data_symbol_num_perframe := 2 }

/-! ## Lifecycle controller (`bigstation.cpp` lines 75-129) -/

/-- The calls of the master thread that matter for the lifecycle. -/
inductive MasterCall where
  | StartTXRX
  | notify_sender
  | Stop
  deriving DecidableEq

/-- What the master thread has done so far: the value it last gave `config_->running`,
whether `bigstation_tx_rx_` has been reset (the I/O plane released), and its calls. -/
structure MasterState where
  running : Bool
  tx_rx_released : Bool
  calls : List MasterCall
  deriving DecidableEq

/-- One test of the loop `while (rru_start_ == false && !gotExitSignal())`. -/
structure WaitObs where
  rru_start_ : Bool := false
  gotExitSignal : Bool := false
  deriving DecidableEq

/-- One test of the loop `while (cfg->running && !gotExitSignal())` and the value of
`bigstation_state_.cur_frame_` read in its body. -/
structure RunningObs where
  running : Bool := true
  gotExitSignal : Bool := false
  cur_frame_ : Nat := 0
  deriving DecidableEq

/-- The environment of `Start()`: the value `StartTXRX()` returns and the observations
of its two loops. -/
structure StartEnv where
  StartTXRX : Bool := true
  wait : List WaitObs := []
  running : List RunningObs := []

/-- The way `Start()` reaches its end: `StartTXRX()` failed, the Running loop was left
on the frame condition (with the value of `cur_frame_` read), or its loop test failed. -/
inductive ExitPath where
  | txrx_failed
  | frame_condition (cur_frame_ : Nat)
  | loop_test
  deriving DecidableEq

namespace BigStation

/-- The state of the master thread when `Start()` is called. -/
def started : MasterState :=
  { running := true, tx_rx_released := false, calls := [] }

/-- The function `BigStation::Stop()` (lines 75-82): clears `running`, resets
`bigstation_tx_rx_`. -/
def Stop (st : MasterState) : MasterState :=
  { running := false, tx_rx_released := true, calls := st.calls ++ [MasterCall.Stop] }

/-- Lines 97-100: the calls made while waiting for the RRU, `none` while the loop has not
ended within the observations. -/
def wait_loop : List WaitObs → Option (List MasterCall)
  | [] => none
  | o :: os =>
    if o.rru_start_ == false && !o.gotExitSignal then
      (wait_loop os).map (fun cs => MasterCall.notify_sender :: cs)
    else some []

/-- Lines 102-110: how the Running loop is left, `none` while it has not been left within
the observations. -/
def running_loop (cfg : Config) : List RunningObs → Option ExitPath
  | [] => none
  | o :: os =>
    if o.running && !o.gotExitSignal then
      if o.cur_frame_ = cfg.frames_to_test then some (ExitPath.frame_condition o.cur_frame_)
      else running_loop cfg os
    else some ExitPath.loop_test

/-- The function `BigStation::Start()` (lines 84-129): the path taken and the master's
state when it returns, `none` while it has not returned within the observations. -/
def Start (cfg : Config) (env : StartEnv) : Option (ExitPath × MasterState) :=
  let st := { started with calls := started.calls ++ [MasterCall.StartTXRX] }
  if !env.StartTXRX then
    some (ExitPath.txrx_failed, Stop st)
  else
    match wait_loop env.wait with
    | none => none
    | some cs =>
      match running_loop cfg env.running with
      | none => none
      | some path =>
        some (path, Stop { st with calls := st.calls ++ cs, running := false })

end BigStation

/-! ## Subcarrier groups of the ZF stage -/

/-- The group bases `base_sc_id` passed to `runCsi` in a list of events, in order. -/
def csiGroups : List Event → List Nat
  | [] => []
  | Event.runCsi _ base_sc_id _ :: rest => base_sc_id :: csiGroups rest
  | _ :: rest => csiGroups rest

/-- The group bases passed to `ZFFreqOrthogonalStatic` in a list of events, in order. -/
def zfGroups : List Event → List Nat
  | [] => []
  | Event.ZFFreqOrthogonalStatic _ _ sc :: rest => sc :: zfGroups rest
  | _ :: rest => zfGroups rest

/-- The events of ZF worker `tid` in the iteration that processes frame `f` (pilot
predicate true). -/
def zfWorker.frame_events (cfg : Config) (tid f : Nat) : Option (List Event) :=
  trace (zfWorker.body cfg tid {}
    { cur_zf_frame := f, running := true, error := false, in_loop := true })

/-- The subcarrier groups ZF worker `tid` passes to `runCsi` in frame `f`. -/
def zfWorker.groups (cfg : Config) (tid f : Nat) : Option (List Nat) :=
  (zfWorker.frame_events cfg tid f).map csiGroups

/-- Forty subcarriers in groups of 4 users over three ZF workers: the shards are
`[0, 13)`, `[13, 26)` and `[26, 40)`, so the groups `[12, 16)` and `[24, 28)` straddle a
shard boundary. -/
def stridedZF : Config :=
  { UE_NUM := 4, OFDM_DATA_NUM := 40, total_zf_workers := 3 }

/-! ## MAC sender (`client/mac_sender.cpp` lines 26-30 and 52-53) -/

/-- The fields of a `gen_tag_t` read by `MACSender`. -/
structure gen_tag_t where
  frame_id : Nat
  symbol_id : Nat
  ant_id : Nat
  deriving DecidableEq

namespace MACSender

/-- The function `MACSender::tag_to_tx_buffers_index`; the macro `SOCKET_BUFFER_FRAME_NUM`
and the field `cfg->UE_ANT_NUM` are parameters. -/
def tag_to_tx_buffers_index (SOCKET_BUFFER_FRAME_NUM UE_ANT_NUM : Nat) (tag : gen_tag_t) :
    Nat :=
  let frame_slot := tag.frame_id % SOCKET_BUFFER_FRAME_NUM
  (frame_slot * UE_ANT_NUM) + tag.ant_id

/-- The number of rows of `tx_buffers_`: the first argument of
`tx_buffers_.malloc(SOCKET_BUFFER_FRAME_NUM * cfg->UE_ANT_NUM, ...)` in the constructor. -/
def tx_buffers_rows (SOCKET_BUFFER_FRAME_NUM UE_ANT_NUM : Nat) : Nat :=
  SOCKET_BUFFER_FRAME_NUM * UE_ANT_NUM

end MACSender

/-! ## Range of the Decode worker's coordinates -/

/-- A call of the decode kernel has its uplink symbol below
`ul_data_symbol_num_perframe` and its UE below `get_num_ues_to_process()`; other events
are not constrained. -/
def decodeInRange (cfg : Config) : Event → Prop
  | Event.decode_LaunchStatic _ symbol_ul ue =>
    symbol_ul < cfg.ul_data_symbol_num_perframe ∧ ue < cfg.num_ues_to_process
  | _ => True

/-! ## Channel estimation (`bigstation.cpp` lines 225-322) -/

/-- The constants of `Symbols.hpp` used by `runCsi` (their values are declared outside
`bigstation.cpp`). -/
structure Symbols where
  kFrameWnd : Nat
  kTransposeBlockSize : Nat
  kSCsPerCacheline : Nat

/-- One complex float stored by `runCsi`: into `csi_buffer[frame_slot][i]` at `offset`,
the product for subcarrier `sc` of the packet of antenna `j`. -/
structure CsiWrite where
  frame_slot : Nat
  i : Nat
  j : Nat
  sc : Nat
  offset : Nat
  deriving DecidableEq

namespace BigStation

/-- Lines 286-317: the two 256-bit stores `_mm256_stream_ps(dst, ...)` and
`_mm256_stream_ps(dst + 4, ...)` write the 8 complex floats `dst[0..7]`, the products for
the subcarriers `sc_idx, ..., sc_idx + 7`. -/
def runCsi_stores (frame_slot i j sc_idx dst : Nat) : List CsiWrite :=
  (List.range 8).map (fun t =>
    { frame_slot := frame_slot, i := i, j := j, sc := sc_idx + t, offset := dst + t })

/-- The function `BigStation::runCsi`: the stores it makes, in order.  A loop
`for (x = a; x < b; x++)` runs over `List.range' a (b - a)`; the loop
`for (sc_j = 0; sc_j < kTransposeBlockSize; sc_j += kSCsPerCacheline)` runs over the
multiples of `kSCsPerCacheline ≥ 1` below `kTransposeBlockSize`. -/
def runCsi (syms : Symbols) (cfg : Config) (frame_id base_sc_id sc_block_size : Nat) :
    List CsiWrite :=
  let frame_slot := frame_id % syms.kFrameWnd
  let sc_start := base_sc_id
  let sc_end := sc_start + sc_block_size
  (List.range cfg.pilot_symbol_num_perframe).flatMap fun i =>
    (List.range cfg.BS_ANT_NUM).flatMap fun j =>
      (List.range' (sc_start / syms.kTransposeBlockSize)
        (sc_end / syms.kTransposeBlockSize - sc_start / syms.kTransposeBlockSize)).flatMap
        fun block_idx =>
          let block_base_offset := block_idx * (syms.kTransposeBlockSize * cfg.BS_ANT_NUM)
          (List.range' 0
            ((syms.kTransposeBlockSize + syms.kSCsPerCacheline - 1) / syms.kSCsPerCacheline)
            syms.kSCsPerCacheline).flatMap
            fun sc_j =>
              let sc_idx := (block_idx * syms.kTransposeBlockSize) + sc_j
              runCsi_stores frame_slot i j sc_idx
                (block_base_offset + (j * syms.kTransposeBlockSize) + sc_j)

end BigStation

/-- The stores the claim describes for the subcarrier range `[first, first + count)`:
for every pilot symbol `i` and antenna `j`, one store per subcarrier `sc` of the range,
at offset `block * (kTransposeBlockSize * BS_ANT_NUM) + j * kTransposeBlockSize +
sc mod kTransposeBlockSize` of `csi_buffer[frame mod kFrameWnd][i]`, with
`block = sc / kTransposeBlockSize`. -/
def claimedCsiWrites (syms : Symbols) (cfg : Config) (frame_id first count : Nat) :
    List CsiWrite :=
  (List.range cfg.pilot_symbol_num_perframe).flatMap fun i =>
    (List.range cfg.BS_ANT_NUM).flatMap fun j =>
      (List.range' first count).map fun sc =>
        { frame_slot := frame_id % syms.kFrameWnd, i := i, j := j, sc := sc,
          offset := (sc / syms.kTransposeBlockSize)
              * (syms.kTransposeBlockSize * cfg.BS_ANT_NUM)
            + j * syms.kTransposeBlockSize + sc % syms.kTransposeBlockSize }

/-- Constants with 8 subcarriers per cache line and transpose blocks of 8 subcarriers. -/
def blocksOf8 : Symbols :=
  { kFrameWnd := 40, kTransposeBlockSize := 8, kSCsPerCacheline := 8 }

/-- One antenna, one pilot symbol, four users. -/
def fourUsers : Config :=
  { BS_ANT_NUM := 1, pilot_symbol_num_perframe := 1, UE_NUM := 4 }

/-- More Demul workers than subcarriers: one subcarrier, two workers, so that worker 0 has
the empty shard `[0, 0)` and worker 1 the shard `[0, 1)`. -/
def oneSubcarrier : Config :=
  { OFDM_DATA_NUM := 1, total_demul_workers := 2, demul_block_size := 1,
    ul_data_symbol_num_perframe := 2 }

/-! ## Arithmetic of the floor partition -/

theorem floor_bound_mono (D T : Nat) {s t : Nat} (h : s ≤ t) : s * D / T ≤ t * D / T :=
  Nat.div_le_div_right (Nat.mul_le_mul_right D h)

theorem floor_bound_last (D T : Nat) (hT : 1 ≤ T) : T * D / T = D :=
  Nat.mul_div_cancel_left D hT

theorem floor_bound_cover (D T : Nat) :
    ∀ n i, i < n * D / T → ∃ t, t < n ∧ t * D / T ≤ i ∧ i < (t + 1) * D / T := by
  intro n
  induction n with
  | zero => intro i hi; simp at hi
  | succ n ih =>
    intro i hi
    by_cases h : i < n * D / T
    · obtain ⟨t, ht, h1, h2⟩ := ih i h
      exact ⟨t, Nat.lt_succ_of_lt ht, h1, h2⟩
    · exact ⟨n, Nat.lt_succ_self n, Nat.le_of_not_lt h, hi⟩

theorem floor_bound_sum (D T : Nat) :
    ∀ n, ((List.range n).map (fun t => (t + 1) * D / T - t * D / T)).sum = n * D / T := by
  intro n
  induction n with
  | zero => simp
  | succ n ih =>
    rw [List.range_succ, List.map_append, List.sum_append, ih]
    have := floor_bound_mono D T (Nat.le_add_right n 1)
    simp only [List.map_cons, List.map_nil, List.sum_cons, List.sum_nil, Nat.add_zero]
    omega

theorem floor_partition_tiles (D T : Nat) (hT : 1 ≤ T) :
    Tiles (fun t => t * D / T) (fun t => (t + 1) * D / T) T D := by
  refine ⟨by simp, fun t _ => rfl, ?_, ?_, ?_⟩
  · show (T - 1 + 1) * D / T = D
    rw [Nat.sub_add_cancel hT]
    exact floor_bound_last D T hT
  · intro i hi
    have hi' : i < T * D / T := by rw [floor_bound_last D T hT]; exact hi
    obtain ⟨t, ht, h1, h2⟩ := floor_bound_cover D T T i hi'
    refine ⟨t, ⟨ht, h1, h2⟩, ?_⟩
    rintro s ⟨_, hs1, hs2⟩
    dsimp only at hs1 hs2
    by_contra hne
    rcases Nat.lt_or_gt_of_ne hne with hlt | hgt
    · have := floor_bound_mono D T (show s + 1 ≤ t from hlt)
      omega
    · have := floor_bound_mono D T (show t + 1 ≤ s from hgt)
      omega
  · rw [floor_bound_sum D T T, floor_bound_last D T hT]

theorem floor_shard_size (D T t : Nat) (hT : 1 ≤ T) :
    (t + 1) * D / T - t * D / T = D / T ∨ (t + 1) * D / T - t * D / T = D / T + 1 := by
  have h : (t + 1) * D = t * D + D := by ring
  rw [h, Nat.add_div (by omega : 0 < T)]
  generalize t * D / T = x
  generalize D / T = q
  split <;> omega

theorem floor_shard_last (D T : Nat) (hT : 1 ≤ T) (hnd : ¬ T ∣ D) :
    (T - 1 + 1) * D / T - (T - 1) * D / T = D / T + 1 := by
  rw [Nat.sub_add_cancel hT, Nat.mul_div_cancel_left D hT]
  have hr : 0 < D % T := Nat.pos_of_ne_zero (fun h => hnd (Nat.dvd_of_mod_eq_zero h))
  have hr2 : D % T < T := Nat.mod_lt _ (by omega)
  have hD := Nat.mod_add_div D T
  have hq : D / T + 1 ≤ D := by
    have : D / T ≤ T * (D / T) := Nat.le_mul_of_pos_left _ (by omega)
    generalize D / T = q at *
    generalize D % T = r at *
    generalize T * q = z at *
    omega
  have key : (T - 1) * D / T = D - (D / T + 1) := by
    generalize D / T = q at *
    generalize D % T = r at *
    apply Nat.div_eq_of_lt_le
    · zify [hT, hq]
      have : (D : Int) = r + T * q := by exact_mod_cast hD.symm
      nlinarith
    · zify [hT, hq]
      have : (D : Int) = r + T * q := by exact_mod_cast hD.symm
      have h1 : (0 : Int) < r := by exact_mod_cast hr
      have h2 : (r : Int) < T := by exact_mod_cast hr2
      nlinarith
  rw [key]
  generalize D / T = q at *
  omega

theorem floor_bound_rem_one (D T t : Nat) (ht : t < T) (h1 : D % T = 1) :
    t * D / T = t * (D / T) := by
  have hD := Nat.mod_add_div D T
  rw [h1] at hD
  have h : t * D = t + T * (t * (D / T)) := by
    conv_lhs => rw [← hD]
    ring
  rw [h, Nat.add_mul_div_left _ _ (by omega : 0 < T), Nat.div_eq_of_lt ht, Nat.zero_add]

theorem floor_partition_near_equal (D T : Nat) (hT : 1 ≤ T) (hnd : ¬ T ∣ D) :
    NearEqualShards (fun t => t * D / T) (fun t => (t + 1) * D / T) T D := by
  have hlast := floor_shard_last D T hT hnd
  refine ⟨fun t _ => floor_shard_size D T t hT, hlast, ?_, ?_⟩
  · intro t _
    show (t + 1) * D / T - t * D / T ≤ (T - 1 + 1) * D / T - (T - 1) * D / T
    rw [hlast]
    rcases floor_shard_size D T t hT with h | h <;> omega
  · intro h1 t ht
    show (t + 1) * D / T - t * D / T = D / T
    rw [floor_bound_rem_one D T (t + 1) ht h1, floor_bound_rem_one D T t (by omega) h1]
    rw [Nat.add_mul, Nat.one_mul, Nat.add_sub_cancel_left]

/-! ## The block loop of the Demul worker -/

theorem consecutive_flat (bs : List (Nat × Nat)) :
    ∀ a b, ConsecutiveFromTo bs a b →
      a ≤ b ∧ bs.flatMap (fun blk => List.range' blk.1 blk.2) = List.range' a (b - a) ∧
      (bs.map (fun blk => blk.2)).sum = b - a := by
  induction bs with
  | nil =>
    intro a b h
    simp only [ConsecutiveFromTo] at h
    subst h
    simp
  | cons blk rest ih =>
    intro a b h
    obtain ⟨h1, h2⟩ := h
    obtain ⟨i1, i2, i3⟩ := ih _ _ h2
    subst h1
    refine ⟨by omega, ?_, ?_⟩
    · rw [List.flatMap_cons, i2]
      have : b - blk.1 = b - (blk.1 + blk.2) + blk.2 := by omega
      rw [this, List.range'_append_1]
    · rw [List.map_cons, List.sum_cons, i3]; omega

theorem block_loop_spec (B S E : Nat) (hB : 1 ≤ B) (hSE : S < E) :
    ∀ fuel sc_id, 1 ≤ fuel → E + 1 ≤ fuel + sc_id → S < sc_id + B →
      ∃ bs, demulWorker.block_loop B S E fuel sc_id = some bs ∧
        (∀ blk ∈ bs, 1 ≤ blk.2 ∧ blk.2 ≤ B) ∧
        ConsecutiveFromTo bs (min E (max S sc_id)) E ∧
        (sc_id < E → bs ≠ []) := by
  intro fuel
  induction fuel with
  | zero => intro _ h; omega
  | succ fuel ih =>
    intro sc_id _ hf hS
    by_cases hlt : sc_id < E
    · obtain ⟨rest, hr, hlen, hcons, _⟩ := ih (sc_id + B) (by omega) (by omega) (by omega)
      refine ⟨(max S sc_id, min E (sc_id + B) - max S sc_id) :: rest, ?_, ?_, ?_, ?_⟩
      · simp [demulWorker.block_loop, hlt, hr]
      · intro blk hblk
        rcases List.mem_cons.1 hblk with h | h
        · subst h; dsimp only; omega
        · exact hlen blk h
      · refine ⟨by dsimp only; omega, ?_⟩
        have : max S sc_id + (min E (sc_id + B) - max S sc_id) = min E (max S (sc_id + B)) := by
          omega
        dsimp only
        rw [this]; exact hcons
      · intro _; simp
    · refine ⟨[], ?_, ?_, ?_, ?_⟩
      · simp [demulWorker.block_loop, hlt]
      · simp
      · show min E (max S sc_id) = E
        omega
      · intro h; exact absurd h hlt
theorem blocks_of_large_block (B S E : Nat) (hne : S < E) (hB : E - S < B) :
    demulWorker.blocks_of B S E = some
      (if E ≤ S - S % B + B then [(S, E - S)]
       else [(S, S - S % B + B - S), (S - S % B + B, E - (S - S % B + B))]) := by
  have hB0 : B ≠ 0 := by omega
  have hr1 : S % B < B := Nat.mod_lt _ (by omega)
  have hr2 : S % B ≤ S := Nat.mod_le _ _
  unfold demulWorker.blocks_of
  rw [if_neg hB0]
  generalize S % B = r at *
  obtain ⟨k, rfl⟩ : ∃ k, E = k + 1 := ⟨E - 1, by omega⟩
  by_cases hm : k + 1 ≤ S - r + B
  · rw [if_pos hm]
    have h1 : S - r < k + 1 := by omega
    have h2 : ¬ (S - r + B < k + 1) := by omega
    have h3 : max S (S - r) = S := by omega
    have h4 : min (k + 1) (S - r + B) = k + 1 := by omega
    simp [demulWorker.block_loop, h1, h2, h3, h4]
  · rw [if_neg hm]
    obtain ⟨j, rfl⟩ : ∃ j, k = j + 1 := ⟨k - 1, by omega⟩
    have h1 : S - r < j + 1 + 1 := by omega
    have h2 : S - r + B < j + 1 + 1 := by omega
    have h2' : ¬ (S - r + B + B < j + 1 + 1) := by omega
    have h3 : max S (S - r) = S := by omega
    have h4 : min (j + 1 + 1) (S - r + B) = S - r + B := by omega
    have h5 : max S (S - r + B) = S - r + B := by omega
    have h6 : min (j + 1 + 1) (S - r + B + B) = j + 1 + 1 := by omega
    simp [demulWorker.block_loop, h1, h2, h2', h3, h4, h5, h6]

theorem block_loop_returns (B S E : Nat) (hB : 1 ≤ B) :
    ∀ fuel sc_id, 1 ≤ fuel → E + 1 ≤ fuel + sc_id →
      ∃ bs, demulWorker.block_loop B S E fuel sc_id = some bs := by
  intro fuel
  induction fuel with
  | zero => intro _ h; omega
  | succ fuel ih =>
    intro sc_id _ hf
    by_cases hlt : sc_id < E
    · obtain ⟨rest, hr⟩ := ih (sc_id + B) (by omega) (by omega)
      exact ⟨(max S sc_id, min E (sc_id + B) - max S sc_id) :: rest,
        by simp [demulWorker.block_loop, hlt, hr]⟩
    · exact ⟨[], by simp [demulWorker.block_loop, hlt]⟩

theorem blocks_of_returns (B S E : Nat) (hB : 1 ≤ B) :
    ∃ bs, demulWorker.blocks_of B S E = some bs := by
  unfold demulWorker.blocks_of
  rw [if_neg (by omega)]
  exact block_loop_returns B S E hB _ _ (by omega) (by omega)

theorem blocks_of_spec (B S E : Nat) (hB : 1 ≤ B) (hSE : S < E) :
    ∃ bs, demulWorker.blocks_of B S E = some bs ∧ bs ≠ [] ∧
      (∀ blk ∈ bs, 1 ≤ blk.2 ∧ blk.2 ≤ B) ∧ ConsecutiveFromTo bs S E := by
  have hr1 : S % B < B := Nat.mod_lt _ (by omega)
  have hr2 : S % B ≤ S := Nat.mod_le _ _
  obtain ⟨bs, h1, h2, h3, h4⟩ :=
    block_loop_spec B S E hB hSE (E + 1) (S - S % B) (by omega) (by omega) (by omega)
  refine ⟨bs, ?_, h4 (by omega), h2, ?_⟩
  · unfold demulWorker.blocks_of
    rw [if_neg (by omega)]
    exact h1
  · have : min E (max S (S - S % B)) = S := by omega
    rw [this] at h3
    exact h3

theorem demul_advance_moves (cfg : Config) (s : DemulState) :
    ((demulWorker.advance cfg s).cur_demul_frame,
      (demulWorker.advance cfg s).cur_demul_symbol_ul)
      ≠ (s.cur_demul_frame, s.cur_demul_symbol_ul) := by
  unfold demulWorker.advance
  dsimp only
  split_ifs <;> simp

/-! ## The subcarrier loop of the ZF worker -/

theorem toInt32_of_fits (x : Int) (h1 : -2147483648 ≤ x) (h2 : x < 2147483648) :
    toInt32 x = x := by
  unfold toInt32; omega

theorem toSizeT_of_nonneg (x : Int) (h1 : 0 ≤ x) (h2 : x < 2147483648) :
    toSizeT x = x.toNat := by
  unfold toSizeT
  rw [Int.emod_eq_of_lt h1 (by omega)]

theorem sc_loop_spec (U : Nat) (hU : 1 ≤ U) (last : Int) (hlast : last + U < 2147483648) :
    ∀ fuel (sc_id : Int), -2147483648 ≤ sc_id → (last + 1 - sc_id).toNat < fuel →
      ∃ l, zfWorker.sc_loop U last fuel sc_id = some l ∧
        (∀ s, s ∈ l ↔ sc_id ≤ s ∧ s ≤ last ∧ (U : Int) ∣ s - sc_id) ∧
        List.Chain' (fun a b => b = a + (U : Int)) l ∧
        (∀ x ∈ l.head?, x = sc_id) := by
  intro fuel
  induction fuel with
  | zero => intro _ _ h; omega
  | succ fuel ih =>
    intro sc_id hlo hf
    by_cases hle : sc_id ≤ last
    · have hnext : toInt32 (sc_id + U) = sc_id + U :=
        toInt32_of_fits _ (by omega) (by omega)
      obtain ⟨rest, hr, hmem, hchain, hhead⟩ := ih (sc_id + U) (by omega) (by omega)
      refine ⟨sc_id :: rest, ?_, ?_, ?_, ?_⟩
      · simp [zfWorker.sc_loop, hle, hnext, hr]
      · intro s
        rw [List.mem_cons, hmem]
        constructor
        · rintro (rfl | ⟨h1, h2, h3⟩)
          · exact ⟨le_refl _, hle, by simp⟩
          · refine ⟨by omega, h2, ?_⟩
            have : s - sc_id = (s - (sc_id + U)) + U := by ring
            rw [this]
            exact dvd_add h3 (dvd_refl _)
        · rintro ⟨h1, h2, h3⟩
          by_cases hs : s = sc_id
          · exact Or.inl hs
          · right
            have hpos : 0 < s - sc_id := by omega
            have := Int.le_of_dvd hpos h3
            refine ⟨by omega, h2, ?_⟩
            have e : s - (sc_id + U) = (s - sc_id) - U := by ring
            rw [e]
            exact dvd_sub h3 (dvd_refl _)
      · rw [List.chain'_cons']
        exact ⟨fun y hy => hhead y hy, hchain⟩
      · intro x hx
        simpa using hx.symm
    · refine ⟨[], ?_, ?_, ?_, ?_⟩
      · simp [zfWorker.sc_loop, hle]
      · intro s
        simp only [List.not_mem_nil, false_iff]
        rintro ⟨h1, h2, _⟩
        omega
      · exact List.chain'_nil
      · intro x hx; simp at hx

theorem int_mod_eq_iff_dvd (s : Int) (U off : Nat) (h : off < U) :
    s % (U : Int) = (off : Int) ↔ (U : Int) ∣ s - off := by
  constructor
  · intro hs
    have := Int.emod_add_ediv s U
    exact ⟨s / U, by omega⟩
  · rintro ⟨k, hk⟩
    have e : s = off + U * k := by omega
    rw [e, Int.add_mul_emod_self_left]
    exact Int.emod_eq_of_lt (by omega) (by exact_mod_cast h)

theorem first_possible_sc_spec (cfg : Config) (tid f : Nat) (hU : 1 ≤ cfg.UE_NUM)
    (hfit : zfWorker.sc_start cfg tid + cfg.UE_NUM ≤ 2147483648) :
    (zfWorker.sc_start cfg tid : Int) ≤ zfWorker.first_possible_sc cfg tid f ∧
    zfWorker.first_possible_sc cfg tid f < zfWorker.sc_start cfg tid + cfg.UE_NUM ∧
    (cfg.UE_NUM : Int) ∣
      zfWorker.first_possible_sc cfg tid f - (cfg.simple_hash f % cfg.UE_NUM : Nat) := by
  unfold zfWorker.first_possible_sc
  dsimp only
  generalize zfWorker.sc_start cfg tid = S at *
  generalize cfg.UE_NUM = U at *
  have ha1 : S % U < U := Nat.mod_lt _ (by omega)
  have ha2 : S % U ≤ S := Nat.mod_le _ _
  have hd : (U : Int) ∣ ((S - S % U : Nat) : Int) :=
    Int.natCast_dvd_natCast.2 (Nat.dvd_sub_mod S)
  have ho : cfg.simple_hash f % U < U := Nat.mod_lt _ (by omega)
  generalize cfg.simple_hash f % U = off at *
  generalize S % U = a at *
  have e1 : toInt32 ((S - a + off : Nat) : Int) = ((S - a : Nat) : Int) + off := by
    rw [toInt32_of_fits _ (by omega) (by omega)]; push_cast; rfl
  have e2 : toInt32 (S : Int) = S := toInt32_of_fits _ (by omega) (by omega)
  rw [e1, e2]
  split_ifs with h
  · rw [toInt32_of_fits _ (by omega) (by omega)]
    refine ⟨by omega, by omega, ?_⟩
    have : ((S - a : Nat) : Int) + off + U - off = ((S - a : Nat) : Int) + U := by ring
    rw [this]
    exact dvd_add hd (dvd_refl _)
  · refine ⟨by omega, by omega, ?_⟩
    have : ((S - a : Nat) : Int) + off - off = ((S - a : Nat) : Int) := by ring
    rw [this]
    exact hd

theorem last_possible_sc_spec (cfg : Config) (tid f : Nat) (hU : 1 ≤ cfg.UE_NUM)
    (hfit : zfWorker.sc_end cfg tid + cfg.UE_NUM ≤ 2147483648) :
    (zfWorker.sc_end cfg tid : Int) ≤ zfWorker.last_possible_sc cfg tid f + cfg.UE_NUM ∧
    zfWorker.last_possible_sc cfg tid f < zfWorker.sc_end cfg tid ∧
    (cfg.UE_NUM : Int) ∣
      zfWorker.last_possible_sc cfg tid f - (cfg.simple_hash f % cfg.UE_NUM : Nat) := by
  unfold zfWorker.last_possible_sc
  dsimp only
  generalize zfWorker.sc_end cfg tid = E at *
  generalize cfg.UE_NUM = U at *
  have ha1 : E % U < U := Nat.mod_lt _ (by omega)
  have ha2 : E % U ≤ E := Nat.mod_le _ _
  have hd : (U : Int) ∣ ((E - E % U : Nat) : Int) :=
    Int.natCast_dvd_natCast.2 (Nat.dvd_sub_mod E)
  have ho : cfg.simple_hash f % U < U := Nat.mod_lt _ (by omega)
  generalize cfg.simple_hash f % U = off at *
  generalize E % U = b at *
  have e1 : toInt32 ((E - b + off : Nat) : Int) = ((E - b : Nat) : Int) + off := by
    rw [toInt32_of_fits _ (by omega) (by omega)]; push_cast; rfl
  have e2 : toInt32 (E : Int) = E := toInt32_of_fits _ (by omega) (by omega)
  rw [e1, e2]
  split_ifs with h
  · rw [toInt32_of_fits _ (by omega) (by omega)]
    refine ⟨by omega, by omega, ?_⟩
    have : ((E - b : Nat) : Int) + off - U - off = ((E - b : Nat) : Int) - U := by ring
    rw [this]
    exact dvd_sub hd (dvd_refl _)
  · refine ⟨by omega, by omega, ?_⟩
    have : ((E - b : Nat) : Int) + off - off = ((E - b : Nat) : Int) := by ring
    rw [this]
    exact hd
theorem visited_spec (cfg : Config) (tid f : Nat) (hU : 1 ≤ cfg.UE_NUM)
    (hfit : zfWorker.sc_end cfg tid + cfg.UE_NUM ≤ 2147483648) :
    ∃ scs, zfWorker.visited cfg tid f = some scs ∧
      (∀ s : Int, s ∈ scs ↔
        (zfWorker.sc_start cfg tid : Int) ≤ s ∧ s < zfWorker.sc_end cfg tid ∧
          s % (cfg.UE_NUM : Int) = (cfg.simple_hash f % cfg.UE_NUM : Nat)) ∧
      List.Chain' (fun a b => b = a + (cfg.UE_NUM : Int)) scs := by
  have hSE : zfWorker.sc_start cfg tid ≤ zfWorker.sc_end cfg tid :=
    floor_bound_mono cfg.OFDM_DATA_NUM cfg.total_zf_workers (Nat.le_add_right tid 1)
  obtain ⟨f1, f2, f3⟩ := first_possible_sc_spec cfg tid f hU (by omega)
  obtain ⟨l1, l2, l3⟩ := last_possible_sc_spec cfg tid f hU hfit
  have ho : cfg.simple_hash f % cfg.UE_NUM < cfg.UE_NUM := Nat.mod_lt _ (by omega)
  have hU0 : cfg.UE_NUM ≠ 0 := by omega
  have key : ∀ s : Int, (zfWorker.sc_start cfg tid : Int) ≤ s → s < zfWorker.sc_end cfg tid →
      (cfg.UE_NUM : Int) ∣ s - (cfg.simple_hash f % cfg.UE_NUM : Nat) →
      zfWorker.first_possible_sc cfg tid f ≤ s ∧ s ≤ zfWorker.last_possible_sc cfg tid f := by
    intro s h1 h2 h3
    constructor
    · by_contra hlt
      have hd : (cfg.UE_NUM : Int) ∣ zfWorker.first_possible_sc cfg tid f - s := by
        have := dvd_sub f3 h3
        simpa using this
      have := Int.le_of_dvd (by omega) hd
      omega
    · by_contra hlt
      have hd : (cfg.UE_NUM : Int) ∣ s - zfWorker.last_possible_sc cfg tid f := by
        have := dvd_sub h3 l3
        simpa using this
      have := Int.le_of_dvd (by omega) hd
      omega
  by_cases hge : zfWorker.last_possible_sc cfg tid f ≥ zfWorker.first_possible_sc cfg tid f
  · obtain ⟨l, hl, hmem, hchain, _⟩ :=
      sc_loop_spec cfg.UE_NUM hU (zfWorker.last_possible_sc cfg tid f) (by omega)
        4294967296 (zfWorker.first_possible_sc cfg tid f) (by omega) (by omega)
    refine ⟨l, ?_, ?_, hchain⟩
    · unfold zfWorker.visited
      rw [if_neg hU0, if_pos hge]
      exact hl
    · intro s
      rw [hmem, int_mod_eq_iff_dvd s _ _ ho]
      constructor
      · rintro ⟨h1, h2, h3⟩
        refine ⟨by omega, by omega, ?_⟩
        have := dvd_add h3 f3
        simpa using this
      · rintro ⟨h1, h2, h3⟩
        obtain ⟨k1, k2⟩ := key s h1 h2 h3
        refine ⟨k1, k2, ?_⟩
        have := dvd_sub h3 f3
        simpa using this
  · refine ⟨[], ?_, ?_, List.chain'_nil⟩
    · unfold zfWorker.visited
      rw [if_neg hU0, if_neg hge]
    · intro s
      rw [int_mod_eq_iff_dvd s _ _ ho]
      simp only [List.not_mem_nil, false_iff]
      rintro ⟨h1, h2, h3⟩
      obtain ⟨k1, k2⟩ := key s h1 h2 h3
      omega

/-! ## The FFT worker's walk over its coordinates -/

theorem range'_head (a n : Nat) (h : 0 < n) :
    List.range' a n = a :: List.range' (a + 1) (n - 1) := by
  obtain ⟨m, rfl⟩ : ∃ m, n = m + 1 := ⟨n - 1, by omega⟩
  simp [List.range'_succ]

theorem lexFrom_init (F S a0 a1 : Nat) (hF : 1 ≤ F) (hS : 1 ≤ S) :
    lexFrom F S a0 a1 0 0 a0 = lexCoords F S a0 a1 := by
  unfold lexFrom lexCoords
  rw [range'_head 0 F (by omega), List.flatMap_cons]
  congr 1
  unfold lexFrame
  rw [range'_head 0 S (by omega), List.flatMap_cons]
  rfl

theorem lexFrom_step (F S a0 a1 f s a : Nat) (hf : f < F) (hs : s < S) (ha : a < a1)
    :
    lexFrom F S a0 a1 f s a = (f, s, a) ::
      (if a + 1 = a1 then
        (if s + 1 = S then
          (if f + 1 = F then [] else lexFrom F S a0 a1 (f + 1) 0 a0)
         else lexFrom F S a0 a1 f (s + 1) a0)
       else lexFrom F S a0 a1 f s (a + 1)) := by
  unfold lexFrom
  rw [range'_head a (a1 - a) (by omega)]
  simp only [List.map_cons, List.cons_append, List.cons.injEq, true_and]
  split_ifs with h1 h2 h3
  · have e1 : a1 - a - 1 = 0 := by omega
    have e2 : S - (s + 1) = 0 := by omega
    have e3 : F - (f + 1) = 0 := by omega
    simp [e1, e2, e3]
  · have e1 : a1 - a - 1 = 0 := by omega
    have e2 : S - (s + 1) = 0 := by omega
    rw [e1, e2, range'_head (f + 1) (F - (f + 1)) (by omega), List.flatMap_cons]
    have e4 : F - (f + 1) - 1 = F - (f + 1 + 1) := by omega
    rw [e4]
    simp only [List.range'_zero, List.map_nil, List.flatMap_nil, List.nil_append]
    congr 1
    unfold lexFrame
    rw [range'_head 0 S (by omega), List.flatMap_cons]
    rfl
  · have e1 : a1 - a - 1 = 0 := by omega
    rw [e1, range'_head (s + 1) (S - (s + 1)) (by omega), List.flatMap_cons]
    have e4 : S - (s + 1) - 1 = S - (s + 1 + 1) := by omega
    rw [e4]
    simp only [List.range'_zero, List.map_nil, List.nil_append]
    rfl
  · have e1 : a1 - a - 1 = a1 - (a + 1) := by omega
    rw [e1]
theorem fft_run_left (cfg : Config) (tid : Nat) (obs : List FFTObs) (st : FFTState)
    (h : st.in_loop = false) : fftWorker.run cfg tid obs st = (st, []) := by
  cases obs <;> simp [fftWorker.run, h]

theorem fft_body_ready_spec (cfg : Config) (tid : Nat) (o : FFTObs) (st : FFTState)
    (hr : o.received_all_time_iq_pkts = true) (hin : st.in_loop = true)
    (hf : st.cur_frame < cfg.frames_to_test) (hs : st.cur_symbol < cfg.symbol_num_perframe)
    (ha0 : fftWorker.ant_start cfg tid ≤ st.cur_ant)
    (ha1 : st.cur_ant < fftWorker.ant_end cfg tid) :
    (fftWorker.body cfg tid o st).2 = fftCalls (st.cur_frame, st.cur_symbol, st.cur_ant) ∧
    lexFrom cfg.frames_to_test cfg.symbol_num_perframe (fftWorker.ant_start cfg tid)
        (fftWorker.ant_end cfg tid) st.cur_frame st.cur_symbol st.cur_ant =
      (st.cur_frame, st.cur_symbol, st.cur_ant) ::
        (if (fftWorker.body cfg tid o st).1.in_loop = true then
          lexFrom cfg.frames_to_test cfg.symbol_num_perframe (fftWorker.ant_start cfg tid)
            (fftWorker.ant_end cfg tid) (fftWorker.body cfg tid o st).1.cur_frame
            (fftWorker.body cfg tid o st).1.cur_symbol (fftWorker.body cfg tid o st).1.cur_ant
         else []) ∧
    ((fftWorker.body cfg tid o st).1.in_loop = true →
      (fftWorker.body cfg tid o st).1.cur_frame < cfg.frames_to_test ∧
      (fftWorker.body cfg tid o st).1.cur_symbol < cfg.symbol_num_perframe ∧
      fftWorker.ant_start cfg tid ≤ (fftWorker.body cfg tid o st).1.cur_ant ∧
      (fftWorker.body cfg tid o st).1.cur_ant < fftWorker.ant_end cfg tid) := by
  rw [lexFrom_step _ _ _ _ _ _ _ hf hs ha1]
  unfold fftWorker.body
  rw [if_pos hr]
  dsimp only
  by_cases h1 : st.cur_ant + 1 = fftWorker.ant_end cfg tid
  · by_cases h2 : st.cur_symbol + 1 = cfg.symbol_num_perframe
    · by_cases h3 : st.cur_frame + 1 = cfg.frames_to_test
      · simp [h1, h2, h3, fftCalls]
      · simp only [h1, h2, h3, if_true, if_false, fftCalls, true_and]
        exact fun _ => ⟨by omega, by omega, le_refl _, by omega⟩
    · simp only [h1, h2, hin, if_true, if_false, fftCalls, true_and]
      exact fun _ => ⟨hf, by omega, le_refl _, by omega⟩
  · simp only [h1, hin, if_true, if_false, fftCalls, true_and]
    exact fun _ => ⟨hf, hs, by omega, by omega⟩

theorem fft_run_spec (cfg : Config) (tid : Nat) :
    ∀ (obs : List FFTObs) (st : FFTState), st.in_loop = true →
      st.cur_frame < cfg.frames_to_test → st.cur_symbol < cfg.symbol_num_perframe →
      fftWorker.ant_start cfg tid ≤ st.cur_ant → st.cur_ant < fftWorker.ant_end cfg tid →
      (fftWorker.run cfg tid obs st).2 =
        ((lexFrom cfg.frames_to_test cfg.symbol_num_perframe (fftWorker.ant_start cfg tid)
            (fftWorker.ant_end cfg tid) st.cur_frame st.cur_symbol st.cur_ant).take
          (fftWorker.readyIterations obs)).flatMap fftCalls ∧
      ((lexFrom cfg.frames_to_test cfg.symbol_num_perframe (fftWorker.ant_start cfg tid)
            (fftWorker.ant_end cfg tid) st.cur_frame st.cur_symbol st.cur_ant).length
          ≤ fftWorker.readyIterations obs →
        (fftWorker.run cfg tid obs st).1.in_loop = false) := by
  intro obs
  induction obs with
  | nil =>
    intro st _ hf hs _ ha1
    refine ⟨by simp [fftWorker.run, fftWorker.readyIterations], ?_⟩
    intro hlen
    rw [lexFrom_step _ _ _ _ _ _ _ hf hs ha1] at hlen
    simp [fftWorker.readyIterations] at hlen
  | cons o os ih =>
    intro st hin hf hs ha0 ha1
    by_cases hc : (o.running && !o.gotExitSignal) = true
    · by_cases hr : o.received_all_time_iq_pkts = true
      · obtain ⟨b1, b2, b3⟩ := fft_body_ready_spec cfg tid o st hr hin hf hs ha0 ha1
        have hcount : fftWorker.readyIterations (o :: os)
            = fftWorker.readyIterations os + 1 := by
          simp [fftWorker.readyIterations, hc, hr]; omega
        have hrun : fftWorker.run cfg tid (o :: os) st =
            ((fftWorker.run cfg tid os (fftWorker.body cfg tid o st).1).1,
              (fftWorker.body cfg tid o st).2 ++
                (fftWorker.run cfg tid os (fftWorker.body cfg tid o st).1).2) := by
          simp [fftWorker.run, hin, hc]
        rw [hrun, hcount, b2, b1]
        by_cases hl : (fftWorker.body cfg tid o st).1.in_loop = true
        · obtain ⟨v1, v2, v3, v4⟩ := b3 hl
          obtain ⟨i1, i2⟩ := ih _ hl v1 v2 v3 v4
          rw [if_pos hl]
          refine ⟨?_, ?_⟩
          · simp only [List.take_succ_cons, List.flatMap_cons]
            rw [i1]
          · intro hlen
            simp only [List.length_cons, Nat.add_le_add_iff_right] at hlen
            exact i2 hlen
        · have hl' : (fftWorker.body cfg tid o st).1.in_loop = false := by
            simpa using hl
          rw [if_neg hl, fft_run_left cfg tid os _ hl']
          refine ⟨by simp, fun _ => hl'⟩
      · have hr' : o.received_all_time_iq_pkts = false := by simpa using hr
        have hcount : fftWorker.readyIterations (o :: os) = fftWorker.readyIterations os := by
          simp [fftWorker.readyIterations, hc, hr']
        have hrun : fftWorker.run cfg tid (o :: os) st = fftWorker.run cfg tid os st := by
          simp [fftWorker.run, hin, hc, fftWorker.body, hr']
        rw [hrun, hcount]
        exact ih st hin hf hs ha0 ha1
    · have hcount : fftWorker.readyIterations (o :: os) = 0 := by
        simp [fftWorker.readyIterations, hc]
      have hrun : fftWorker.run cfg tid (o :: os) st = ({ st with in_loop := false }, []) := by
        simp [fftWorker.run, hin, hc]
      rw [hrun, hcount]
      exact ⟨by simp, fun _ => rfl⟩

theorem flatMap_length_const {α β : Type} (g : α → List β) (c : Nat)
    (hg : ∀ x, (g x).length = c) : ∀ l : List α, (l.flatMap g).length = l.length * c := by
  intro l
  induction l with
  | nil => simp
  | cons x xs ih => rw [List.flatMap_cons, List.length_append, ih, hg, List.length_cons]; ring

theorem lexCoords_length (F S a0 a1 : Nat) :
    (lexCoords F S a0 a1).length = F * S * (a1 - a0) := by
  unfold lexCoords
  rw [flatMap_length_const (lexFrame S a0 a1) (S * (a1 - a0))]
  · rw [List.length_range', Nat.mul_assoc]
  · intro f
    unfold lexFrame
    rw [flatMap_length_const (lexRow a0 a1 f) (a1 - a0)]
    · rw [List.length_range']
    · intro s
      simp [lexRow]

/-! ## Balanced shards -/

theorem floor_shard_size_of_dvd (D T t : Nat) (hT : 1 ≤ T) (hd : T ∣ D) :
    (t + 1) * D / T - t * D / T = D / T := by
  obtain ⟨q, rfl⟩ := hd
  have h1 : (t + 1) * (T * q) = T * ((t + 1) * q) := by ring
  have h2 : t * (T * q) = T * (t * q) := by ring
  rw [h1, h2, Nat.mul_div_cancel_left _ hT, Nat.mul_div_cancel_left _ hT,
    Nat.mul_div_cancel_left _ hT, Nat.add_mul, Nat.one_mul, Nat.add_sub_cancel_left]

theorem ceil_div_of_not_dvd (D T : Nat) (hT : 1 ≤ T) (hnd : ¬ T ∣ D) :
    (D + T - 1) / T = D / T + 1 := by
  have hr : 0 < D % T := Nat.pos_of_ne_zero (fun h => hnd (Nat.dvd_of_mod_eq_zero h))
  have hr2 : D % T < T := Nat.mod_lt _ (by omega)
  have hD := Nat.mod_add_div D T
  apply Nat.div_eq_of_lt_le
  · rw [Nat.add_mul, Nat.one_mul, Nat.mul_comm (D / T) T]
    generalize T * (D / T) = z at *
    omega
  · rw [Nat.add_mul, Nat.add_mul, Nat.one_mul, Nat.mul_comm (D / T) T]
    generalize T * (D / T) = z at *
    omega

theorem floor_partition_balanced (D T : Nat) (hT : 1 ≤ T) :
    BalancedShards (fun t => t * D / T) (fun t => (t + 1) * D / T) T D := by
  have hsize : ∀ t, (t + 1) * D / T - t * D / T = D / T ∨
      (t + 1) * D / T - t * D / T = (D + T - 1) / T := by
    intro t
    by_cases hd : T ∣ D
    · exact Or.inl (floor_shard_size_of_dvd D T t hT hd)
    · rw [ceil_div_of_not_dvd D T hT hd]
      exact floor_shard_size D T t hT
  refine ⟨fun t _ => hsize t, ?_, ?_, ?_⟩
  · intro s t _ _
    show (s + 1) * D / T - s * D / T ≤ (t + 1) * D / T - t * D / T + 1
    rcases floor_shard_size D T s hT with h1 | h1 <;>
      rcases floor_shard_size D T t hT with h2 | h2 <;> omega
  · intro t
    exact floor_bound_mono D T (Nat.le_add_right t 1)
  · intro s t hst
    exact ⟨floor_bound_mono D T hst, floor_bound_mono D T (Nat.add_le_add_right hst 1)⟩

/-! ## Backoff and stopping -/

theorem backoff_slept (freq_ghz : ℚ) (cur last : Nat) :
    ((backoff freq_ghz cur last).2 = true ↔
      ((elapsed_tsc cur last : Nat) : ℚ) > freq_ghz / 1000) ∧
    (backoff freq_ghz cur last).1 = (if (backoff freq_ghz cur last).2 then cur else last) := by
  unfold backoff
  by_cases h : ((elapsed_tsc cur last : Nat) : ℚ) > freq_ghz / 1000
  · rw [if_pos h]; simp [h]
  · rw [if_neg h]; simp [h]

theorem zf_run_stopped (cfg : Config) (tid : Nat) (st : ZFState) (h : st.running = false) :
    ∀ os, trace (zfWorker.run cfg tid os st) = some [] ∧
      (os ≠ [] → (zfWorker.run cfg tid os st).map (fun r => r.1.in_loop) = some false) := by
  intro os
  cases os with
  | nil => simp [zfWorker.run, trace]
  | cons o os =>
    cases hl : st.in_loop <;> simp [zfWorker.run, trace, h, hl]

theorem demul_run_stopped (cfg : Config) (tid : Nat) (st : DemulState)
    (h : st.running = false) :
    ∀ os, trace (demulWorker.run cfg tid os st) = some [] ∧
      (os ≠ [] → (demulWorker.run cfg tid os st).map (fun r => r.1.in_loop) = some false) := by
  intro os
  cases os with
  | nil => simp [demulWorker.run, trace]
  | cons o os =>
    cases hl : st.in_loop <;> simp [demulWorker.run, trace, h, hl]

theorem decode_run_stopped (cfg : Config) (st : DecodeState) (h : st.running = false) :
    ∀ os, trace (decodeWorker.run cfg os st) = some [] ∧
      (os ≠ [] → (decodeWorker.run cfg os st).map (fun r => r.1.in_loop) = some false) := by
  intro os
  cases os with
  | nil => simp [decodeWorker.run, trace]
  | cons o os =>
    cases hl : st.in_loop <;> simp [decodeWorker.run, trace, h, hl]

theorem kernel_calls_no_prepare (cfg : Config) (f f' : Nat) (scs : List Int) :
    (scs.flatMap (zfWorker.kernel_calls cfg f)).count (Event.prepare_zf_pkt f') = 0 := by
  induction scs with
  | nil => simp
  | cons s rest ih =>
    rw [List.flatMap_cons, List.count_append, ih]
    simp [zfWorker.kernel_calls, List.count_cons]

theorem zf_body_shape (cfg : Config) (tid : Nat) (o : ZFObs) (st st' : ZFState)
    (evs : List Event) (hp : o.received_all_pilot_pkts = true)
    (hb : zfWorker.body cfg tid o st = some (st', evs)) :
    ∃ scs, zfWorker.visited cfg tid st.cur_zf_frame = some scs ∧
      evs = scs.flatMap (zfWorker.kernel_calls cfg st.cur_zf_frame) ++
        [Event.prepare_zf_pkt st.cur_zf_frame] ∧
      st'.cur_zf_frame = st.cur_zf_frame + 1 := by
  unfold zfWorker.body at hb
  rw [if_pos hp] at hb
  cases hv : zfWorker.visited cfg tid st.cur_zf_frame with
  | none => simp [hv] at hb
  | some scs =>
    refine ⟨scs, rfl, ?_⟩
    simp only [hv, Option.map_some', Option.some.injEq] at hb
    cases hz : o.prepare_zf_pkt <;> simp only [hz, if_true, if_false, Bool.false_eq_true,
      Prod.mk.injEq] at hb <;> obtain ⟨h1, h2⟩ := hb <;> subst h1 h2 <;> exact ⟨rfl, rfl⟩

/-! ## The Decode worker's frames -/

theorem decode_body_cases (cfg : Config) (o : DecodeObs) (st : DecodeState)
    (hU : cfg.num_ues_to_process ≠ 0) :
    ∃ st' evs, decodeWorker.body cfg o st = some (st', evs) ∧
      st'.in_loop = st.in_loop ∧
      ((evs = [] ∧ st' = st) ∨
       (∃ s u, evs = [Event.decode_LaunchStatic st.cur_decode_frame s u] ∧
          st'.cur_decode_frame = st.cur_decode_frame) ∨
       (∃ s u, evs = [Event.decode_LaunchStatic st.cur_decode_frame s u,
            Event.decode_done st.cur_decode_frame] ∧
          st'.cur_decode_frame = st.cur_decode_frame + 1)) := by
  unfold decodeWorker.body
  rw [if_neg hU]
  dsimp only
  by_cases hr : o.received_all_demod_pkts = true
  · rw [if_pos hr]
    by_cases hw : st.cur_decode_idx + cfg.num_demul_workers cfg.bs_server_addr_idx
        ≥ cfg.num_ues_to_process * cfg.ul_data_symbol_num_perframe
    · rw [if_pos hw]
      by_cases hd : o.decode_done = true
      · rw [if_pos hd]
        exact ⟨_, _, rfl, rfl, Or.inr (Or.inr ⟨_, _, rfl, rfl⟩)⟩
      · rw [if_neg hd]
        exact ⟨_, _, rfl, rfl, Or.inr (Or.inr ⟨_, _, rfl, rfl⟩)⟩
    · rw [if_neg hw]
      exact ⟨_, _, rfl, rfl, Or.inr (Or.inl ⟨_, _, rfl, rfl⟩)⟩
  · rw [if_neg hr]
    exact ⟨_, _, rfl, rfl, Or.inl ⟨rfl, rfl⟩⟩

theorem decode_run_ordered (cfg : Config) (hU : cfg.num_ues_to_process ≠ 0) :
    ∀ (obs : List DecodeObs) (st : DecodeState),
      ∃ r, decodeWorker.run cfg obs st = some r ∧
        DecodeOrdered st.cur_decode_frame r.2 ∧
        st.cur_decode_frame ≤ r.1.cur_decode_frame ∧
        ∀ f, r.2.count (Event.decode_done f) =
          if st.cur_decode_frame ≤ f ∧ f < r.1.cur_decode_frame then 1 else 0 := by
  intro obs
  induction obs with
  | nil =>
    intro st
    refine ⟨(st, []), rfl, DecodeOrdered.done _, le_refl _, ?_⟩
    intro f
    rw [if_neg (by dsimp only; omega)]
    rfl
  | cons o os ih =>
    intro st
    have hstop : ∀ x : DecodeState, x.cur_decode_frame = st.cur_decode_frame →
        DecodeOrdered st.cur_decode_frame ((x, ([] : List Event))).2 ∧
        st.cur_decode_frame ≤ (x, ([] : List Event)).1.cur_decode_frame ∧
        ∀ f, ((x, ([] : List Event))).2.count (Event.decode_done f) =
          if st.cur_decode_frame ≤ f ∧ f < (x, ([] : List Event)).1.cur_decode_frame
          then 1 else 0 := by
      intro x hx
      refine ⟨DecodeOrdered.done _, by simp [hx], ?_⟩
      intro f
      rw [if_neg (by simp only [hx]; omega)]
      rfl
    by_cases hl : st.in_loop = true
    · by_cases ht : (st.running && o.running && !o.gotExitSignal) = true
      · obtain ⟨st', evs, hb, _, hcase⟩ := decode_body_cases cfg o st hU
        obtain ⟨r', hr', ho, hle, hcount⟩ := ih st'
        have hrun : decodeWorker.run cfg (o :: os) st = some (r'.1, evs ++ r'.2) := by
          simp [decodeWorker.run, hl, ht, hb, hr']
        refine ⟨(r'.1, evs ++ r'.2), hrun, ?_⟩
        rcases hcase with ⟨h1, h2⟩ | ⟨s, u, h1, h2⟩ | ⟨s, u, h1, h2⟩
        · subst h1 h2
          exact ⟨ho, hle, hcount⟩
        · subst h1
          rw [h2] at ho hle hcount
          refine ⟨DecodeOrdered.launch _ _ _ _ ho, hle, ?_⟩
          intro f
          rw [← hcount f]
          simp [List.count_cons]
        · subst h1
          rw [h2] at ho hle hcount
          refine ⟨DecodeOrdered.last _ _ _ _ ho, by dsimp only; omega, ?_⟩
          intro f
          have hc := hcount f
          have hcnt : ([Event.decode_LaunchStatic st.cur_decode_frame s u,
                Event.decode_done st.cur_decode_frame] ++ r'.2).count (Event.decode_done f)
              = r'.2.count (Event.decode_done f)
                + (if st.cur_decode_frame = f then 1 else 0) := by
            simp [List.count_cons]
          show ([Event.decode_LaunchStatic st.cur_decode_frame s u,
                Event.decode_done st.cur_decode_frame] ++ r'.2).count (Event.decode_done f)
              = if st.cur_decode_frame ≤ f ∧ f < r'.1.cur_decode_frame then 1 else 0
          rw [hcnt, hc]
          split_ifs <;> omega
      · have hrun : decodeWorker.run cfg (o :: os) st
            = some ({ st with in_loop := false }, []) := by
          simp [decodeWorker.run, hl, ht]
        exact ⟨_, hrun, hstop _ rfl⟩
    · have hrun : decodeWorker.run cfg (o :: os) st = some (st, []) := by
        simp [decodeWorker.run, hl]
      exact ⟨_, hrun, hstop _ rfl⟩

/-! ## The Demul worker's cursor -/

theorem pos_div_mod (f s S : Nat) (h : s < S) :
    (f * S + s) / S = f ∧ (f * S + s) % S = s := by
  have hS : 0 < S := by omega
  constructor
  · rw [Nat.add_comm, Nat.add_mul_div_right _ _ hS, Nat.div_eq_of_lt h, Nat.zero_add]
  · rw [Nat.add_comm, Nat.add_mul_mod_self_right, Nat.mod_eq_of_lt h]

theorem demul_advance_pos (cfg : Config) (st : DemulState)
    (hs : st.cur_demul_symbol_ul < cfg.ul_data_symbol_num_perframe) :
    (demulWorker.advance cfg st).cur_demul_frame * cfg.ul_data_symbol_num_perframe
        + (demulWorker.advance cfg st).cur_demul_symbol_ul
      = st.cur_demul_frame * cfg.ul_data_symbol_num_perframe + st.cur_demul_symbol_ul + 1 ∧
    (demulWorker.advance cfg st).cur_demul_symbol_ul < cfg.ul_data_symbol_num_perframe := by
  unfold demulWorker.advance
  dsimp only
  split_ifs with h
  · dsimp only
    rw [Nat.add_mul, Nat.one_mul]
    omega
  · dsimp only
    omega

theorem demul_run_cursor (cfg : Config) (tid : Nat) (bs : List (Nat × Nat))
    (hbs : demulWorker.blocks cfg tid = some bs) :
    ∀ (obs : List DemulObs) (st : DemulState),
      st.cur_demul_symbol_ul < cfg.ul_data_symbol_num_perframe →
      ∃ r k, demulWorker.run cfg tid obs st = some r ∧
        r.2 = (List.range'
            (st.cur_demul_frame * cfg.ul_data_symbol_num_perframe + st.cur_demul_symbol_ul)
            k).flatMap
          (fun i => demulWorker.pair_calls cfg tid bs (i / cfg.ul_data_symbol_num_perframe)
            (i % cfg.ul_data_symbol_num_perframe)) ∧
        r.1.cur_demul_frame * cfg.ul_data_symbol_num_perframe + r.1.cur_demul_symbol_ul
          = st.cur_demul_frame * cfg.ul_data_symbol_num_perframe
            + st.cur_demul_symbol_ul + k ∧
        r.1.cur_demul_symbol_ul < cfg.ul_data_symbol_num_perframe := by
  intro obs
  induction obs with
  | nil =>
    intro st hs
    exact ⟨(st, []), 0, rfl, by simp, by simp, hs⟩
  | cons o os ih =>
    intro st hs
    by_cases hl : st.in_loop = true
    · by_cases ht : (st.running && o.running && !o.gotExitSignal) = true
      · by_cases hr : (o.received_all_zf_pkts && o.received_all_ul_data_pkts) = true
        · -- a processed pair
          have hbody : ∃ st1, demulWorker.body cfg tid o st
              = some (st1, demulWorker.pair_calls cfg tid bs st.cur_demul_frame
                  st.cur_demul_symbol_ul) ∧
              st1.cur_demul_frame * cfg.ul_data_symbol_num_perframe + st1.cur_demul_symbol_ul
                = st.cur_demul_frame * cfg.ul_data_symbol_num_perframe
                  + st.cur_demul_symbol_ul + 1 ∧
              st1.cur_demul_symbol_ul < cfg.ul_data_symbol_num_perframe := by
            unfold demulWorker.body
            rw [if_pos hr, hbs]
            cases hp : o.prepare_demod_pkt
            · exact ⟨_, by simp [demulWorker.pair_calls],
                demul_advance_pos cfg { st with error := true, running := false } hs⟩
            · exact ⟨_, by simp [demulWorker.pair_calls], demul_advance_pos cfg st hs⟩
          obtain ⟨st1, hb, hpos, hs1⟩ := hbody
          obtain ⟨r, k, hrun, htr, hfin, hsr⟩ := ih st1 hs1
          obtain ⟨e1, e2⟩ := pos_div_mod st.cur_demul_frame st.cur_demul_symbol_ul
            cfg.ul_data_symbol_num_perframe hs
          refine ⟨(r.1, demulWorker.pair_calls cfg tid bs st.cur_demul_frame
              st.cur_demul_symbol_ul ++ r.2), k + 1,
            by simp [demulWorker.run, hl, ht, hb, hrun], ?_,
            by dsimp only; omega, hsr⟩
          dsimp only
          rw [List.range'_succ, List.flatMap_cons, e1, e2, htr, hpos]
        · have hbody : demulWorker.body cfg tid o st = some (st, []) := by
            unfold demulWorker.body
            rw [if_neg hr]
          obtain ⟨r, k, hrun, htr, hfin, hsr⟩ := ih st hs
          exact ⟨r, k, by simp [demulWorker.run, hl, ht, hbody, hrun], htr, hfin, hsr⟩
      · exact ⟨({ st with in_loop := false }, []), 0, by simp [demulWorker.run, hl, ht],
          by simp, by simp, hs⟩
    · exact ⟨(st, []), 0, by simp [demulWorker.run, hl], by simp, by simp, hs⟩

/-! ## Paths of `Start` -/

theorem wait_loop_no_stop :
    ∀ (l : List WaitObs) (cs : List MasterCall), BigStation.wait_loop l = some cs →
      cs.count MasterCall.Stop = 0 := by
  intro l
  induction l with
  | nil => intro cs h; simp [BigStation.wait_loop] at h
  | cons o os ih =>
    intro cs h
    unfold BigStation.wait_loop at h
    split_ifs at h with hc
    · cases hw : BigStation.wait_loop os with
      | none => simp [hw] at h
      | some cs' =>
        simp only [hw, Option.map_some', Option.some.injEq] at h
        subst h
        simp [List.count_cons, ih cs' hw]
    · simp only [Option.some.injEq] at h
      subst h
      rfl

theorem wait_loop_returns :
    ∀ l : List WaitObs, l.any (fun o => o.rru_start_ || o.gotExitSignal) = true →
      ∃ cs, BigStation.wait_loop l = some cs := by
  intro l
  induction l with
  | nil => intro h; simp at h
  | cons o os ih =>
    intro h
    unfold BigStation.wait_loop
    by_cases hc : (o.rru_start_ == false && !o.gotExitSignal) = true
    · rw [if_pos hc]
      have ho : (o.rru_start_ || o.gotExitSignal) = false := by
        cases h1 : o.rru_start_ <;> cases h2 : o.gotExitSignal <;> simp_all
      rw [List.any_cons, ho, Bool.false_or] at h
      obtain ⟨cs, hcs⟩ := ih h
      exact ⟨_, by rw [hcs]; rfl⟩
    · rw [if_neg hc]
      exact ⟨[], rfl⟩

theorem running_loop_frame (cfg : Config) :
    ∀ (l : List RunningObs) (cf : Nat),
      BigStation.running_loop cfg l = some (ExitPath.frame_condition cf) →
      cf = cfg.frames_to_test := by
  intro l
  induction l with
  | nil => intro cf h; simp [BigStation.running_loop] at h
  | cons o os ih =>
    intro cf h
    unfold BigStation.running_loop at h
    split_ifs at h with h1 h2
    · simp only [Option.some.injEq, ExitPath.frame_condition.injEq] at h
      omega
    · exact ih cf h
    · simp at h

theorem running_loop_returns (cfg : Config) :
    ∀ l : List RunningObs,
      l.any (fun o => !(o.running && !o.gotExitSignal)
        || decide (o.cur_frame_ = cfg.frames_to_test)) = true →
      ∃ p, BigStation.running_loop cfg l = some p := by
  intro l
  induction l with
  | nil => intro h; simp at h
  | cons o os ih =>
    intro h
    unfold BigStation.running_loop
    by_cases h1 : (o.running && !o.gotExitSignal) = true
    · rw [if_pos h1]
      by_cases h2 : o.cur_frame_ = cfg.frames_to_test
      · rw [if_pos h2]; exact ⟨_, rfl⟩
      · rw [if_neg h2]
        rw [List.any_cons] at h
        simp only [h1, Bool.not_true, Bool.false_or, h2, decide_False] at h
        exact ih h
    · rw [if_neg h1]; exact ⟨_, rfl⟩

/-! ## Groups processed by the ZF workers -/

theorem groups_of_kernel_calls (cfg : Config) (f : Nat) (scs : List Int) :
    csiGroups (scs.flatMap (zfWorker.kernel_calls cfg f) ++ [Event.prepare_zf_pkt f])
      = scs.map (fun s => toSizeT s - toSizeT s % cfg.UE_NUM) ∧
    zfGroups (scs.flatMap (zfWorker.kernel_calls cfg f) ++ [Event.prepare_zf_pkt f])
      = scs.map (fun s => toSizeT s - toSizeT s % cfg.UE_NUM) := by
  induction scs with
  | nil => exact ⟨rfl, rfl⟩
  | cons s rest ih =>
    obtain ⟨i1, i2⟩ := ih
    constructor
    · simp only [List.flatMap_cons, zfWorker.kernel_calls, List.cons_append, List.nil_append,
        csiGroups, List.map_cons]
      rw [← i1]
      rfl
    · simp only [List.flatMap_cons, zfWorker.kernel_calls, List.cons_append, List.nil_append,
        zfGroups, List.map_cons]
      rw [← i2]
      rfl

theorem chain_step_nodup (U : Nat) (hU : 1 ≤ U) (l : List Int)
    (h : List.Chain' (fun a b => b = a + (U : Int)) l) : l.Nodup := by
  have h1 : List.Chain' (fun a b : Int => a < b) l :=
    List.Chain'.imp (fun a b hab => by omega) h
  have h2 : List.Pairwise (fun a b : Int => a < b) l := List.chain'_iff_pairwise.1 h1
  exact h2.imp (fun hab => ne_of_lt hab)

theorem nat_base_of_mod (n U off : Nat) (h : (n : Int) % (U : Int) = (off : Int)) :
    n % U = off := by
  have : ((n % U : Nat) : Int) = (off : Int) := by
    rw [Int.natCast_mod]; exact h
  exact_mod_cast this

theorem zf_groups_spec (cfg : Config) (tid f : Nat) (hU : 1 ≤ cfg.UE_NUM)
    (hfit : zfWorker.sc_end cfg tid + cfg.UE_NUM ≤ 2147483648) :
    ∃ gs, zfWorker.groups cfg tid f = some gs ∧
      (zfWorker.frame_events cfg tid f).map zfGroups = some gs ∧
      gs.Nodup ∧
      ∀ g, g ∈ gs ↔ cfg.UE_NUM ∣ g ∧
        zfWorker.sc_start cfg tid ≤ g + cfg.simple_hash f % cfg.UE_NUM ∧
        g + cfg.simple_hash f % cfg.UE_NUM < zfWorker.sc_end cfg tid := by
  obtain ⟨scs, hv, hmem, hchain⟩ := visited_spec cfg tid f hU hfit
  have ho : cfg.simple_hash f % cfg.UE_NUM < cfg.UE_NUM := Nat.mod_lt _ (by omega)
  have hev : zfWorker.frame_events cfg tid f = some
      (scs.flatMap (zfWorker.kernel_calls cfg f) ++ [Event.prepare_zf_pkt f]) := by
    simp [zfWorker.frame_events, zfWorker.body, hv, trace]
  obtain ⟨g1, g2⟩ := groups_of_kernel_calls cfg f scs
  -- every visited subcarrier is a natural number `n` with `n % U = off`
  have hnat : ∀ s ∈ scs, ∃ n : Nat, s = (n : Int) ∧
      toSizeT s - toSizeT s % cfg.UE_NUM = n - cfg.simple_hash f % cfg.UE_NUM ∧
      n % cfg.UE_NUM = cfg.simple_hash f % cfg.UE_NUM ∧
      zfWorker.sc_start cfg tid ≤ n ∧ n < zfWorker.sc_end cfg tid := by
    intro s hs
    obtain ⟨a1, a2, a3⟩ := (hmem s).1 hs
    have hs0 : 0 ≤ s := by omega
    obtain ⟨n, rfl⟩ := Int.eq_ofNat_of_zero_le hs0
    have hm := nat_base_of_mod n _ _ a3
    refine ⟨n, rfl, ?_, hm, by exact_mod_cast a1, by exact_mod_cast a2⟩
    rw [toSizeT_of_nonneg _ hs0 (by omega), Int.toNat_ofNat, hm]
  refine ⟨scs.map (fun s => toSizeT s - toSizeT s % cfg.UE_NUM), ?_, ?_, ?_, ?_⟩
  · simp [zfWorker.groups, hev, g1]
  · simp [hev, g2]
  · apply List.Nodup.map_on _ (chain_step_nodup cfg.UE_NUM hU scs hchain)
    intro x hx y hy hxy
    obtain ⟨n, rfl, hn1, hn2, _, _⟩ := hnat x hx
    obtain ⟨m, rfl, hm1, hm2, _, _⟩ := hnat y hy
    rw [hn1, hm1] at hxy
    have e1 : cfg.simple_hash f % cfg.UE_NUM ≤ n := by rw [← hn2]; exact Nat.mod_le _ _
    have e2 : cfg.simple_hash f % cfg.UE_NUM ≤ m := by rw [← hm2]; exact Nat.mod_le _ _
    have : n = m := by omega
    rw [this]
  · intro g
    rw [List.mem_map]
    constructor
    · rintro ⟨s, hs, rfl⟩
      obtain ⟨n, rfl, hn1, hn2, hn3, hn4⟩ := hnat _ hs
      rw [hn1]
      have e1 : cfg.simple_hash f % cfg.UE_NUM ≤ n := by rw [← hn2]; exact Nat.mod_le _ _
      refine ⟨?_, by omega, by omega⟩
      rw [← hn2]
      exact Nat.dvd_sub_mod n
    · rintro ⟨hd, h1, h2⟩
      have hmod : (g + cfg.simple_hash f % cfg.UE_NUM) % cfg.UE_NUM
          = cfg.simple_hash f % cfg.UE_NUM := by
        obtain ⟨q, rfl⟩ := hd
        rw [Nat.mul_add_mod, Nat.mod_mod]
      have hsmem : ((g + cfg.simple_hash f % cfg.UE_NUM : Nat) : Int) ∈ scs := by
        rw [hmem]
        refine ⟨by exact_mod_cast h1, by exact_mod_cast h2, ?_⟩
        rw [← Int.natCast_mod, hmod]
      refine ⟨_, hsmem, ?_⟩
      obtain ⟨n, hn0, hn1, hn2, _, _⟩ := hnat _ hsmem
      have : g + cfg.simple_hash f % cfg.UE_NUM = n := by exact_mod_cast hn0
      rw [hn1, ← this]
      omega

/-! ## The Decode worker's index stays in range -/

theorem decode_body_in_range (cfg : Config) (o : DecodeObs) (st : DecodeState)
    (hU : 1 ≤ cfg.num_ues_to_process)
    (hidx : st.cur_decode_idx
      < cfg.num_ues_to_process * cfg.ul_data_symbol_num_perframe) :
    ∃ st' evs, decodeWorker.body cfg o st = some (st', evs) ∧
      st'.cur_decode_idx < cfg.num_ues_to_process * cfg.ul_data_symbol_num_perframe ∧
      ∀ e ∈ evs, decodeInRange cfg e := by
  have hU0 : cfg.num_ues_to_process ≠ 0 := by omega
  have hs : st.cur_decode_idx / cfg.num_ues_to_process < cfg.ul_data_symbol_num_perframe :=
    (Nat.div_lt_iff_lt_mul (by omega)).2 (by rw [Nat.mul_comm]; exact hidx)
  have hu : st.cur_decode_idx % cfg.num_ues_to_process < cfg.num_ues_to_process :=
    Nat.mod_lt _ (by omega)
  have hpos : 0 < cfg.num_ues_to_process * cfg.ul_data_symbol_num_perframe := by omega
  unfold decodeWorker.body
  rw [if_neg hU0]
  dsimp only
  by_cases hr : o.received_all_demod_pkts = true
  · rw [if_pos hr]
    by_cases hw : st.cur_decode_idx + cfg.num_demul_workers cfg.bs_server_addr_idx
        ≥ cfg.num_ues_to_process * cfg.ul_data_symbol_num_perframe
    · rw [if_pos hw]
      by_cases hd : o.decode_done = true
      · rw [if_pos hd]
        refine ⟨_, _, rfl, hpos, ?_⟩
        intro e he
        simp only [List.mem_cons, List.mem_singleton, List.not_mem_nil, or_false] at he
        rcases he with rfl | rfl
        · exact ⟨hs, hu⟩
        · trivial
      · rw [if_neg hd]
        refine ⟨_, _, rfl, hpos, ?_⟩
        intro e he
        simp only [List.mem_cons, List.mem_singleton, List.not_mem_nil, or_false] at he
        rcases he with rfl | rfl
        · exact ⟨hs, hu⟩
        · trivial
    · rw [if_neg hw]
      refine ⟨_, _, rfl, by dsimp only; omega, ?_⟩
      intro e he
      simp only [List.mem_singleton] at he
      subst he
      exact ⟨hs, hu⟩
  · rw [if_neg hr]
    exact ⟨_, _, rfl, hidx, by simp⟩

theorem decode_run_in_range (cfg : Config) (hU : 1 ≤ cfg.num_ues_to_process) :
    ∀ (obs : List DecodeObs) (st : DecodeState),
      st.cur_decode_idx < cfg.num_ues_to_process * cfg.ul_data_symbol_num_perframe →
      ∃ r, decodeWorker.run cfg obs st = some r ∧
        r.1.cur_decode_idx < cfg.num_ues_to_process * cfg.ul_data_symbol_num_perframe ∧
        ∀ e ∈ r.2, decodeInRange cfg e := by
  intro obs
  induction obs with
  | nil =>
    intro st h
    exact ⟨(st, []), rfl, h, by simp⟩
  | cons o os ih =>
    intro st h
    by_cases hl : st.in_loop = true
    · by_cases ht : (st.running && o.running && !o.gotExitSignal) = true
      · obtain ⟨st', evs, hb, h1, h2⟩ := decode_body_in_range cfg o st hU h
        obtain ⟨r, hr, h3, h4⟩ := ih st' h1
        refine ⟨(r.1, evs ++ r.2), by simp [decodeWorker.run, hl, ht, hb, hr], h3, ?_⟩
        intro e he
        rcases List.mem_append.1 he with he | he
        · exact h2 e he
        · exact h4 e he
      · exact ⟨({ st with in_loop := false }, []), by simp [decodeWorker.run, hl, ht], h,
          by simp⟩
    · exact ⟨(st, []), by simp [decodeWorker.run, hl], h, by simp⟩

/-! ## The stores of `runCsi` -/

theorem stores_of_block {α : Type} (g : Nat → α) :
    ∀ m : Nat, (List.range' 0 m 8).flatMap (fun s => (List.range 8).map (fun t => g (s + t)))
      = (List.range (8 * m)).map g := by
  intro m
  induction m with
  | zero => rfl
  | succ m ih =>
    rw [List.range'_concat, List.flatMap_append, ih, Nat.mul_succ, List.range_add,
      List.map_append]
    simp

theorem blocks_of_range {α : Type} (h : Nat → α) (K : Nat) :
    ∀ n b0 : Nat, (List.range' b0 n).flatMap (fun b => (List.range K).map (fun r => h (b * K + r)))
      = (List.range' (b0 * K) (n * K)).map h := by
  intro n
  induction n with
  | zero => intro b0; simp
  | succ n ih =>
    intro b0
    rw [List.range'_succ, List.flatMap_cons, ih (b0 + 1)]
    have e1 : (List.range K).map (fun r => h (b0 * K + r))
        = (List.range' (b0 * K) K).map h := by
      rw [List.range'_eq_map_range, List.map_map]
      rfl
    have e2 : (n + 1) * K = n * K + K := by ring
    have e3 : (b0 + 1) * K = b0 * K + K := by ring
    rw [e1, e2, e3, ← List.map_append, List.range'_append_1]

theorem runCsi_block (syms : Symbols) (cfg : Config) (frame_slot i j block_idx : Nat)
    (hC : syms.kSCsPerCacheline = 8) (hK : 8 ∣ syms.kTransposeBlockSize) :
    (List.range' 0
        ((syms.kTransposeBlockSize + syms.kSCsPerCacheline - 1) / syms.kSCsPerCacheline)
        syms.kSCsPerCacheline).flatMap
      (fun sc_j => BigStation.runCsi_stores frame_slot i j
        ((block_idx * syms.kTransposeBlockSize) + sc_j)
        (block_idx * (syms.kTransposeBlockSize * cfg.BS_ANT_NUM)
          + (j * syms.kTransposeBlockSize) + sc_j))
    = (List.range syms.kTransposeBlockSize).map (fun r =>
        CsiWrite.mk frame_slot i j (block_idx * syms.kTransposeBlockSize + r)
          (((block_idx * syms.kTransposeBlockSize + r) / syms.kTransposeBlockSize)
              * (syms.kTransposeBlockSize * cfg.BS_ANT_NUM)
            + j * syms.kTransposeBlockSize
            + (block_idx * syms.kTransposeBlockSize + r) % syms.kTransposeBlockSize)) := by
  obtain ⟨m, hm⟩ := hK
  have hcount : (syms.kTransposeBlockSize + syms.kSCsPerCacheline - 1)
      / syms.kSCsPerCacheline = m := by
    rw [hC, hm]; omega
  rw [hcount, hC]
  have hstores : ∀ sc_j, BigStation.runCsi_stores frame_slot i j
        ((block_idx * syms.kTransposeBlockSize) + sc_j)
        (block_idx * (syms.kTransposeBlockSize * cfg.BS_ANT_NUM)
          + (j * syms.kTransposeBlockSize) + sc_j)
      = (List.range 8).map (fun t =>
          (fun r => CsiWrite.mk frame_slot i j (block_idx * syms.kTransposeBlockSize + r)
              (block_idx * (syms.kTransposeBlockSize * cfg.BS_ANT_NUM)
                + j * syms.kTransposeBlockSize + r)) (sc_j + t)) := by
    intro sc_j
    unfold BigStation.runCsi_stores
    apply List.map_congr_left
    intro t _
    simp only [Nat.add_assoc]
  simp only [hstores]
  refine (stores_of_block
    (fun r => CsiWrite.mk frame_slot i j (block_idx * syms.kTransposeBlockSize + r)
      (block_idx * (syms.kTransposeBlockSize * cfg.BS_ANT_NUM)
        + j * syms.kTransposeBlockSize + r)) m).trans ?_
  rw [← hm]
  apply List.map_congr_left
  intro r hr
  have hr' : r < syms.kTransposeBlockSize := List.mem_range.1 hr
  obtain ⟨e1, e2⟩ := pos_div_mod block_idx r syms.kTransposeBlockSize hr'
  rw [e1, e2]

theorem runCsi_whole_blocks (syms : Symbols) (cfg : Config)
    (frame_id base_sc_id sc_block_size : Nat)
    (hC : syms.kSCsPerCacheline = 8) (hK : 8 ∣ syms.kTransposeBlockSize) :
    BigStation.runCsi syms cfg frame_id base_sc_id sc_block_size =
      claimedCsiWrites syms cfg frame_id
        (base_sc_id / syms.kTransposeBlockSize * syms.kTransposeBlockSize)
        (((base_sc_id + sc_block_size) / syms.kTransposeBlockSize
            - base_sc_id / syms.kTransposeBlockSize) * syms.kTransposeBlockSize) := by
  unfold BigStation.runCsi claimedCsiWrites
  dsimp only
  apply List.flatMap_congr
  intro i _
  apply List.flatMap_congr
  intro j _
  simp only [runCsi_block syms cfg _ i j _ hC hK]
  exact blocks_of_range
    (fun sc => CsiWrite.mk (frame_id % syms.kFrameWnd) i j sc
        ((sc / syms.kTransposeBlockSize) * (syms.kTransposeBlockSize * cfg.BS_ANT_NUM)
          + j * syms.kTransposeBlockSize + sc % syms.kTransposeBlockSize))
    syms.kTransposeBlockSize _ _

theorem mem_claimedCsiWrites (syms : Symbols) (cfg : Config) (frame_id first count : Nat)
    (w : CsiWrite) :
    w ∈ claimedCsiWrites syms cfg frame_id first count ↔
      w.frame_slot = frame_id % syms.kFrameWnd
      ∧ w.i < cfg.pilot_symbol_num_perframe ∧ w.j < cfg.BS_ANT_NUM
      ∧ first ≤ w.sc ∧ w.sc < first + count
      ∧ w.offset = (w.sc / syms.kTransposeBlockSize)
            * (syms.kTransposeBlockSize * cfg.BS_ANT_NUM)
          + w.j * syms.kTransposeBlockSize + w.sc % syms.kTransposeBlockSize := by
  unfold claimedCsiWrites
  simp only [List.mem_flatMap, List.mem_map, List.mem_range, List.mem_range'_1]
  constructor
  · rintro ⟨i, hi, j, hj, sc, ⟨h1, h2⟩, rfl⟩
    exact ⟨rfl, hi, hj, h1, h2, rfl⟩
  · rintro ⟨h0, hi, hj, h1, h2, h3⟩
    refine ⟨w.i, hi, w.j, hj, w.sc, ⟨h1, h2⟩, ?_⟩
    cases w
    simp only at h0 h3
    subst h0 h3
    rfl

theorem claimedCsiWrites_nodup (syms : Symbols) (cfg : Config)
    (frame_id first count : Nat) :
    (claimedCsiWrites syms cfg frame_id first count).Nodup := by
  unfold claimedCsiWrites
  rw [List.nodup_flatMap]
  refine ⟨fun i _ => ?_, ?_⟩
  · rw [List.nodup_flatMap]
    refine ⟨fun j _ => ?_, ?_⟩
    · refine (List.nodup_range' first count).map_on ?_
      intro a _ b _ h
      exact congrArg CsiWrite.sc h
    · refine (List.nodup_range cfg.BS_ANT_NUM).pairwise_of_forall_ne ?_
      intro a _ b _ hab x hxa hxb
      simp only [List.mem_map] at hxa hxb
      obtain ⟨_, _, rfl⟩ := hxa
      obtain ⟨_, _, h⟩ := hxb
      exact hab (congrArg CsiWrite.j h).symm
  · refine (List.nodup_range cfg.pilot_symbol_num_perframe).pairwise_of_forall_ne ?_
    intro a _ b _ hab x hxa hxb
    simp only [List.mem_flatMap, List.mem_map] at hxa hxb
    obtain ⟨_, _, _, _, rfl⟩ := hxa
    obtain ⟨_, _, _, _, h⟩ := hxb
    exact hab (congrArg CsiWrite.i h).symm

theorem blocks_of_ne_nil_iff (B S E : Nat) (hB : 1 ≤ B) (bs : List (Nat × Nat))
    (h : demulWorker.blocks_of B S E = some bs) : bs ≠ [] ↔ S - S % B < E := by
  unfold demulWorker.blocks_of at h
  rw [if_neg (by omega)] at h
  by_cases hlt : S - S % B < E
  · simp only [demulWorker.block_loop, hlt, if_true] at h
    cases hrest : demulWorker.block_loop B S E E (S - S % B + B) with
    | none => simp [hrest] at h
    | some rest =>
      simp only [hrest, Option.map_some', Option.some.injEq] at h
      subst h
      simp [hlt]
  · simp only [demulWorker.block_loop, hlt, if_false, Option.some.injEq] at h
    subst h
    simp [hlt]

/-! ## Claims -/

/-- C1: for every dimension size and worker count `T ≥ 1`, the shards
`[t*D/T, (t+1)*D/T)` computed by the FFT workers (over the antennas), the ZF workers
and the Demul workers (over the subcarriers) tile `[0, D)`: shard 0 starts at 0, shard
`t` ends where shard `t+1` starts, shard `T-1` ends at `D`, every index below `D` lies
in exactly one shard and the shard sizes sum to `D`. -/
theorem C1_shards_tile (cfg : Config) :
    (1 ≤ cfg.total_fft_workers →
      Tiles (fftWorker.ant_start cfg) (fftWorker.ant_end cfg)
        cfg.total_fft_workers cfg.BS_ANT_NUM) ∧
    (1 ≤ cfg.total_zf_workers →
      Tiles (zfWorker.sc_start cfg) (zfWorker.sc_end cfg)
        cfg.total_zf_workers cfg.OFDM_DATA_NUM) ∧
    (1 ≤ cfg.total_demul_workers →
      Tiles (demulWorker.sc_start cfg) (demulWorker.sc_end cfg)
        cfg.total_demul_workers cfg.OFDM_DATA_NUM) :=
  ⟨fun h => floor_partition_tiles cfg.BS_ANT_NUM cfg.total_fft_workers h,
   fun h => floor_partition_tiles cfg.OFDM_DATA_NUM cfg.total_zf_workers h,
   fun h => floor_partition_tiles cfg.OFDM_DATA_NUM cfg.total_demul_workers h⟩

theorem C1_shards_tile_witness :
    (1 ≤ partitionEdge.total_fft_workers ∧ 1 ≤ partitionEdge.total_zf_workers ∧
      1 ≤ partitionEdge.total_demul_workers) ∧
    Tiles (fftWorker.ant_start partitionEdge) (fftWorker.ant_end partitionEdge) 4 64 ∧
    Tiles (zfWorker.sc_start partitionEdge) (zfWorker.sc_end partitionEdge) 4 1201 ∧
    Tiles (demulWorker.sc_start partitionEdge) (demulWorker.sc_end partitionEdge) 4 1201 :=
  ⟨⟨by decide, by decide, by decide⟩,
   (C1_shards_tile partitionEdge).1 (by decide),
   (C1_shards_tile partitionEdge).2.1 (by decide),
   (C1_shards_tile partitionEdge).2.2 (by decide)⟩

/-- C2 (the code breaks it): with 2 users, 2 uplink symbols and stride 2, the decode
workers with local offsets 0 and 1 decode disjoint pairs in frame 0, but in frame 1 both
decode the pairs `(0, 0)` and `(1, 0)`: after its first frame a worker restarts at pair
index 0, not at its own offset. -/
theorem C2_decode_workers_overlap_after_frame0 :
    (trace (decodeWorker twoDecoders 0 (List.replicate 4 {}))).map (decodedPairs 0)
      = some [(0, 0), (1, 0)] ∧
    (trace (decodeWorker twoDecoders 1 (List.replicate 4 {}))).map (decodedPairs 0)
      = some [(0, 1), (1, 1)] ∧
    (trace (decodeWorker twoDecoders 0 (List.replicate 4 {}))).map (decodedPairs 1)
      = some [(0, 0), (1, 0)] ∧
    (trace (decodeWorker twoDecoders 1 (List.replicate 4 {}))).map (decodedPairs 1)
      = some [(0, 0), (1, 0)] := by
  decide

/-- C3 (the code breaks it): the decode worker with local offset 1 and stride 2 over 4
pairs per frame decodes the pair indices 1, 3 in frame 0 and then the pair indices 0, 2
(not 1, 3) in frames 1 and 2. -/
theorem C3_decode_worker_restarts_at_zero :
    trace (decodeWorker twoDecoders 1 (List.replicate 6 {})) =
      some [Event.decode_LaunchStatic 0 (1 / 2) (1 % 2),
            Event.decode_LaunchStatic 0 (3 / 2) (3 % 2), Event.decode_done 0,
            Event.decode_LaunchStatic 1 (0 / 2) (0 % 2),
            Event.decode_LaunchStatic 1 (2 / 2) (2 % 2), Event.decode_done 1,
            Event.decode_LaunchStatic 2 (0 / 2) (0 % 2),
            Event.decode_LaunchStatic 2 (2 / 2) (2 % 2), Event.decode_done 2] := by
  decide

/-- C4: for every frame, UE count `U ≥ 1` and shard whose values fit the `int` variables
of the loop (`sc_end + U ≤ 2^31`), the subcarriers `sc_id` the ZF worker visits in that
frame are exactly the `s` with `sc_start ≤ s < sc_end` and
`s mod U = simple_hash(frame) mod U`, in increasing order in steps of `U`; for each one
`runCsi` and `ZFFreqOrthogonalStatic` are called once, on the group base `s - s mod U`,
and the frame's calls end with `prepare_zf_pkt`. -/
theorem C4_zf_visits_residue_class (cfg : Config) (tid f : Nat) (hU : 1 ≤ cfg.UE_NUM)
    (hfit : zfWorker.sc_end cfg tid + cfg.UE_NUM ≤ 2147483648) :
    ∃ scs, zfWorker.visited cfg tid f = some scs ∧
      (∀ s : Int, s ∈ scs ↔
        (zfWorker.sc_start cfg tid : Int) ≤ s ∧ s < zfWorker.sc_end cfg tid ∧
          s % (cfg.UE_NUM : Int) = (cfg.simple_hash f % cfg.UE_NUM : Nat)) ∧
      List.Chain' (fun a b => b = a + (cfg.UE_NUM : Int)) scs ∧
      ∀ (o : ZFObs) (st : ZFState), o.received_all_pilot_pkts = true → st.cur_zf_frame = f →
        trace (zfWorker.body cfg tid o st) = some
          (scs.flatMap (fun s =>
              [Event.runCsi f (s.toNat - s.toNat % cfg.UE_NUM) cfg.UE_NUM,
               Event.ZFFreqOrthogonalStatic f 0 (s.toNat - s.toNat % cfg.UE_NUM)]) ++
            [Event.prepare_zf_pkt f]) := by
  obtain ⟨scs, h1, h2, h3⟩ := visited_spec cfg tid f hU hfit
  refine ⟨scs, h1, h2, h3, ?_⟩
  intro o st hp hf
  subst hf
  have hcalls : scs.flatMap (zfWorker.kernel_calls cfg st.cur_zf_frame) =
      scs.flatMap (fun s =>
        [Event.runCsi st.cur_zf_frame (s.toNat - s.toNat % cfg.UE_NUM) cfg.UE_NUM,
         Event.ZFFreqOrthogonalStatic st.cur_zf_frame 0 (s.toNat - s.toNat % cfg.UE_NUM)]) := by
    apply List.flatMap_congr
    intro s hs
    obtain ⟨a1, a2, _⟩ := (h2 s).1 hs
    unfold zfWorker.kernel_calls
    rw [toSizeT_of_nonneg s (by omega) (by omega)]
  unfold zfWorker.body
  rw [hp, h1, ← hcalls]
  cases o.prepare_zf_pkt <;> simp [trace]

theorem C4_zf_visits_residue_class_witness :
    (1 ≤ partitionEdge.UE_NUM ∧
      zfWorker.sc_end partitionEdge 1 + partitionEdge.UE_NUM ≤ 2147483648) ∧
    ∃ scs, zfWorker.visited partitionEdge 1 3 = some scs ∧
      (∀ s : Int, s ∈ scs ↔
        (zfWorker.sc_start partitionEdge 1 : Int) ≤ s ∧ s < zfWorker.sc_end partitionEdge 1 ∧
          s % (partitionEdge.UE_NUM : Int)
            = (partitionEdge.simple_hash 3 % partitionEdge.UE_NUM : Nat)) ∧
      List.Chain' (fun a b => b = a + (partitionEdge.UE_NUM : Int)) scs ∧
      ∀ (o : ZFObs) (st : ZFState), o.received_all_pilot_pkts = true → st.cur_zf_frame = 3 →
        trace (zfWorker.body partitionEdge 1 o st) = some
          (scs.flatMap (fun s =>
              [Event.runCsi 3 (s.toNat - s.toNat % partitionEdge.UE_NUM) partitionEdge.UE_NUM,
               Event.ZFFreqOrthogonalStatic 3 0
                 (s.toNat - s.toNat % partitionEdge.UE_NUM)]) ++
            [Event.prepare_zf_pkt 3]) :=
  ⟨⟨by decide, by decide⟩, C4_zf_visits_residue_class partitionEdge 1 3 (by decide) (by decide)⟩

/-- C5: for every `demul_block_size ≥ 1` and non-empty shard, the `(start, length)`
blocks the Demul worker passes to `LaunchStatic` for one (frame, symbol) are non-empty,
each of length at most the block size, consecutive from `sc_start` to `sc_end`; so their
index ranges put end to end are exactly `sc_start, sc_start+1, ..., sc_end-1` and their
lengths sum to `sc_end - sc_start`, the count passed to `prepare_demod_pkt`. -/
theorem C5_demul_blocks_cover_shard (cfg : Config) (tid : Nat)
    (hB : 1 ≤ cfg.demul_block_size)
    (hne : demulWorker.sc_start cfg tid < demulWorker.sc_end cfg tid) :
    ∃ bs, demulWorker.blocks cfg tid = some bs ∧ bs ≠ [] ∧
      (∀ blk ∈ bs, 1 ≤ blk.2 ∧ blk.2 ≤ cfg.demul_block_size) ∧
      ConsecutiveFromTo bs (demulWorker.sc_start cfg tid) (demulWorker.sc_end cfg tid) ∧
      bs.flatMap (fun blk => List.range' blk.1 blk.2) =
        List.range' (demulWorker.sc_start cfg tid)
          (demulWorker.sc_end cfg tid - demulWorker.sc_start cfg tid) ∧
      (bs.map (fun blk => blk.2)).sum
        = demulWorker.sc_end cfg tid - demulWorker.sc_start cfg tid ∧
      ∀ (o : DemulObs) (st : DemulState),
        o.received_all_zf_pkts = true → o.received_all_ul_data_pkts = true →
        trace (demulWorker.body cfg tid o st) = some
          (bs.map (fun blk => Event.demul_LaunchStatic st.cur_demul_frame
              st.cur_demul_symbol_ul blk.1 blk.2) ++
            [Event.prepare_demod_pkt st.cur_demul_frame st.cur_demul_symbol_ul
              (bs.map (fun blk => blk.2)).sum]) := by
  obtain ⟨bs, h1, h2, h3, h4⟩ :=
    blocks_of_spec cfg.demul_block_size _ _ hB hne
  obtain ⟨_, h5, h6⟩ := consecutive_flat bs _ _ h4
  refine ⟨bs, h1, h2, h3, h4, h5, h6, ?_⟩
  intro o st hz hu
  have hb : demulWorker.blocks cfg tid = some bs := h1
  unfold demulWorker.body
  rw [hz, hu, hb, h6]
  cases o.prepare_demod_pkt <;> simp [trace]

theorem C5_demul_blocks_cover_shard_witness :
    (1 ≤ partitionEdge.demul_block_size ∧
      demulWorker.sc_start partitionEdge 1 < demulWorker.sc_end partitionEdge 1) ∧
    ∃ bs, demulWorker.blocks partitionEdge 1 = some bs ∧ bs ≠ [] ∧
      (∀ blk ∈ bs, 1 ≤ blk.2 ∧ blk.2 ≤ 48) ∧
      ConsecutiveFromTo bs 300 600 ∧
      bs.flatMap (fun blk => List.range' blk.1 blk.2) = List.range' 300 (600 - 300) ∧
      (bs.map (fun blk => blk.2)).sum = 600 - 300 ∧
      ∀ (o : DemulObs) (st : DemulState),
        o.received_all_zf_pkts = true → o.received_all_ul_data_pkts = true →
        trace (demulWorker.body partitionEdge 1 o st) = some
          (bs.map (fun blk => Event.demul_LaunchStatic st.cur_demul_frame
              st.cur_demul_symbol_ul blk.1 blk.2) ++
            [Event.prepare_demod_pkt st.cur_demul_frame st.cur_demul_symbol_ul
              (bs.map (fun blk => blk.2)).sum]) :=
  ⟨⟨by decide, by decide⟩, C5_demul_blocks_cover_shard partitionEdge 1 (by decide) (by decide)⟩

/-- C6, as stated, fails: with 5 subcarriers over 3 demul workers and block size 4,
worker 2 has the shard `[3, 5)`, smaller than a block, and still makes two `LaunchStatic`
calls, `(3, 1)` and `(4, 1)`, because blocks are cut at the multiples of the block size. -/
theorem C6_two_blocks_for_small_shard :
    demulWorker.sc_start fiveOverThree 2 = 3 ∧ demulWorker.sc_end fiveOverThree 2 = 5 ∧
    fiveOverThree.demul_block_size
      > demulWorker.sc_end fiveOverThree 2 - demulWorker.sc_start fiveOverThree 2 ∧
    demulWorker.blocks fiveOverThree 2 = some [(3, 1), (4, 1)] ∧
    demulWorker.blocks fiveOverThree 2 ≠ some [(3, 5 - 3)] := by
  decide

/-- C6, amended: for every non-empty shard `[sc_start, sc_end)` and every
`demul_block_size B > sc_end - sc_start`, the Demul worker makes per (frame, symbol)
exactly one `LaunchStatic` call, with start `sc_start` and length `sc_end - sc_start`,
when the shard does not go beyond the next multiple `m = sc_start - sc_start % B + B` of
the block size, and otherwise exactly two calls, `(sc_start, m - sc_start)` and
`(m, sc_end - m)`. -/
theorem C6_block_larger_than_shard (cfg : Config) (tid : Nat)
    (hne : demulWorker.sc_start cfg tid < demulWorker.sc_end cfg tid)
    (hB : demulWorker.sc_end cfg tid - demulWorker.sc_start cfg tid < cfg.demul_block_size) :
    demulWorker.blocks cfg tid = some
      (if demulWorker.sc_end cfg tid ≤ demulWorker.sc_start cfg tid
            - demulWorker.sc_start cfg tid % cfg.demul_block_size + cfg.demul_block_size
       then [(demulWorker.sc_start cfg tid,
              demulWorker.sc_end cfg tid - demulWorker.sc_start cfg tid)]
       else [(demulWorker.sc_start cfg tid,
              demulWorker.sc_start cfg tid
                - demulWorker.sc_start cfg tid % cfg.demul_block_size
                + cfg.demul_block_size - demulWorker.sc_start cfg tid),
             (demulWorker.sc_start cfg tid
                - demulWorker.sc_start cfg tid % cfg.demul_block_size
                + cfg.demul_block_size,
              demulWorker.sc_end cfg tid
                - (demulWorker.sc_start cfg tid
                  - demulWorker.sc_start cfg tid % cfg.demul_block_size
                  + cfg.demul_block_size))]) :=
  blocks_of_large_block cfg.demul_block_size _ _ hne hB

theorem C6_block_larger_than_shard_witness :
    (demulWorker.sc_start fiveOverThree 1 < demulWorker.sc_end fiveOverThree 1 ∧
      demulWorker.sc_end fiveOverThree 1 - demulWorker.sc_start fiveOverThree 1
        < fiveOverThree.demul_block_size) ∧
    demulWorker.blocks fiveOverThree 1 = some [(1, 2)] := by
  refine ⟨⟨by decide, by decide⟩, ?_⟩
  rw [C6_block_larger_than_shard fiveOverThree 1 (by decide) (by decide)]
  decide

/-- C7, as stated, fails: with 5 subcarriers over 3 demul workers (3 does not divide 5)
the shards are `[0,1)`, `[1,3)`, `[3,5)`: shard 1 has size 2, not `5 / 3 = 1`, and the
last shard has size 2, not `5 / 3 + 5 % 3 = 3`. -/
theorem C7_last_shard_does_not_absorb_remainder :
    ¬ (fiveOverThree.total_demul_workers ∣ fiveOverThree.OFDM_DATA_NUM) ∧
    ¬ ((∀ t, t + 1 < fiveOverThree.total_demul_workers →
          demulWorker.sc_end fiveOverThree t - demulWorker.sc_start fiveOverThree t
            = fiveOverThree.OFDM_DATA_NUM / fiveOverThree.total_demul_workers) ∧
        demulWorker.sc_end fiveOverThree 2 - demulWorker.sc_start fiveOverThree 2
          = fiveOverThree.OFDM_DATA_NUM / fiveOverThree.total_demul_workers
            + fiveOverThree.OFDM_DATA_NUM % fiveOverThree.total_demul_workers) := by
  refine ⟨by decide, fun h => ?_⟩
  exact absurd h.2 (by decide)

/-- C7, amended: for every dimension size and worker count `T ≥ 1` that does not divide
it, every shard `[t*D/T, (t+1)*D/T)` of the FFT, ZF and Demul workers has size
`floor(D/T)` or `floor(D/T) + 1`, the last shard has size `floor(D/T) + 1`, so that no
shard is larger than the last, and when `D mod T = 1` the shards `0..T-2` all have size
`floor(D/T)` (1201 subcarriers over 4 demul workers: 300, 300, 300, 301). -/
theorem C7_last_shard_is_a_largest (cfg : Config) :
    (1 ≤ cfg.total_fft_workers → ¬ cfg.total_fft_workers ∣ cfg.BS_ANT_NUM →
      NearEqualShards (fftWorker.ant_start cfg) (fftWorker.ant_end cfg)
        cfg.total_fft_workers cfg.BS_ANT_NUM) ∧
    (1 ≤ cfg.total_zf_workers → ¬ cfg.total_zf_workers ∣ cfg.OFDM_DATA_NUM →
      NearEqualShards (zfWorker.sc_start cfg) (zfWorker.sc_end cfg)
        cfg.total_zf_workers cfg.OFDM_DATA_NUM) ∧
    (1 ≤ cfg.total_demul_workers → ¬ cfg.total_demul_workers ∣ cfg.OFDM_DATA_NUM →
      NearEqualShards (demulWorker.sc_start cfg) (demulWorker.sc_end cfg)
        cfg.total_demul_workers cfg.OFDM_DATA_NUM) :=
  ⟨fun h h' => floor_partition_near_equal cfg.BS_ANT_NUM cfg.total_fft_workers h h',
   fun h h' => floor_partition_near_equal cfg.OFDM_DATA_NUM cfg.total_zf_workers h h',
   fun h h' => floor_partition_near_equal cfg.OFDM_DATA_NUM cfg.total_demul_workers h h'⟩

theorem C7_last_shard_is_a_largest_witness :
    (1 ≤ partitionEdge.total_demul_workers ∧
      ¬ partitionEdge.total_demul_workers ∣ partitionEdge.OFDM_DATA_NUM) ∧
    (List.range 4).map (fun t =>
      demulWorker.sc_end partitionEdge t - demulWorker.sc_start partitionEdge t)
      = [300, 300, 300, 301] ∧
    NearEqualShards (demulWorker.sc_start partitionEdge) (demulWorker.sc_end partitionEdge)
      4 1201 :=
  ⟨⟨by decide, by decide⟩, by decide,
   (C7_last_shard_is_a_largest partitionEdge).2.2 (by decide) (by decide)⟩

/-- C8, as stated, fails: with one subcarrier over two Demul workers, worker 0 has the
empty shard `[0, 0)`; in an iteration where both `received_all_zf_pkts` and
`received_all_ul_data_pkts` are true it calls `prepare_demod_pkt(0, 0, 0)` and moves its
cursor from symbol 0 to symbol 1 without any `LaunchStatic` call. -/
theorem C8_demul_empty_shard_no_launch :
    demulWorker.sc_start oneSubcarrier 0 = 0 ∧ demulWorker.sc_end oneSubcarrier 0 = 0 ∧
    demulWorker.body oneSubcarrier 0
        { received_all_zf_pkts := true, received_all_ul_data_pkts := true }
        demulWorker.init
      = some ({ cur_demul_frame := 0, cur_demul_symbol_ul := 1, running := true,
                error := false, in_loop := true },
              [Event.prepare_demod_pkt 0 0 0]) := by
  decide

/-- C8, amended: in one loop iteration of the Demul worker at cursor (frame, uplink
symbol), with `demul_block_size ≥ 1`, `prepare_demod_pkt` is called and the cursor moves
if and only if both `received_all_zf_pkts` and `received_all_ul_data_pkts` are true; the
demul kernel is launched if and only if both are true and the first block start
`sc_start - sc_start % demul_block_size` is below `sc_end`, which is so for every
non-empty shard; when both are true the calls are the `LaunchStatic` of each block of the
shard followed by `prepare_demod_pkt`; if either is false the iteration makes no call at
all and leaves the worker's state unchanged. -/
theorem C8_demul_iteration_gate (cfg : Config) (tid : Nat) (o : DemulObs) (st : DemulState)
    (hB : 1 ≤ cfg.demul_block_size) :
    ∃ st' evs, demulWorker.body cfg tid o st = some (st', evs) ∧
      ((∃ c, Event.prepare_demod_pkt st.cur_demul_frame st.cur_demul_symbol_ul c ∈ evs) ↔
        (o.received_all_zf_pkts = true ∧ o.received_all_ul_data_pkts = true)) ∧
      ((st'.cur_demul_frame, st'.cur_demul_symbol_ul)
          ≠ (st.cur_demul_frame, st.cur_demul_symbol_ul) ↔
        (o.received_all_zf_pkts = true ∧ o.received_all_ul_data_pkts = true)) ∧
      ((∃ a l, Event.demul_LaunchStatic st.cur_demul_frame st.cur_demul_symbol_ul a l ∈ evs) ↔
        ((o.received_all_zf_pkts = true ∧ o.received_all_ul_data_pkts = true) ∧
          demulWorker.sc_start cfg tid - demulWorker.sc_start cfg tid % cfg.demul_block_size
            < demulWorker.sc_end cfg tid)) ∧
      (demulWorker.sc_start cfg tid < demulWorker.sc_end cfg tid →
        (o.received_all_zf_pkts = true ∧ o.received_all_ul_data_pkts = true) →
        ∃ a l, Event.demul_LaunchStatic st.cur_demul_frame st.cur_demul_symbol_ul a l ∈ evs) ∧
      ((o.received_all_zf_pkts = true ∧ o.received_all_ul_data_pkts = true) →
        ∃ bs, demulWorker.blocks cfg tid = some bs ∧
          evs = bs.map (fun b => Event.demul_LaunchStatic st.cur_demul_frame
                  st.cur_demul_symbol_ul b.1 b.2) ++
                [Event.prepare_demod_pkt st.cur_demul_frame st.cur_demul_symbol_ul
                  (demulWorker.sc_end cfg tid - demulWorker.sc_start cfg tid)]) ∧
      (¬ (o.received_all_zf_pkts = true ∧ o.received_all_ul_data_pkts = true) →
        evs = [] ∧ st' = st) := by
  by_cases hready : o.received_all_zf_pkts = true ∧ o.received_all_ul_data_pkts = true
  · obtain ⟨hz, hu⟩ := hready
    obtain ⟨bs, hbs⟩ := blocks_of_returns cfg.demul_block_size
      (demulWorker.sc_start cfg tid) (demulWorker.sc_end cfg tid) hB
    have hb : demulWorker.blocks cfg tid = some bs := hbs
    have hnil := blocks_of_ne_nil_iff cfg.demul_block_size
      (demulWorker.sc_start cfg tid) (demulWorker.sc_end cfg tid) hB bs hbs
    have hiff : (∃ a l, Event.demul_LaunchStatic st.cur_demul_frame st.cur_demul_symbol_ul a l ∈
          bs.map (fun b => Event.demul_LaunchStatic st.cur_demul_frame
            st.cur_demul_symbol_ul b.1 b.2) ++
          [Event.prepare_demod_pkt st.cur_demul_frame st.cur_demul_symbol_ul
            (demulWorker.sc_end cfg tid - demulWorker.sc_start cfg tid)]) ↔
        ((o.received_all_zf_pkts = true ∧ o.received_all_ul_data_pkts = true) ∧
          demulWorker.sc_start cfg tid - demulWorker.sc_start cfg tid % cfg.demul_block_size
            < demulWorker.sc_end cfg tid) := by
      constructor
      · rintro ⟨a, l, h⟩
        refine ⟨⟨hz, hu⟩, hnil.1 ?_⟩
        rintro rfl
        simp at h
      · rintro ⟨_, hlt⟩
        obtain ⟨blk, rest, rfl⟩ := List.exists_cons_of_ne_nil (hnil.2 hlt)
        exact ⟨blk.1, blk.2, by simp⟩
    have hlaunch : demulWorker.sc_start cfg tid < demulWorker.sc_end cfg tid →
        ∃ a l, Event.demul_LaunchStatic st.cur_demul_frame st.cur_demul_symbol_ul a l ∈
          bs.map (fun b => Event.demul_LaunchStatic st.cur_demul_frame
            st.cur_demul_symbol_ul b.1 b.2) ++
          [Event.prepare_demod_pkt st.cur_demul_frame st.cur_demul_symbol_ul
            (demulWorker.sc_end cfg tid - demulWorker.sc_start cfg tid)] := by
      intro hne
      exact hiff.2 ⟨⟨hz, hu⟩, by omega⟩
    cases hp : o.prepare_demod_pkt
    · refine ⟨_, _, by simp [demulWorker.body, hz, hu, hb, hp]; exact ⟨rfl, rfl⟩,
        ?_, ?_, ?_, ?_, ?_, ?_⟩
      · simp [hz, hu]
      · simp only [hz, hu, and_self, iff_true]
        exact demul_advance_moves cfg _
      · exact hiff
      · intro hne _; exact hlaunch hne
      · intro _; exact ⟨bs, hb, rfl⟩
      · intro h; exact absurd ⟨hz, hu⟩ h
    · refine ⟨_, _, by simp [demulWorker.body, hz, hu, hb, hp]; exact ⟨rfl, rfl⟩,
        ?_, ?_, ?_, ?_, ?_, ?_⟩
      · simp [hz, hu]
      · simp only [hz, hu, and_self, iff_true]
        exact demul_advance_moves cfg _
      · exact hiff
      · intro hne _; exact hlaunch hne
      · intro _; exact ⟨bs, hb, rfl⟩
      · intro h; exact absurd ⟨hz, hu⟩ h
  · have hb : (o.received_all_zf_pkts && o.received_all_ul_data_pkts) = false := by
      cases hz : o.received_all_zf_pkts <;> cases hu : o.received_all_ul_data_pkts <;>
        simp_all
    refine ⟨st, [], by simp [demulWorker.body, hb], ?_, ?_, ?_, ?_, ?_, ?_⟩
    · simp [hready]
    · simp [hready]
    · simp [hready]
    · intro _ h; exact absurd h hready
    · intro h; exact absurd h hready
    · intro _; exact ⟨rfl, rfl⟩

/-- C8 witness: worker 1 of the partition edge scenario (shard `[300, 600)`, blocks of
48), both predicates true. -/
theorem C8_demul_iteration_gate_witness :
    1 ≤ partitionEdge.demul_block_size ∧
    ∃ st' evs, demulWorker.body partitionEdge 1 {} demulWorker.init = some (st', evs) ∧
      ((∃ c, Event.prepare_demod_pkt 0 0 c ∈ evs) ↔ (true = true ∧ true = true)) ∧
      ((st'.cur_demul_frame, st'.cur_demul_symbol_ul) ≠ (0, 0) ↔ (true = true ∧ true = true)) ∧
      ((∃ a l, Event.demul_LaunchStatic 0 0 a l ∈ evs) ↔
        ((true = true ∧ true = true) ∧
          demulWorker.sc_start partitionEdge 1
              - demulWorker.sc_start partitionEdge 1 % partitionEdge.demul_block_size
            < demulWorker.sc_end partitionEdge 1)) ∧
      (demulWorker.sc_start partitionEdge 1 < demulWorker.sc_end partitionEdge 1 →
        (true = true ∧ true = true) → ∃ a l, Event.demul_LaunchStatic 0 0 a l ∈ evs) ∧
      ((true = true ∧ true = true) →
        ∃ bs, demulWorker.blocks partitionEdge 1 = some bs ∧
          evs = bs.map (fun b => Event.demul_LaunchStatic 0 0 b.1 b.2) ++
                [Event.prepare_demod_pkt 0 0
                  (demulWorker.sc_end partitionEdge 1 - demulWorker.sc_start partitionEdge 1)]) ∧
      (¬ (true = true ∧ true = true) → evs = [] ∧ st' = demulWorker.init) :=
  ⟨by decide, C8_demul_iteration_gate partitionEdge 1 {} demulWorker.init (by decide)⟩

/-- C9: for an FFT worker with a non-empty shard, `symbol_num_perframe ≥ 1` and
`frames_to_test ≥ 1`, whatever the environment answers, the calls the worker makes are
those of a prefix of the lexicographic enumeration of `(frame, symbol, ant)` over
`[0,F) × [0,S) × [ant_start, ant_end)` with `ant` innermost, each `Launch` followed by the
`prepare_freq_iq_pkt` of the same coordinate; the prefix has one coordinate per iteration
that found the packets received, and once all `F*S*(ant_end-ant_start)` coordinates are
done the worker has left its loop. -/
theorem C9_fft_lexicographic_order (cfg : Config) (tid : Nat)
    (hne : fftWorker.ant_start cfg tid < fftWorker.ant_end cfg tid)
    (hS : 1 ≤ cfg.symbol_num_perframe) (hF : 1 ≤ cfg.frames_to_test) (obs : List FFTObs) :
    (fftWorker cfg tid obs).2 =
      ((lexCoords cfg.frames_to_test cfg.symbol_num_perframe (fftWorker.ant_start cfg tid)
          (fftWorker.ant_end cfg tid)).take (fftWorker.readyIterations obs)).flatMap fftCalls ∧
    (lexCoords cfg.frames_to_test cfg.symbol_num_perframe (fftWorker.ant_start cfg tid)
        (fftWorker.ant_end cfg tid)).length =
      cfg.frames_to_test * cfg.symbol_num_perframe
        * (fftWorker.ant_end cfg tid - fftWorker.ant_start cfg tid) ∧
    (cfg.frames_to_test * cfg.symbol_num_perframe
        * (fftWorker.ant_end cfg tid - fftWorker.ant_start cfg tid)
        ≤ fftWorker.readyIterations obs →
      (fftWorker cfg tid obs).1.in_loop = false ∧
      (fftWorker cfg tid obs).2 =
        (lexCoords cfg.frames_to_test cfg.symbol_num_perframe (fftWorker.ant_start cfg tid)
          (fftWorker.ant_end cfg tid)).flatMap fftCalls) := by
  have hlen := lexCoords_length cfg.frames_to_test cfg.symbol_num_perframe
    (fftWorker.ant_start cfg tid) (fftWorker.ant_end cfg tid)
  obtain ⟨h1, h2⟩ := fft_run_spec cfg tid obs (fftWorker.init cfg tid) rfl
    (by show 0 < cfg.frames_to_test; omega) (by show 0 < cfg.symbol_num_perframe; omega)
    (le_refl _) hne
  have hinit := lexFrom_init cfg.frames_to_test cfg.symbol_num_perframe
    (fftWorker.ant_start cfg tid) (fftWorker.ant_end cfg tid) hF hS
  simp only [fftWorker.init] at h1 h2
  rw [hinit] at h1 h2
  refine ⟨h1, hlen, ?_⟩
  intro hk
  rw [← hlen] at hk
  refine ⟨h2 hk, ?_⟩
  rw [List.take_of_length_le hk] at h1
  exact h1

theorem C9_fft_lexicographic_order_witness :
    (fftWorker.ant_start smallFFT 1 < fftWorker.ant_end smallFFT 1 ∧
      1 ≤ smallFFT.symbol_num_perframe ∧ 1 ≤ smallFFT.frames_to_test) ∧
    lexCoords 2 2 2 4 =
      [(0, 0, 2), (0, 0, 3), (0, 1, 2), (0, 1, 3), (1, 0, 2), (1, 0, 3), (1, 1, 2), (1, 1, 3)] ∧
    ((fftWorker smallFFT 1 (List.replicate 10 {})).2 =
      ((lexCoords smallFFT.frames_to_test smallFFT.symbol_num_perframe
          (fftWorker.ant_start smallFFT 1) (fftWorker.ant_end smallFFT 1)).take
        (fftWorker.readyIterations (List.replicate 10 {}))).flatMap fftCalls ∧
    (lexCoords smallFFT.frames_to_test smallFFT.symbol_num_perframe
        (fftWorker.ant_start smallFFT 1) (fftWorker.ant_end smallFFT 1)).length =
      smallFFT.frames_to_test * smallFFT.symbol_num_perframe
        * (fftWorker.ant_end smallFFT 1 - fftWorker.ant_start smallFFT 1) ∧
    (smallFFT.frames_to_test * smallFFT.symbol_num_perframe
        * (fftWorker.ant_end smallFFT 1 - fftWorker.ant_start smallFFT 1)
        ≤ fftWorker.readyIterations (List.replicate 10 {}) →
      (fftWorker smallFFT 1 (List.replicate 10 {})).1.in_loop = false ∧
      (fftWorker smallFFT 1 (List.replicate 10 {})).2 =
        (lexCoords smallFFT.frames_to_test smallFFT.symbol_num_perframe
          (fftWorker.ant_start smallFFT 1) (fftWorker.ant_end smallFFT 1)).flatMap fftCalls)) :=
  ⟨⟨by decide, by decide, by decide⟩, by decide,
   C9_fft_lexicographic_order smallFFT 1 (by decide) (by decide) (by decide)
     (List.replicate 10 {})⟩

/-- C10 (the code breaks it): with one antenna and two FFT workers, worker 0 owns the
empty shard `[0, 0)` and worker 1 owns `[0, 1)`, yet worker 0 launches the FFT and
publishes for antenna 0, then for antennas 1 and 2, never leaving frame 0, symbol 0. -/
theorem C10_fft_empty_shard_escapes :
    fftWorker.ant_start oneAntenna 0 = 0 ∧ fftWorker.ant_end oneAntenna 0 = 0 ∧
    fftWorker.ant_start oneAntenna 1 = 0 ∧ fftWorker.ant_end oneAntenna 1 = 1 ∧
    (fftWorker oneAntenna 0 (List.replicate 3 {})).2 =
      [Event.fft_Launch 0 0 0, Event.prepare_freq_iq_pkt 0 0 0,
       Event.fft_Launch 0 0 1, Event.prepare_freq_iq_pkt 0 0 1,
       Event.fft_Launch 0 0 2, Event.prepare_freq_iq_pkt 0 0 2] ∧
    (fftWorker oneAntenna 1 (List.replicate 3 {})).2 =
      [Event.fft_Launch 0 0 0, Event.prepare_freq_iq_pkt 0 0 0] := by
  decide

/-- C11: at 2 GHz a millisecond is 2 000 000 cycles of the timestamp counter, but the
sleep test compares the elapsed cycles with `freq_ghz_ / 1000 = 0.002`: in the partition
edge scenario an idle iteration of each of the four workers (its tracker predicate false,
no call made) takes the backoff sleep when the counter reads 1 and the previous sleep was
at 0, that is 1 cycle after the previous sleep, and so does an FFT iteration that found
its packets received and did its work. -/
theorem C11_backoff_sleeps_after_one_cycle :
    elapsed_tsc 1 0 = 1 ∧
    ((elapsed_tsc 1 0 : Nat) : ℚ) < 2 * 1000000 ∧
    ((fftWorker.iteration partitionEdge 1 2 { received_all_time_iq_pkts := false } 1
        (fftWorker.init partitionEdge 1) 0).slept = true ∧
      (fftWorker.iteration partitionEdge 1 2 { received_all_time_iq_pkts := false } 1
        (fftWorker.init partitionEdge 1) 0).events = []) ∧
    (zfWorker.iteration partitionEdge 1 2 { received_all_pilot_pkts := false } 1
        zfWorker.init 0).map (fun r => (r.slept, r.events)) = some (true, []) ∧
    (demulWorker.iteration partitionEdge 1 2 { received_all_zf_pkts := false } 1
        demulWorker.init 0).map (fun r => (r.slept, r.events)) = some (true, []) ∧
    (decodeWorker.iteration partitionEdge 2 { received_all_demod_pkts := false } 1
        (decodeWorker.init partitionEdge 1) 0).map (fun r => (r.slept, r.events))
      = some (true, []) ∧
    ((fftWorker.iteration partitionEdge 1 2 {} 1 (fftWorker.init partitionEdge 1) 0).slept
        = true ∧
      (fftWorker.iteration partitionEdge 1 2 {} 1 (fftWorker.init partitionEdge 1) 0).events
        = [Event.fft_Launch 0 0 16, Event.prepare_freq_iq_pkt 0 0 16]) := by
  have h1 : ((elapsed_tsc 1 0 : Nat) : ℚ) > 2 / 1000 := by norm_num [elapsed_tsc]
  have hb : backoff 2 1 0 = (1, true) := by simp [backoff, h1]
  refine ⟨by decide, by norm_num [elapsed_tsc], ⟨?_, by decide⟩, ?_, ?_, ?_, ?_, by decide⟩
  · simp [fftWorker.iteration, fftWorker.body, fftWorker.init, hb]
  · simp [zfWorker.iteration, zfWorker.body, hb]
  · simp [demulWorker.iteration, demulWorker.body, hb]
  · simp [decodeWorker.iteration, decodeWorker.body, hb, partitionEdge]
  · simp [fftWorker.iteration, fftWorker.body, fftWorker.init, hb, partitionEdge,
      fftWorker.ant_start, fftWorker.ant_end]

/-- C12: whenever the tracker call a ZF, Demul or Decode worker makes after its work
(`prepare_zf_pkt`, `prepare_demod_pkt`, `decode_done`) returns false, the iteration ends
with `config_->error` true and `config_->running` false, the tracker call is the last
call of that iteration, and whatever the environment answers afterwards the worker makes
no further call and leaves its loop at the next loop test. -/
theorem C12_tracker_failure_stops_worker (cfg : Config) (tid : Nat) :
    (∀ (o : ZFObs) (st st' : ZFState) (evs : List Event),
      o.received_all_pilot_pkts = true → o.prepare_zf_pkt = false →
      zfWorker.body cfg tid o st = some (st', evs) →
      st'.error = true ∧ st'.running = false ∧
      evs.getLast? = some (Event.prepare_zf_pkt st.cur_zf_frame) ∧
      ∀ os, trace (zfWorker.run cfg tid os st') = some [] ∧
        (os ≠ [] → (zfWorker.run cfg tid os st').map (fun r => r.1.in_loop) = some false)) ∧
    (∀ (o : DemulObs) (st st' : DemulState) (evs : List Event),
      o.received_all_zf_pkts = true → o.received_all_ul_data_pkts = true →
      o.prepare_demod_pkt = false →
      demulWorker.body cfg tid o st = some (st', evs) →
      st'.error = true ∧ st'.running = false ∧
      evs.getLast? = some (Event.prepare_demod_pkt st.cur_demul_frame st.cur_demul_symbol_ul
        (demulWorker.sc_end cfg tid - demulWorker.sc_start cfg tid)) ∧
      ∀ os, trace (demulWorker.run cfg tid os st') = some [] ∧
        (os ≠ [] →
          (demulWorker.run cfg tid os st').map (fun r => r.1.in_loop) = some false)) ∧
    (∀ (o : DecodeObs) (st st' : DecodeState) (evs : List Event),
      o.received_all_demod_pkts = true → o.decode_done = false →
      Event.decode_done st.cur_decode_frame ∈ evs →
      decodeWorker.body cfg o st = some (st', evs) →
      st'.error = true ∧ st'.running = false ∧
      evs.getLast? = some (Event.decode_done st.cur_decode_frame) ∧
      ∀ os, trace (decodeWorker.run cfg os st') = some [] ∧
        (os ≠ [] → (decodeWorker.run cfg os st').map (fun r => r.1.in_loop) = some false)) := by
  refine ⟨?_, ?_, ?_⟩
  · intro o st st' evs hr hp hb
    unfold zfWorker.body at hb
    rw [if_pos hr] at hb
    cases hv : zfWorker.visited cfg tid st.cur_zf_frame with
    | none => simp [hv] at hb
    | some scs =>
      simp only [hv, Option.map_some', hp, Bool.false_eq_true, if_false, Option.some.injEq,
        Prod.mk.injEq] at hb
      obtain ⟨h1, h2⟩ := hb
      subst h1 h2
      exact ⟨rfl, rfl, by simp, zf_run_stopped cfg tid _ rfl⟩
  · intro o st st' evs hz hu hp hb
    unfold demulWorker.body at hb
    rw [hz, hu] at hb
    cases hv : demulWorker.blocks cfg tid with
    | none => simp [hv] at hb
    | some bs =>
      simp only [hv, Bool.and_self, if_true, Option.map_some', hp, Bool.false_eq_true,
        if_false, Option.some.injEq, Prod.mk.injEq] at hb
      obtain ⟨h1, h2⟩ := hb
      subst h1 h2
      have hrun : (demulWorker.advance cfg
          { st with error := true, running := false }).running = false := by
        unfold demulWorker.advance
        dsimp only
        split_ifs <;> rfl
      have herr : (demulWorker.advance cfg
          { st with error := true, running := false }).error = true := by
        unfold demulWorker.advance
        dsimp only
        split_ifs <;> rfl
      exact ⟨herr, hrun, by simp, demul_run_stopped cfg tid _ hrun⟩
  · intro o st st' evs hr hd hmem hb
    unfold decodeWorker.body at hb
    by_cases hU : cfg.num_ues_to_process = 0
    · simp [hU] at hb
    · rw [if_neg hU] at hb
      simp only [hr, if_true, hd, Bool.false_eq_true, if_false] at hb
      by_cases hw : st.cur_decode_idx + cfg.num_demul_workers cfg.bs_server_addr_idx
          ≥ cfg.num_ues_to_process * cfg.ul_data_symbol_num_perframe
      · rw [if_pos hw] at hb
        simp only [Option.some.injEq, Prod.mk.injEq] at hb
        obtain ⟨h1, h2⟩ := hb
        subst h1 h2
        exact ⟨rfl, rfl, by simp, decode_run_stopped cfg _ rfl⟩
      · rw [if_neg hw] at hb
        simp only [Option.some.injEq, Prod.mk.injEq] at hb
        obtain ⟨_, h2⟩ := hb
        subst h2
        simp at hmem

theorem C12_tracker_failure_stops_worker_witness :
    (({ decode_done := false } : DecodeObs).received_all_demod_pkts = true ∧
      ({ decode_done := false } : DecodeObs).decode_done = false ∧
      Event.decode_done 0 ∈ [Event.decode_LaunchStatic 0 1 0, Event.decode_done 0] ∧
      decodeWorker.body twoDecoders { decode_done := false }
          { cur_decode_frame := 0, cur_decode_idx := 2, running := true, error := false,
            in_loop := true }
        = some ({ cur_decode_frame := 1, cur_decode_idx := 0, running := false,
                  error := true, in_loop := true },
                [Event.decode_LaunchStatic 0 1 0, Event.decode_done 0])) ∧
    trace (decodeWorker.run twoDecoders [{}, {}]
      { cur_decode_frame := 1, cur_decode_idx := 0, running := false, error := true,
        in_loop := true }) = some [] :=
  ⟨⟨by decide, by decide, by decide, by decide⟩,
   (((C12_tracker_failure_stops_worker twoDecoders 0).2.2 { decode_done := false }
      { cur_decode_frame := 0, cur_decode_idx := 2, running := true, error := false,
        in_loop := true }
      { cur_decode_frame := 1, cur_decode_idx := 0, running := false, error := true,
        in_loop := true }
      [Event.decode_LaunchStatic 0 1 0, Event.decode_done 0]
      (by decide) (by decide) (by decide) (by decide)).2.2.2
      [{}, {}]).1⟩

/-- C13 (the code breaks it): the destructor calls `freeBigStationBuffers()` first and
joins the worker threads afterwards, so in its sequence of actions the three buffer
frees precede every join: with two workers per pool, 3 frees are followed by 8 joins. -/
theorem C13_buffers_freed_before_joins :
    BigStation.destructor partitionEdge =
      [TeardownAction.free Buffer.time_iq_buffer_,
       TeardownAction.free Buffer.freq_iq_buffer_to_send_,
       TeardownAction.free Buffer.freq_iq_buffer_,
       TeardownAction.join Pool.do_fft_threads_ 0, TeardownAction.join Pool.do_fft_threads_ 1,
       TeardownAction.join Pool.do_zf_threads_ 0, TeardownAction.join Pool.do_zf_threads_ 1,
       TeardownAction.join Pool.do_demul_threads_ 0,
       TeardownAction.join Pool.do_demul_threads_ 1,
       TeardownAction.join Pool.do_decode_threads_ 0,
       TeardownAction.join Pool.do_decode_threads_ 1] ∧
    joinsBeforeFrees (BigStation.destructor partitionEdge) = false := by
  decide

/-- C14: on every path by which `Start()` returns (`StartTXRX` failing, the loop test of
the Running loop failing on an exit signal or on `running` cleared by a worker, or
`cur_frame_` reaching `frames_to_test`), `Stop()` has been executed exactly once, as the
last call, so `running` is false and the I/O plane has been released; the Running loop is
left on the frame condition only with `cur_frame_ = frames_to_test`; and `Start()` does
return when `StartTXRX` fails, and when each of its two loops observes its exit
condition. -/
theorem C14_start_stops_exactly_once (cfg : Config) (env : StartEnv) :
    (∀ path st, BigStation.Start cfg env = some (path, st) →
      st.calls.count MasterCall.Stop = 1 ∧ st.calls.getLast? = some MasterCall.Stop ∧
      st.running = false ∧ st.tx_rx_released = true ∧
      (∀ cf, path = ExitPath.frame_condition cf → cf = cfg.frames_to_test)) ∧
    (env.StartTXRX = false →
      ∃ st, BigStation.Start cfg env = some (ExitPath.txrx_failed, st)) ∧
    (env.wait.any (fun o => o.rru_start_ || o.gotExitSignal) = true →
      env.running.any (fun o => !(o.running && !o.gotExitSignal)
        || decide (o.cur_frame_ = cfg.frames_to_test)) = true →
      ∃ path st, BigStation.Start cfg env = some (path, st)) := by
  refine ⟨?_, ?_, ?_⟩
  · intro path st h
    unfold BigStation.Start at h
    by_cases ht : env.StartTXRX = true
    · simp only [ht, Bool.not_true, Bool.false_eq_true, if_false] at h
      cases hw : BigStation.wait_loop env.wait with
      | none => simp [hw] at h
      | some cs =>
        cases hr : BigStation.running_loop cfg env.running with
        | none => simp [hw, hr] at h
        | some p =>
          simp only [hw, hr, Option.some.injEq, Prod.mk.injEq] at h
          obtain ⟨h1, h2⟩ := h
          subst h1 h2
          have hcs := wait_loop_no_stop env.wait cs hw
          refine ⟨?_, ?_, rfl, rfl, ?_⟩
          · simp [BigStation.Stop, BigStation.started, List.count_append, List.count_cons, hcs]
          · show (([] ++ [MasterCall.StartTXRX] ++ cs) ++ [MasterCall.Stop]).getLast?
              = some MasterCall.Stop
            rw [List.getLast?_concat]
          · intro cf hcf
            subst hcf
            exact running_loop_frame cfg env.running cf hr
    · have ht' : env.StartTXRX = false := by simpa using ht
      simp only [ht', Bool.not_false, if_true, Option.some.injEq, Prod.mk.injEq] at h
      obtain ⟨h1, h2⟩ := h
      subst h1 h2
      refine ⟨by decide, by decide, rfl, rfl, ?_⟩
      intro cf hcf
      cases hcf
  · intro ht
    unfold BigStation.Start
    simp only [ht, Bool.not_false, if_true]
    exact ⟨_, rfl⟩
  · intro hw hr
    obtain ⟨cs, hcs⟩ := wait_loop_returns env.wait hw
    obtain ⟨p, hp⟩ := running_loop_returns cfg env.running hr
    unfold BigStation.Start
    by_cases ht : env.StartTXRX = true
    · simp only [ht, Bool.not_true, Bool.false_eq_true, if_false, hcs, hp]
      exact ⟨_, _, rfl⟩
    · have ht' : env.StartTXRX = false := by simpa using ht
      simp only [ht', Bool.not_false, if_true]
      exact ⟨_, _, rfl⟩

theorem C14_start_stops_exactly_once_witness :
    BigStation.Start partitionEdge
        { wait := [{}, { rru_start_ := true }],
          running := [{ cur_frame_ := 999 }, { cur_frame_ := 1000 }] }
      = some (ExitPath.frame_condition 1000,
          { running := false, tx_rx_released := true,
            calls := [MasterCall.StartTXRX, MasterCall.notify_sender, MasterCall.Stop] }) ∧
    ([MasterCall.StartTXRX, MasterCall.notify_sender, MasterCall.Stop].count MasterCall.Stop = 1 ∧
      [MasterCall.StartTXRX, MasterCall.notify_sender, MasterCall.Stop].getLast?
        = some MasterCall.Stop ∧
      false = false ∧ true = true ∧
      (∀ cf, ExitPath.frame_condition 1000 = ExitPath.frame_condition cf →
        cf = partitionEdge.frames_to_test)) :=
  ⟨by decide,
   (C14_start_stops_exactly_once partitionEdge
      { wait := [{}, { rru_start_ := true }],
        running := [{ cur_frame_ := 999 }, { cur_frame_ := 1000 }] }).1
      (ExitPath.frame_condition 1000)
      { running := false, tx_rx_released := true,
        calls := [MasterCall.StartTXRX, MasterCall.notify_sender, MasterCall.Stop] }
      (by decide)⟩

/-- C15: in an iteration of the ZF worker whose pilot predicate is true for frame `f`
(with `UE_NUM ≥ 1`), if `first_possible_sc > last_possible_sc` then the only call is
`prepare_zf_pkt(f)` and `cur_zf_frame` becomes `f + 1`; in general an iteration that
completes makes its `runCsi` / `ZFFreqOrthogonalStatic` calls first and then exactly one
`prepare_zf_pkt(f)` call, and `cur_zf_frame` becomes `f + 1`; the iteration completes
whenever the values of the subcarrier loop fit its `int` variables. -/
theorem C15_zf_publishes_once_per_frame (cfg : Config) (tid : Nat) (o : ZFObs) (st : ZFState)
    (hU : 1 ≤ cfg.UE_NUM) (hp : o.received_all_pilot_pkts = true) :
    (zfWorker.first_possible_sc cfg tid st.cur_zf_frame
        > zfWorker.last_possible_sc cfg tid st.cur_zf_frame →
      ∃ st', zfWorker.body cfg tid o st = some (st', [Event.prepare_zf_pkt st.cur_zf_frame]) ∧
        st'.cur_zf_frame = st.cur_zf_frame + 1) ∧
    (∀ st' evs, zfWorker.body cfg tid o st = some (st', evs) →
      st'.cur_zf_frame = st.cur_zf_frame + 1 ∧
      evs.count (Event.prepare_zf_pkt st.cur_zf_frame) = 1 ∧
      ∃ scs : List Int, evs = scs.flatMap (zfWorker.kernel_calls cfg st.cur_zf_frame) ++
        [Event.prepare_zf_pkt st.cur_zf_frame]) ∧
    (zfWorker.sc_end cfg tid + cfg.UE_NUM ≤ 2147483648 →
      ∃ st' evs, zfWorker.body cfg tid o st = some (st', evs)) := by
  have hU0 : cfg.UE_NUM ≠ 0 := by omega
  refine ⟨?_, ?_, ?_⟩
  · intro hgt
    have hv : zfWorker.visited cfg tid st.cur_zf_frame = some [] := by
      unfold zfWorker.visited
      rw [if_neg hU0, if_neg (by omega)]
    unfold zfWorker.body
    rw [if_pos hp, hv]
    cases o.prepare_zf_pkt <;> simp
  · intro st' evs hb
    obtain ⟨scs, _, h2, h3⟩ := zf_body_shape cfg tid o st st' evs hp hb
    refine ⟨h3, ?_, scs, h2⟩
    rw [h2, List.count_append, kernel_calls_no_prepare]
    simp
  · intro hfit
    obtain ⟨scs, hv, _⟩ := visited_spec cfg tid st.cur_zf_frame hU hfit
    unfold zfWorker.body
    rw [if_pos hp, hv]
    cases o.prepare_zf_pkt <;> simp

theorem C15_zf_publishes_once_per_frame_witness :
    (1 ≤ narrowZF.UE_NUM ∧ ({} : ZFObs).received_all_pilot_pkts = true ∧
      zfWorker.first_possible_sc narrowZF 0 5 > zfWorker.last_possible_sc narrowZF 0 5) ∧
    zfWorker.first_possible_sc narrowZF 0 5 = 5 ∧
    zfWorker.last_possible_sc narrowZF 0 5 = -11 ∧
    ∃ st', zfWorker.body narrowZF 0 {}
        { cur_zf_frame := 5, running := true, error := false, in_loop := true }
        = some (st', [Event.prepare_zf_pkt 5]) ∧
      st'.cur_zf_frame = 5 + 1 :=
  ⟨⟨by decide, by decide, by decide⟩, by decide, by decide,
   (C15_zf_publishes_once_per_frame narrowZF 0 {}
      { cur_zf_frame := 5, running := true, error := false, in_loop := true }
      (by decide) (by decide)).1 (by decide)⟩

/-- C16: for every frame `f`, a decode worker (with `get_num_ues_to_process() ≥ 1`, against
any environment) calls `decode_done(f)` exactly once if it has completed frame `f`
(`f < cur_decode_frame`) and never otherwise; the call directly follows the worker's last
launch of frame `f`, every launch before it is of frame `f` or earlier and every launch
after it of frame `f + 1` or later; and the iteration that makes the call is the one in
which `cur_decode_frame` becomes `f + 1`. -/
theorem C16_decode_done_once_per_frame (cfg : Config) (tid : Nat)
    (hU : 1 ≤ cfg.num_ues_to_process) (obs : List DecodeObs) :
    (∃ st evs, decodeWorker cfg tid obs = some (st, evs) ∧
      DecodeOrdered 0 evs ∧
      ∀ f, evs.count (Event.decode_done f) = if f < st.cur_decode_frame then 1 else 0) ∧
    (∀ (o : DecodeObs) (s : DecodeState), ∃ s' e, decodeWorker.body cfg o s = some (s', e) ∧
      s'.cur_decode_frame =
        if Event.decode_done s.cur_decode_frame ∈ e then s.cur_decode_frame + 1
        else s.cur_decode_frame) := by
  have hU0 : cfg.num_ues_to_process ≠ 0 := by omega
  refine ⟨?_, ?_⟩
  · obtain ⟨r, h1, h2, _, h4⟩ := decode_run_ordered cfg hU0 obs (decodeWorker.init cfg tid)
    refine ⟨r.1, r.2, h1, h2, ?_⟩
    intro f
    rw [h4 f]
    simp [decodeWorker.init]
  · intro o s
    obtain ⟨s', e, hb, _, hcase⟩ := decode_body_cases cfg o s hU0
    refine ⟨s', e, hb, ?_⟩
    rcases hcase with ⟨h1, h2⟩ | ⟨a, u, h1, h2⟩ | ⟨a, u, h1, h2⟩
    · subst h1 h2; simp
    · subst h1; simp [h2]
    · subst h1; simp [h2]

theorem C16_decode_done_once_per_frame_witness :
    1 ≤ twoDecoders.num_ues_to_process ∧
    trace (decodeWorker twoDecoders 1 (List.replicate 5 {})) =
      some [Event.decode_LaunchStatic 0 0 1, Event.decode_LaunchStatic 0 1 1,
            Event.decode_done 0,
            Event.decode_LaunchStatic 1 0 0, Event.decode_LaunchStatic 1 1 0,
            Event.decode_done 1,
            Event.decode_LaunchStatic 2 0 0] ∧
    ((∃ st evs, decodeWorker twoDecoders 1 (List.replicate 5 {}) = some (st, evs) ∧
      DecodeOrdered 0 evs ∧
      ∀ f, evs.count (Event.decode_done f) = if f < st.cur_decode_frame then 1 else 0) ∧
    (∀ (o : DecodeObs) (s : DecodeState),
      ∃ s' e, decodeWorker.body twoDecoders o s = some (s', e) ∧
      s'.cur_decode_frame =
        if Event.decode_done s.cur_decode_frame ∈ e then s.cur_decode_frame + 1
        else s.cur_decode_frame)) :=
  ⟨by decide, by decide,
   C16_decode_done_once_per_frame twoDecoders 1 (by decide) (List.replicate 5 {})⟩

/-- C17: for `ul_data_symbol_num_perframe = S_ul ≥ 1` (and `demul_block_size ≥ 1`),
against any environment, the (frame, uplink symbol) pairs a Demul worker processes are
the first `k` pairs `(i / S_ul, i mod S_ul)`, `i = 0, 1, ..., k-1`, of the lexicographic
sequence `(0,0), (0,1), ..., (0,S_ul-1), (1,0), ...`, each processed once by launching
the blocks of the shard and then calling `prepare_demod_pkt`; after `k` pairs the cursor
is `(k / S_ul, k mod S_ul)`, so the symbol cursor stays below `S_ul`. -/
theorem C17_demul_cursor_lexicographic (cfg : Config) (tid : Nat)
    (hS : 1 ≤ cfg.ul_data_symbol_num_perframe) (hB : 1 ≤ cfg.demul_block_size)
    (obs : List DemulObs) :
    ∃ bs st k, demulWorker.blocks cfg tid = some bs ∧
      demulWorker cfg tid obs = some (st,
        (List.range k).flatMap (fun i =>
          demulWorker.pair_calls cfg tid bs (i / cfg.ul_data_symbol_num_perframe)
            (i % cfg.ul_data_symbol_num_perframe))) ∧
      st.cur_demul_frame = k / cfg.ul_data_symbol_num_perframe ∧
      st.cur_demul_symbol_ul = k % cfg.ul_data_symbol_num_perframe ∧
      st.cur_demul_symbol_ul < cfg.ul_data_symbol_num_perframe := by
  obtain ⟨bs, hbs⟩ := blocks_of_returns cfg.demul_block_size
    (demulWorker.sc_start cfg tid) (demulWorker.sc_end cfg tid) hB
  obtain ⟨r, k, hrun, htr, hfin, hsr⟩ :=
    demul_run_cursor cfg tid bs hbs obs demulWorker.init (by show 0 < _; omega)
  simp only [demulWorker.init, Nat.zero_mul, Nat.add_zero, Nat.zero_add] at htr hfin
  obtain ⟨e1, e2⟩ := pos_div_mod r.1.cur_demul_frame r.1.cur_demul_symbol_ul
    cfg.ul_data_symbol_num_perframe hsr
  rw [hfin] at e1 e2
  refine ⟨bs, r.1, k, hbs, ?_, e1.symm, e2.symm, hsr⟩
  show demulWorker.run cfg tid obs demulWorker.init = _
  rw [hrun, List.range_eq_range', ← htr]

theorem C17_demul_cursor_lexicographic_witness :
    (1 ≤ smallDemul.ul_data_symbol_num_perframe ∧ 1 ≤ smallDemul.demul_block_size) ∧
    trace (demulWorker smallDemul 0 (List.replicate 3 {})) =
      some [Event.demul_LaunchStatic 0 0 0 4, Event.prepare_demod_pkt 0 0 4,
            Event.demul_LaunchStatic 0 1 0 4, Event.prepare_demod_pkt 0 1 4,
            Event.demul_LaunchStatic 1 0 0 4, Event.prepare_demod_pkt 1 0 4] ∧
    ∃ bs st k, demulWorker.blocks smallDemul 0 = some bs ∧
      demulWorker smallDemul 0 (List.replicate 3 {}) = some (st,
        (List.range k).flatMap (fun i =>
          demulWorker.pair_calls smallDemul 0 bs (i / smallDemul.ul_data_symbol_num_perframe)
            (i % smallDemul.ul_data_symbol_num_perframe))) ∧
      st.cur_demul_frame = k / smallDemul.ul_data_symbol_num_perframe ∧
      st.cur_demul_symbol_ul = k % smallDemul.ul_data_symbol_num_perframe ∧
      st.cur_demul_symbol_ul < smallDemul.ul_data_symbol_num_perframe :=
  ⟨⟨by decide, by decide⟩, by decide,
   C17_demul_cursor_lexicographic smallDemul 0 (by decide) (by decide) (List.replicate 3 {})⟩

/-- C18 (the code breaks it): on a server with two FFT workers whose configuration has
`num_fft_workers[bs_rru_addr_idx] = 1`, FFT worker 1 and ZF worker 0 both pass the core
index 1 to `pin_to_core_with_offset`: the workers are counted with `bs_server_addr_idx`
but offset with `bs_rru_addr_idx`. -/
theorem C18_core_ids_collide :
    fftWorker.core_id unevenServers (1 + unevenServers.fft_thread_offset) = 1 ∧
    zfWorker.core_id unevenServers (0 + unevenServers.zf_thread_offset) = 1 ∧
    BigStation.worker_core_ids unevenServers = [0, 1, 1, 2, 3] ∧
    ¬ (BigStation.worker_core_ids unevenServers).Nodup := by
  decide

/-- C19: for every frame, UE count `U ≥ 1`, subcarrier count `C` and ZF worker count
`T ≥ 1` (with `C + U ≤ 2^31`, so that the `int` variables of the loop do not wrap), every
ZF worker's iteration for the frame returns and passes each of its groups once, to
`runCsi` and to `ZFFreqOrthogonalStatic` alike; every full group `[g, g + U)` inside
`[0, C)`, `g` a multiple of `U`, is passed by exactly one of the workers `t < T`, also
when it straddles a shard boundary; and no group, full or partial, is passed by two
different workers. -/
theorem C19_zf_groups_processed_once (cfg : Config) (f : Nat) (hU : 1 ≤ cfg.UE_NUM)
    (hT : 1 ≤ cfg.total_zf_workers)
    (hfit : cfg.OFDM_DATA_NUM + cfg.UE_NUM ≤ 2147483648) :
    (∀ t, t < cfg.total_zf_workers →
      ∃ gs, zfWorker.groups cfg t f = some gs ∧
        (zfWorker.frame_events cfg t f).map zfGroups = some gs ∧ gs.Nodup) ∧
    (∀ g, cfg.UE_NUM ∣ g → g + cfg.UE_NUM ≤ cfg.OFDM_DATA_NUM →
      ∃! t, t < cfg.total_zf_workers ∧ ∃ gs, zfWorker.groups cfg t f = some gs ∧ g ∈ gs) ∧
    (∀ g t t' gs gs', t < cfg.total_zf_workers → t' < cfg.total_zf_workers →
      zfWorker.groups cfg t f = some gs → zfWorker.groups cfg t' f = some gs' →
      g ∈ gs → g ∈ gs' → t = t') := by
  have hend : ∀ t, t < cfg.total_zf_workers →
      zfWorker.sc_end cfg t + cfg.UE_NUM ≤ 2147483648 := by
    intro t ht
    have h1 : zfWorker.sc_end cfg t ≤ cfg.total_zf_workers * cfg.OFDM_DATA_NUM
        / cfg.total_zf_workers :=
      floor_bound_mono cfg.OFDM_DATA_NUM cfg.total_zf_workers (show t + 1 ≤ _ from ht)
    rw [floor_bound_last _ _ hT] at h1
    omega
  have hle : ∀ t, t < cfg.total_zf_workers → zfWorker.sc_end cfg t ≤ cfg.OFDM_DATA_NUM := by
    intro t ht
    have h1 : zfWorker.sc_end cfg t ≤ cfg.total_zf_workers * cfg.OFDM_DATA_NUM
        / cfg.total_zf_workers :=
      floor_bound_mono cfg.OFDM_DATA_NUM cfg.total_zf_workers (show t + 1 ≤ _ from ht)
    rw [floor_bound_last _ _ hT] at h1
    exact h1
  have ho : cfg.simple_hash f % cfg.UE_NUM < cfg.UE_NUM := Nat.mod_lt _ (by omega)
  have htile := (floor_partition_tiles cfg.OFDM_DATA_NUM cfg.total_zf_workers hT).2.2.2.1
  refine ⟨?_, ?_, ?_⟩
  · intro t ht
    obtain ⟨gs, h1, h2, h3, _⟩ := zf_groups_spec cfg t f hU (hend t ht)
    exact ⟨gs, h1, h2, h3⟩
  · intro g hd hg
    obtain ⟨t, ⟨ht, h1, h2⟩, huniq⟩ :=
      htile (g + cfg.simple_hash f % cfg.UE_NUM) (by omega)
    obtain ⟨gs, hgs, _, _, hmem⟩ := zf_groups_spec cfg t f hU (hend t ht)
    refine ⟨t, ⟨ht, gs, hgs, (hmem g).2 ⟨hd, h1, h2⟩⟩, ?_⟩
    rintro t' ⟨ht', gs', hgs', hg'⟩
    obtain ⟨gs'', hgs'', _, _, hmem'⟩ := zf_groups_spec cfg t' f hU (hend t' ht')
    rw [hgs'] at hgs''
    cases hgs''
    obtain ⟨_, k1, k2⟩ := (hmem' g).1 hg'
    exact huniq t' ⟨ht', k1, k2⟩
  · intro g t t' gs gs' ht ht' hgs hgs' hg hg'
    obtain ⟨gs1, e1, _, _, hmem⟩ := zf_groups_spec cfg t f hU (hend t ht)
    obtain ⟨gs2, e2, _, _, hmem'⟩ := zf_groups_spec cfg t' f hU (hend t' ht')
    rw [hgs] at e1
    rw [hgs'] at e2
    cases e1
    cases e2
    obtain ⟨_, a1, a2⟩ := (hmem g).1 hg
    obtain ⟨_, b1, b2⟩ := (hmem' g).1 hg'
    have hx : g + cfg.simple_hash f % cfg.UE_NUM < cfg.OFDM_DATA_NUM := by
      have := hle t ht
      omega
    obtain ⟨s, _, huniq⟩ := htile (g + cfg.simple_hash f % cfg.UE_NUM) hx
    rw [huniq t ⟨ht, a1, a2⟩, huniq t' ⟨ht', b1, b2⟩]

theorem C19_zf_groups_processed_once_witness :
    (1 ≤ stridedZF.UE_NUM ∧ 1 ≤ stridedZF.total_zf_workers ∧
      stridedZF.OFDM_DATA_NUM + stridedZF.UE_NUM ≤ 2147483648) ∧
    (zfWorker.groups stridedZF 0 7 = some [0, 4, 8] ∧
      zfWorker.groups stridedZF 1 7 = some [12, 16, 20] ∧
      zfWorker.groups stridedZF 2 7 = some [24, 28, 32, 36]) ∧
    ((∀ t, t < stridedZF.total_zf_workers →
      ∃ gs, zfWorker.groups stridedZF t 7 = some gs ∧
        (zfWorker.frame_events stridedZF t 7).map zfGroups = some gs ∧ gs.Nodup) ∧
    (∀ g, stridedZF.UE_NUM ∣ g → g + stridedZF.UE_NUM ≤ stridedZF.OFDM_DATA_NUM →
      ∃! t, t < stridedZF.total_zf_workers ∧
        ∃ gs, zfWorker.groups stridedZF t 7 = some gs ∧ g ∈ gs) ∧
    (∀ g t t' gs gs', t < stridedZF.total_zf_workers → t' < stridedZF.total_zf_workers →
      zfWorker.groups stridedZF t 7 = some gs → zfWorker.groups stridedZF t' 7 = some gs' →
      g ∈ gs → g ∈ gs' → t = t')) :=
  ⟨⟨by decide, by decide, by decide⟩, ⟨by decide, by decide, by decide⟩,
   C19_zf_groups_processed_once stridedZF 7 (by decide) (by decide) (by decide)⟩

/-- C20: for every dimension size and worker count `T ≥ 1`, every shard
`[t*D/T, (t+1)*D/T)` of the FFT, ZF and Demul workers with `t < T` has size `floor(D/T)`
or `ceil(D/T)`, any two shard sizes differ by at most one, and the shard boundaries are
non-decreasing in `t`. -/
theorem C20_shards_balanced (cfg : Config) :
    (1 ≤ cfg.total_fft_workers →
      BalancedShards (fftWorker.ant_start cfg) (fftWorker.ant_end cfg)
        cfg.total_fft_workers cfg.BS_ANT_NUM) ∧
    (1 ≤ cfg.total_zf_workers →
      BalancedShards (zfWorker.sc_start cfg) (zfWorker.sc_end cfg)
        cfg.total_zf_workers cfg.OFDM_DATA_NUM) ∧
    (1 ≤ cfg.total_demul_workers →
      BalancedShards (demulWorker.sc_start cfg) (demulWorker.sc_end cfg)
        cfg.total_demul_workers cfg.OFDM_DATA_NUM) :=
  ⟨fun h => floor_partition_balanced cfg.BS_ANT_NUM cfg.total_fft_workers h,
   fun h => floor_partition_balanced cfg.OFDM_DATA_NUM cfg.total_zf_workers h,
   fun h => floor_partition_balanced cfg.OFDM_DATA_NUM cfg.total_demul_workers h⟩

theorem C20_shards_balanced_witness :
    (1 ≤ partitionEdge.total_fft_workers ∧ 1 ≤ partitionEdge.total_zf_workers ∧
      1 ≤ partitionEdge.total_demul_workers) ∧
    BalancedShards (fftWorker.ant_start partitionEdge) (fftWorker.ant_end partitionEdge) 4 64 ∧
    BalancedShards (zfWorker.sc_start partitionEdge) (zfWorker.sc_end partitionEdge) 4 1201 ∧
    BalancedShards (demulWorker.sc_start partitionEdge) (demulWorker.sc_end partitionEdge)
      4 1201 :=
  ⟨⟨by decide, by decide, by decide⟩,
   (C20_shards_balanced partitionEdge).1 (by decide),
   (C20_shards_balanced partitionEdge).2.1 (by decide),
   (C20_shards_balanced partitionEdge).2.2 (by decide)⟩

/-- C21 (counterexample): with transpose blocks of 8 subcarriers and `UE_NUM = 4`, the call
`runCsi(0, 4, 4, csi_buffer)` that `zfWorker` makes for the subcarriers 4..7 stores the
subcarriers 0..7, and the call `runCsi(0, 0, 4, csi_buffer)` stores nothing: neither is the
set of stores over `[base_sc_id, base_sc_id + sc_block_size)`. -/
theorem C21_runCsi_unaligned_range :
    (BigStation.runCsi blocksOf8 fourUsers 0 4 4).map (fun w => w.sc)
        = [0, 1, 2, 3, 4, 5, 6, 7]
    ∧ (claimedCsiWrites blocksOf8 fourUsers 0 4 4).map (fun w => w.sc) = [4, 5, 6, 7]
    ∧ BigStation.runCsi blocksOf8 fourUsers 0 4 4 ≠ claimedCsiWrites blocksOf8 fourUsers 0 4 4
    ∧ BigStation.runCsi blocksOf8 fourUsers 0 0 4 = []
    ∧ (claimedCsiWrites blocksOf8 fourUsers 0 0 4).map (fun w => w.sc) = [0, 1, 2, 3] := by
  decide

/-- C21 (amended): with 8 subcarriers per cache line and `kTransposeBlockSize` a multiple
of 8, a call of `runCsi` whose `base_sc_id` and `sc_block_size` are multiples of
`kTransposeBlockSize` makes exactly the stores of the claim: a store is made iff it goes to
`csi_buffer[frame mod kFrameWnd][i]` for a pilot symbol `i < pilot_symbol_num_perframe`, an
antenna `j < BS_ANT_NUM` and a subcarrier `sc` of `[base_sc_id, base_sc_id + sc_block_size)`,
at offset `(sc / kTransposeBlockSize) * (kTransposeBlockSize * BS_ANT_NUM) +
j * kTransposeBlockSize + sc mod kTransposeBlockSize`, and no store is made twice. -/
theorem C21_runCsi_aligned_range (syms : Symbols) (cfg : Config)
    (frame_id base_sc_id sc_block_size : Nat)
    (hC : syms.kSCsPerCacheline = 8) (hK : 8 ∣ syms.kTransposeBlockSize)
    (hbase : syms.kTransposeBlockSize ∣ base_sc_id)
    (hsize : syms.kTransposeBlockSize ∣ sc_block_size) :
    BigStation.runCsi syms cfg frame_id base_sc_id sc_block_size
        = claimedCsiWrites syms cfg frame_id base_sc_id sc_block_size
    ∧ (∀ w : CsiWrite,
        w ∈ BigStation.runCsi syms cfg frame_id base_sc_id sc_block_size ↔
          w.frame_slot = frame_id % syms.kFrameWnd
          ∧ w.i < cfg.pilot_symbol_num_perframe ∧ w.j < cfg.BS_ANT_NUM
          ∧ base_sc_id ≤ w.sc ∧ w.sc < base_sc_id + sc_block_size
          ∧ w.offset = (w.sc / syms.kTransposeBlockSize)
                * (syms.kTransposeBlockSize * cfg.BS_ANT_NUM)
              + w.j * syms.kTransposeBlockSize + w.sc % syms.kTransposeBlockSize)
    ∧ (BigStation.runCsi syms cfg frame_id base_sc_id sc_block_size).Nodup := by
  have hfirst : base_sc_id / syms.kTransposeBlockSize * syms.kTransposeBlockSize
      = base_sc_id := Nat.div_mul_cancel hbase
  have hlast : (base_sc_id + sc_block_size) / syms.kTransposeBlockSize
      * syms.kTransposeBlockSize = base_sc_id + sc_block_size :=
    Nat.div_mul_cancel (Nat.dvd_add hbase hsize)
  have hcount : ((base_sc_id + sc_block_size) / syms.kTransposeBlockSize
      - base_sc_id / syms.kTransposeBlockSize) * syms.kTransposeBlockSize
      = sc_block_size := by
    rw [Nat.sub_mul, hfirst, hlast]; omega
  have heq : BigStation.runCsi syms cfg frame_id base_sc_id sc_block_size
      = claimedCsiWrites syms cfg frame_id base_sc_id sc_block_size := by
    rw [runCsi_whole_blocks syms cfg frame_id base_sc_id sc_block_size hC hK, hfirst, hcount]
  refine ⟨heq, fun w => ?_, ?_⟩
  · rw [heq]; exact mem_claimedCsiWrites syms cfg frame_id base_sc_id sc_block_size w
  · rw [heq]; exact claimedCsiWrites_nodup syms cfg frame_id base_sc_id sc_block_size

/-- C21 witness: transpose blocks of 8 subcarriers, the call `runCsi(0, 8, 8, csi_buffer)`. -/
theorem C21_runCsi_aligned_range_witness :
    blocksOf8.kSCsPerCacheline = 8 ∧ 8 ∣ blocksOf8.kTransposeBlockSize
    ∧ blocksOf8.kTransposeBlockSize ∣ 8
    ∧ (BigStation.runCsi blocksOf8 fourUsers 0 8 8).map (fun w => (w.sc, w.offset))
        = [(8, 8), (9, 9), (10, 10), (11, 11), (12, 12), (13, 13), (14, 14), (15, 15)]
    ∧ BigStation.runCsi blocksOf8 fourUsers 0 8 8 = claimedCsiWrites blocksOf8 fourUsers 0 8 8
    ∧ (BigStation.runCsi blocksOf8 fourUsers 0 8 8).Nodup :=
  ⟨rfl, by decide, by decide, by decide,
    (C21_runCsi_aligned_range blocksOf8 fourUsers 0 8 8 rfl (by decide) (by decide)
      (by decide)).1,
    (C21_runCsi_aligned_range blocksOf8 fourUsers 0 8 8 rfl (by decide) (by decide)
      (by decide)).2.2⟩

/-- C22: if a decode worker's initial index `tid - decode_thread_offset` is below
`U' * S_ul` (`U' = get_num_ues_to_process() ≥ 1`, `S_ul = ul_data_symbol_num_perframe`),
then against any environment the worker's run returns with `cur_decode_idx < U' * S_ul`
(so at the start of every loop iteration), the coordinate it queries next has symbol
`idx / U' < S_ul` and UE `idx mod U' < U'`, and every call of the decode kernel it has
made has its symbol below `S_ul` and its UE below `U'`. -/
theorem C22_decode_index_in_range (cfg : Config) (tid : Nat)
    (hU : 1 ≤ cfg.num_ues_to_process)
    (hinit : decodeWorker.tid_offset cfg tid
      < cfg.num_ues_to_process * cfg.ul_data_symbol_num_perframe)
    (obs : List DecodeObs) :
    ∃ st evs, decodeWorker cfg tid obs = some (st, evs) ∧
      st.cur_decode_idx < cfg.num_ues_to_process * cfg.ul_data_symbol_num_perframe ∧
      st.cur_decode_idx / cfg.num_ues_to_process < cfg.ul_data_symbol_num_perframe ∧
      st.cur_decode_idx % cfg.num_ues_to_process < cfg.num_ues_to_process ∧
      ∀ e ∈ evs, decodeInRange cfg e := by
  obtain ⟨r, hr, h1, h2⟩ :=
    decode_run_in_range cfg hU obs (decodeWorker.init cfg tid) hinit
  refine ⟨r.1, r.2, hr, h1, ?_, Nat.mod_lt _ (by omega), h2⟩
  exact (Nat.div_lt_iff_lt_mul (by omega)).2 (by rw [Nat.mul_comm]; exact h1)

theorem C22_decode_index_in_range_witness :
    (1 ≤ twoDecoders.num_ues_to_process ∧
      decodeWorker.tid_offset twoDecoders 1
        < twoDecoders.num_ues_to_process * twoDecoders.ul_data_symbol_num_perframe) ∧
    ∃ st evs, decodeWorker twoDecoders 1 (List.replicate 5 {}) = some (st, evs) ∧
      st.cur_decode_idx
        < twoDecoders.num_ues_to_process * twoDecoders.ul_data_symbol_num_perframe ∧
      st.cur_decode_idx / twoDecoders.num_ues_to_process
        < twoDecoders.ul_data_symbol_num_perframe ∧
      st.cur_decode_idx % twoDecoders.num_ues_to_process < twoDecoders.num_ues_to_process ∧
      ∀ e ∈ evs, decodeInRange twoDecoders e :=
  ⟨⟨by decide, by decide⟩,
   C22_decode_index_in_range twoDecoders 1 (by decide) (by decide) (List.replicate 5 {})⟩

/-- C23: for every tag with `ant_id < UE_ANT_NUM` (and `SOCKET_BUFFER_FRAME_NUM ≥ 1`),
`tag_to_tx_buffers_index` returns
`(frame_id mod SOCKET_BUFFER_FRAME_NUM) * UE_ANT_NUM + ant_id`, which is below
`SOCKET_BUFFER_FRAME_NUM * UE_ANT_NUM`, the number of rows allocated for `tx_buffers_`,
and two such tags map to the same index only if they have the same frame slot and the
same `ant_id`. -/
theorem C23_tx_buffers_index_in_rows (SOCKET_BUFFER_FRAME_NUM UE_ANT_NUM : Nat)
    (tag tag' : gen_tag_t) (hN : 1 ≤ SOCKET_BUFFER_FRAME_NUM)
    (ha : tag.ant_id < UE_ANT_NUM) (ha' : tag'.ant_id < UE_ANT_NUM) :
    MACSender.tag_to_tx_buffers_index SOCKET_BUFFER_FRAME_NUM UE_ANT_NUM tag
      = (tag.frame_id % SOCKET_BUFFER_FRAME_NUM) * UE_ANT_NUM + tag.ant_id ∧
    MACSender.tag_to_tx_buffers_index SOCKET_BUFFER_FRAME_NUM UE_ANT_NUM tag
      < MACSender.tx_buffers_rows SOCKET_BUFFER_FRAME_NUM UE_ANT_NUM ∧
    (MACSender.tag_to_tx_buffers_index SOCKET_BUFFER_FRAME_NUM UE_ANT_NUM tag
        = MACSender.tag_to_tx_buffers_index SOCKET_BUFFER_FRAME_NUM UE_ANT_NUM tag' →
      tag.frame_id % SOCKET_BUFFER_FRAME_NUM = tag'.frame_id % SOCKET_BUFFER_FRAME_NUM ∧
      tag.ant_id = tag'.ant_id) := by
  refine ⟨rfl, ?_, ?_⟩
  · unfold MACSender.tag_to_tx_buffers_index MACSender.tx_buffers_rows
    dsimp only
    have hslot : tag.frame_id % SOCKET_BUFFER_FRAME_NUM + 1 ≤ SOCKET_BUFFER_FRAME_NUM :=
      Nat.mod_lt _ (by omega)
    have := Nat.mul_le_mul_right UE_ANT_NUM hslot
    rw [Nat.add_mul, Nat.one_mul] at this
    omega
  · intro h
    unfold MACSender.tag_to_tx_buffers_index at h
    dsimp only at h
    obtain ⟨e1, e2⟩ := pos_div_mod (tag.frame_id % SOCKET_BUFFER_FRAME_NUM) tag.ant_id
      UE_ANT_NUM ha
    obtain ⟨e3, e4⟩ := pos_div_mod (tag'.frame_id % SOCKET_BUFFER_FRAME_NUM) tag'.ant_id
      UE_ANT_NUM ha'
    rw [h] at e1 e2
    exact ⟨e1.symm.trans e3, e2.symm.trans e4⟩

theorem C23_tx_buffers_index_in_rows_witness :
    (1 ≤ 40 ∧ ({ frame_id := 43, symbol_id := 0, ant_id := 2 } : gen_tag_t).ant_id < 4 ∧
      ({ frame_id := 3, symbol_id := 5, ant_id := 2 } : gen_tag_t).ant_id < 4) ∧
    MACSender.tag_to_tx_buffers_index 40 4 { frame_id := 43, symbol_id := 0, ant_id := 2 }
      = 14 ∧
    (MACSender.tag_to_tx_buffers_index 40 4 { frame_id := 43, symbol_id := 0, ant_id := 2 }
      = (({ frame_id := 43, symbol_id := 0, ant_id := 2 } : gen_tag_t).frame_id % 40) * 4
        + ({ frame_id := 43, symbol_id := 0, ant_id := 2 } : gen_tag_t).ant_id ∧
    MACSender.tag_to_tx_buffers_index 40 4 { frame_id := 43, symbol_id := 0, ant_id := 2 }
      < MACSender.tx_buffers_rows 40 4 ∧
    (MACSender.tag_to_tx_buffers_index 40 4 { frame_id := 43, symbol_id := 0, ant_id := 2 }
        = MACSender.tag_to_tx_buffers_index 40 4
            { frame_id := 3, symbol_id := 5, ant_id := 2 } →
      ({ frame_id := 43, symbol_id := 0, ant_id := 2 } : gen_tag_t).frame_id % 40
        = ({ frame_id := 3, symbol_id := 5, ant_id := 2 } : gen_tag_t).frame_id % 40 ∧
      ({ frame_id := 43, symbol_id := 0, ant_id := 2 } : gen_tag_t).ant_id
        = ({ frame_id := 3, symbol_id := 5, ant_id := 2 } : gen_tag_t).ant_id)) :=
  ⟨⟨by decide, by decide, by decide⟩, by decide,
   C23_tx_buffers_index_in_rows 40 4 { frame_id := 43, symbol_id := 0, ant_id := 2 }
     { frame_id := 3, symbol_id := 5, ant_id := 2 } (by decide) (by decide) (by decide)⟩

end Agora
